import Mathlib

/-! A verification model of the rust-slabmalloc (Theseus fork) slab allocator
core: `SCAllocator` (sc.rs), `ZoneAllocator` (zone.rs), and the backing-page
layer. The backing-page layer (`MappedPages8k` with its bitfield, and
`PageList`) is not among the sources at hand, so it is modelled from the
specification; every such definition is marked below. Machine pointers are
modelled as natural-number addresses with 0 in the role of the null pointer,
`Result<_, &'static str>` as `Except String _`, and a Rust panic (a failed
`assert!`, an `unwrap` of `None`, an out-of-bounds index) as `Option.none`
in the result type. All operations model release builds, in which
`debug_assert!` is compiled out while `assert!` stays active. -/

namespace Slabmalloc

set_option maxRecDepth 16000

/-- `MappedPages8k::SIZE`: the 8 KiB backing-page size. -/
def pageSize : Nat := 8192

/-- `MappedPages8k::METADATA_SIZE`: bytes of tail metadata (bitfield, links,
heap id, padding). The spec fixes it at 88 bytes (`8 KiB - 88 bytes`). -/
def metadataSize : Nat := 88

/-- `CACHE_LINE_SIZE` on the default (x86-64) target. -/
def cacheLineSize : Nat := 64

/-- Usable data bytes of a page: `MappedPages8k::SIZE - MappedPages8k::METADATA_SIZE`. -/
def dataBytes : Nat := pageSize - metadataSize

/-- The bitfield holds `8 * 64` bits (eight 64-bit words). -/
def maxBits : Nat := 8 * 64

/-- `core::alloc::Layout`: a requested size and alignment. -/
structure Layout where
  size : Nat
  align : Nat
deriving DecidableEq, Repr

/-- Objects per page for class size `size`:
`cmin((MappedPages8k::SIZE - MappedPages8k::METADATA_SIZE) / size, 8 * 64)`. -/
def objectsPerPage (size : Nat) : Nat := min (dataBytes / size) maxBits

/-- Modelled from the spec: a `MappedPages8k` backing page. Only the fields
the core reads are modelled: the base address, the occupancy bitfield (one
bit per slot, `true` = allocated; bits at and above `objects_per_page` are
sentinel bits held `true`), and the owning-heap tag. The intrusive
`prev`/`next` links are represented by membership in the Lean lists that
model `PageList`. -/
structure MappedPages8k where
  startAddress : Nat
  bitfield : Nat → Bool
  heapId : Nat

/-- Modelled from the spec: `Bitfield::initialize(size, data_bytes)` computes
`objects_per_page = min(data_bytes / size, 512)`, clears all bits, then sets
a sentinel bit at every index at or above `objects_per_page`. -/
def initBitfield (size dataBytes' : Nat) : Nat → Bool :=
  fun i => decide (min (dataBytes' / size) maxBits ≤ i)

/-- Set bit `i` of a page's bitfield. -/
def MappedPages8k.setBit (p : MappedPages8k) (i : Nat) : MappedPages8k :=
  { p with bitfield := fun j => if j = i then true else p.bitfield j }

/-- Clear bit `i` of a page's bitfield. -/
def MappedPages8k.clearBit (p : MappedPages8k) (i : Nat) : MappedPages8k :=
  { p with bitfield := fun j => if j = i then false else p.bitfield j }

/-- Modelled from the spec: the page-level first-fit search. It scans bits in
natural order and selects the lowest-index clear bit whose slot (slot `i`
starts at `page_base + i * layout.size` and spans `layout.size` bytes) lies
inside the data region and whose base satisfies `layout.align`. -/
def firstFit (p : MappedPages8k) (layout : Layout) : Option Nat :=
  (List.range maxBits).find? fun i =>
    !p.bitfield i
      && decide ((p.startAddress + i * layout.size) % layout.align = 0)
      && decide (i * layout.size + layout.size ≤ dataBytes)

/-- Modelled from the spec: `page.allocate(layout)` returns the address of
the found slot after setting its bit, or the null pointer (modelled as 0) if
no slot fits. -/
def MappedPages8k.allocate (p : MappedPages8k) (layout : Layout) :
    Nat × MappedPages8k :=
  match firstFit p layout with
  | none => (0, p)
  | some i => (p.startAddress + i * layout.size, p.setBit i)

/-- `page.is_full()`: every bit of the bitfield is set (the sentinel bits
make this equivalent to every real slot being allocated). -/
def MappedPages8k.isFull (p : MappedPages8k) : Prop :=
  ∀ i < maxBits, p.bitfield i = true

instance (p : MappedPages8k) : Decidable p.isFull :=
  Nat.decidableBallLT maxBits fun i _ => p.bitfield i = true

/-- `page.is_empty(relevant_bits)`: no bit below `relevant_bits` is set. -/
def MappedPages8k.isEmpty (p : MappedPages8k) (relevantBits : Nat) : Prop :=
  ∀ i < relevantBits, p.bitfield i = false

instance (p : MappedPages8k) (n : Nat) : Decidable (p.isEmpty n) :=
  Nat.decidableBallLT n fun i _ => p.bitfield i = false

def offsetErr : String := "InvalidPointer: offset is not a slot boundary"

def rangeErr : String := "InvalidPointer: slot index out of range"

def doubleFreeErr : String := "InvalidPointer: double free"

/-- Modelled from the spec: `page.deallocate(ptr, layout)` computes the slot
index `i = (ptr - page_base) / layout.size`; it is an error if
`(ptr - page_base)` is not a multiple of `layout.size`, if `i` is not below
`objects_per_page`, or if bit `i` is already clear (double free); otherwise
it clears bit `i`. On an error the page is unchanged. -/
def MappedPages8k.deallocate (p : MappedPages8k) (ptr : Nat) (layout : Layout) :
    Except String Unit × MappedPages8k :=
  let off := ptr - p.startAddress
  if off % layout.size ≠ 0 then (Except.error offsetErr, p)
  else
    let i := off / layout.size
    if ¬ i < objectsPerPage layout.size then (Except.error rangeErr, p)
    else if p.bitfield i = false then (Except.error doubleFreeErr, p)
    else (Except.ok (), p.clearBit i)

/-! ## The PageList model

Modelled from the spec: `PageList` is an intrusive doubly linked list with a
`head`, a `tail` and an `elements` counter, offering push-front, pop-front,
remove-by-address, membership test and forward iteration; order inside a list
has no semantic significance. It is modelled as a Lean `List` whose head is
the list's front and whose `length` is the `elements` counter. -/

/-- Modelled from the spec: `PageList::remove_from_list(addr)` unlinks and
returns the first page whose start address is `addr`, or `None`. -/
def removeFromList (addr : Nat) :
    List MappedPages8k → Option (MappedPages8k × List MappedPages8k)
  | [] => none
  | p :: rest =>
    if p.startAddress = addr then some (p, rest)
    else (removeFromList addr rest).map fun q => (q.1, p :: q.2)

/-- Replace every page whose start address is `addr` by `p'`. This models an
in-place write through a reference to the physical page at `addr` (the lists
hold at most one page per address). -/
def replacePage (addr : Nat) (p' : MappedPages8k) (l : List MappedPages8k) :
    List MappedPages8k :=
  l.map fun q => if q.startAddress = addr then p' else q

/-! ## The SCAllocator (sc.rs) -/

/-- `SCAllocator`: one size class, its counters and its three page lists. -/
structure SCAllocator where
  size : Nat
  allocation_count : Nat
  obj_per_page : Nat
  empty_slabs : List MappedPages8k
  slabs : List MappedPages8k
  full_slabs : List MappedPages8k

/-- `SCAllocator::new(size)` (the `new_sc_allocator!` macro). -/
def SCAllocator.new (size : Nat) : SCAllocator :=
  { size := size
    allocation_count := 0
    obj_per_page := objectsPerPage size
    empty_slabs := []
    slabs := []
    full_slabs := [] }

/-- All pages currently held by the allocator, in list order
empty, then slabs, then full. -/
def SCAllocator.allPages (s : SCAllocator) : List MappedPages8k :=
  s.empty_slabs ++ s.slabs ++ s.full_slabs

/-- `SCAllocator::move_to_empty(page_addr)` in release mode: the
`debug_assert!`s are compiled out; the `unwrap` of `remove_from_list` is a
panic (`none`) when the address is absent from `slabs`. -/
def SCAllocator.moveToEmpty (s : SCAllocator) (pageAddr : Nat) :
    Option SCAllocator :=
  (removeFromList pageAddr s.slabs).map fun q =>
    { s with slabs := q.2, empty_slabs := q.1 :: s.empty_slabs }

/-- `SCAllocator::move_partial_to_full(page_addr)` in release mode. -/
def SCAllocator.movePartialToFull (s : SCAllocator) (pageAddr : Nat) :
    Option SCAllocator :=
  (removeFromList pageAddr s.slabs).map fun q =>
    { s with slabs := q.2, full_slabs := q.1 :: s.full_slabs }

/-- `SCAllocator::move_full_to_partial(page_addr)` in release mode. -/
def SCAllocator.moveFullToPartial (s : SCAllocator) (pageAddr : Nat) :
    Option SCAllocator :=
  (removeFromList pageAddr s.full_slabs).map fun q =>
    { s with full_slabs := q.2, slabs := q.1 :: s.slabs }

/-- One page-level allocation performed on behalf of `SCAllocator::allocate`,
recorded for analysis: either a `page.allocate` on a page scanned in the
`slabs` list, or the `page.allocate` on a page popped off `empty_slabs`. The
recorded layout is the one handed to `page.allocate`. -/
inductive PageAllocCall where
  | scanSlabs (layout : Layout)
  | fromEmpty (layout : Layout)
deriving DecidableEq, Repr

/-- The `for slab_page in self.slabs.iter_mut()` loop body of
`try_allocate_from_pagelist`: each page in turn runs `page.allocate`; on the
first non-null pointer the scan stops, returning the pointer, the succeeding
page and the updated list; a page whose `allocate` returned null keeps any
state change and the scan continues. The final component records the layout
of every `page.allocate` call made. -/
def updateFirstAlloc (scLayout : Layout) :
    List MappedPages8k →
      Nat × Option MappedPages8k × List MappedPages8k × List PageAllocCall
  | [] => (0, none, [], [])
  | p :: rest =>
    let r := p.allocate scLayout
    if r.1 ≠ 0 then (r.1, some r.2, r.2 :: rest, [PageAllocCall.scanSlabs scLayout])
    else
      let t := updateFirstAlloc scLayout rest
      (t.1, t.2.1, r.2 :: t.2.2.1, PageAllocCall.scanSlabs scLayout :: t.2.2.2)

/-- `SCAllocator::try_allocate_from_pagelist(sc_layout)` in release mode,
with the trace of page-level allocation calls. Scans `slabs`; on a success
that fills the page, moves it to `full_slabs` (a panic if its address were
absent from `slabs`); increments `allocation_count`; the null pointer `0`
reports that no scanned page could serve the layout. -/
def SCAllocator.tryAllocateFromPagelist (s : SCAllocator) (scLayout : Layout) :
    Option (Nat × SCAllocator × List PageAllocCall) :=
  let t := updateFirstAlloc scLayout s.slabs
  let s1 : SCAllocator := { s with slabs := t.2.2.1 }
  match t.2.1 with
  | some p' =>
    let s2o := if p'.isFull then s1.movePartialToFull p'.startAddress else some s1
    s2o.map fun s2 =>
      (t.1, { s2 with allocation_count := s2.allocation_count + 1 }, t.2.2.2)
  | none => some (0, s1, t.2.2.2)

def outOfMemoryErr : String := "AllocationError::OutOfMemory"

/-- `SCAllocator::allocate(layout)` in release mode, with the trace of
page-level allocation calls. The two `assert!`s at the top are active in
release and modelled as panics; `Layout::from_size_align_unchecked(self.size,
layout.align())` is the widened layout; the `assert!` on its size is active
too. If the scan of `slabs` fails and `empty_slabs` is non-empty, a page is
popped from `empty_slabs`, `page.allocate` runs on it with the caller's
original `layout`, and the page is pushed onto `slabs` unconditionally;
`NonNull::new(ptr).ok_or(..)` turns the null pointer into `OutOfMemory`. -/
def SCAllocator.allocateT (s : SCAllocator) (layout : Layout) :
    Option (Except String Nat × SCAllocator × List PageAllocCall) :=
  if ¬ layout.size ≤ s.size then none
  else if ¬ s.size ≤ pageSize - cacheLineSize then none
  else
    let newLayout : Layout := ⟨s.size, layout.align⟩
    if ¬ layout.size ≤ newLayout.size then none
    else
      (s.tryAllocateFromPagelist newLayout).map fun t =>
        let ptr := t.1
        let s1 := t.2.1
        if ptr = 0 then
          match s1.empty_slabs with
          | [] => (Except.error outOfMemoryErr, s1, t.2.2)
          | ep :: rest =>
            let r := ep.allocate layout
            let s2 : SCAllocator :=
              { s1 with empty_slabs := rest, slabs := r.2 :: s1.slabs }
            (if r.1 ≠ 0 then Except.ok r.1 else Except.error outOfMemoryErr,
              s2, t.2.2 ++ [PageAllocCall.fromEmpty layout])
        else (Except.ok ptr, s1, t.2.2)

/-- `SCAllocator::allocate(layout)`: the traced model with the trace erased. -/
def SCAllocator.allocate (s : SCAllocator) (layout : Layout) :
    Option (Except String Nat × SCAllocator) :=
  (s.allocateT layout).map fun t => (t.1, t.2.1)

/-- `SCAllocator::refill(mp, heap_id)`: `clear_metadata`, then
`bitfield_mut().initialize(self.size, SIZE - METADATA_SIZE)`, then
`set_heap_id`, then `insert_empty` (push-front on `empty_slabs`). The source
always returns `Ok(())`, so only the state is modelled. -/
def SCAllocator.refill (s : SCAllocator) (mp : MappedPages8k) (heapId' : Nat) :
    SCAllocator :=
  let mp' : MappedPages8k :=
    { startAddress := mp.startAddress
      bitfield := initBitfield s.size (pageSize - metadataSize)
      heapId := heapId' }
  { s with empty_slabs := mp' :: s.empty_slabs }

/-- `SCAllocator::retrieve_empty_page()`: pop the front of `empty_slabs`. -/
def SCAllocator.retrieveEmptyPage (s : SCAllocator) :
    Option MappedPages8k × SCAllocator :=
  match s.empty_slabs with
  | [] => (none, s)
  | p :: rest => (some p, { s with empty_slabs := rest })

/-- The page the transmute in `SCAllocator::deallocate` dereferences: the
physical page whose start address is `addr`, looked up among the pages this
allocator owns. A `none` means the address is not backed by a page of this
allocator, so the dereference would touch foreign memory. -/
def SCAllocator.findPage (s : SCAllocator) (addr : Nat) : Option MappedPages8k :=
  s.allPages.find? fun p => p.startAddress = addr

/-- Write the page at address `addr` back into whichever list holds it. -/
def SCAllocator.writeBack (s : SCAllocator) (addr : Nat) (p' : MappedPages8k) :
    SCAllocator :=
  { s with
    empty_slabs := replacePage addr p' s.empty_slabs
    slabs := replacePage addr p' s.slabs
    full_slabs := replacePage addr p' s.full_slabs }

/-- `SCAllocator::deallocate(ptr, layout)` in release mode. The two opening
`assert!`s are active. The page base is `ptr & !(SIZE - 1)`. The search of
`slabs` and `full_slabs` for the owning page is dead code in the source (its
result is shadowed before use), so it is omitted; the code acts through the
page reconstructed by `transmute` from the masked address, modelled by
`findPage` over every owned page, with `none` (foreign memory) a panic. The
widened layout `{self.size, layout.align}` goes to `page.deallocate`; the
`debug_assert!` on its result is compiled out. If the page is now empty it
is moved `slabs -> empty_slabs`; otherwise, if it was full before, it is
moved `full_slabs -> slabs`; each move panics when the page is missing from
the source list. -/
def SCAllocator.deallocate (s : SCAllocator) (ptr : Nat) (layout : Layout) :
    Option (Except String Unit × SCAllocator) :=
  if ¬ layout.size ≤ s.size then none
  else if ¬ s.size ≤ pageSize - cacheLineSize then none
  else
    let page := ptr - ptr % pageSize
    let newLayout : Layout := ⟨s.size, layout.align⟩
    match s.findPage page with
    | none => none
    | some sp =>
      let slabPageWasFull := sp.isFull
      let r := sp.deallocate ptr newLayout
      let s1 := s.writeBack page r.2
      if r.2.isEmpty s.obj_per_page then
        (s1.moveToEmpty page).map fun s2 => (r.1, s2)
      else if slabPageWasFull then
        (s1.moveFullToPartial page).map fun s2 => (r.1, s2)
      else some (r.1, s1)

/-! ## The ZoneAllocator (zone.rs) -/

/-- `ZoneAllocator::MAX_ALLOC_SIZE = ObjectPage8k::SIZE - ObjectPage8k::METADATA_SIZE`. -/
def maxAllocSize : Nat := dataBytes

/-- The result of `ZoneAllocator::get_slab`. -/
inductive Slab where
  | base (idx : Nat)
  | large (idx : Nat)
  | unsupported
deriving DecidableEq, Repr

/-- `ZoneAllocator::get_slab(requested_size)`: the staircase from a
requested size to the index of its size class. -/
def getSlab (requestedSize : Nat) : Slab :=
  if requestedSize ≤ 8 then Slab.base 0
  else if requestedSize ≤ 16 then Slab.base 1
  else if requestedSize ≤ 32 then Slab.base 2
  else if requestedSize ≤ 64 then Slab.base 3
  else if requestedSize ≤ 128 then Slab.base 4
  else if requestedSize ≤ 256 then Slab.base 5
  else if requestedSize ≤ 512 then Slab.base 6
  else if requestedSize ≤ 1024 then Slab.base 7
  else if requestedSize ≤ 2048 then Slab.base 8
  else if requestedSize ≤ 4096 then Slab.base 9
  else if requestedSize ≤ maxAllocSize then Slab.base 10
  else Slab.unsupported

/-- `ZoneAllocator::SLAB_EMPTY_PAGES_THRESHOLD`. -/
def slabEmptyPagesThreshold : Nat := 0

/-- `ZoneAllocator`: the fixed array of per-class `SCAllocator`s. -/
structure ZoneAllocator where
  smallSlabs : List SCAllocator

/-- `ZoneAllocator::new()` (the `new_zone!` macro): the eleven base size
classes 8, 16, ..., 4096 and `MAX_ALLOC_SIZE`. -/
def ZoneAllocator.new : ZoneAllocator :=
  ⟨[SCAllocator.new 8, SCAllocator.new 16, SCAllocator.new 32,
    SCAllocator.new 64, SCAllocator.new 128, SCAllocator.new 256,
    SCAllocator.new 512, SCAllocator.new 1024, SCAllocator.new 2048,
    SCAllocator.new 4096, SCAllocator.new maxAllocSize]⟩

def noPagesErr : String := "There were no pages in the heap"

/-- Modelled from the spec: `SCAllocator::heap_id()` (defined in the missing
page layer's companion code) reads the heap id off the first page this
allocator holds, `None` when it holds no pages. -/
def SCAllocator.heapId (s : SCAllocator) : Option Nat :=
  s.allPages.head?.map MappedPages8k.heapId

/-- `ZoneAllocator::heap_id()`: the heap id from `small_slabs[0]`, or an
error when that allocator holds no pages. The outer `Option` is the panic of
indexing an empty slab array, impossible for the eleven-class zone. -/
def ZoneAllocator.heapId (z : ZoneAllocator) : Option (Except String Nat) :=
  (z.smallSlabs.get? 0).map fun sca =>
    (sca.heapId).elim (Except.error noPagesErr) Except.ok

def invalidLayoutErr : String := "AllocationError::InvalidLayout"

/-- `ZoneAllocator::refill(layout, mp, heap_id)`: dispatch on the layout's
class and refill that `SCAllocator`. The outer `Option` is the panic of an
out-of-range class index. -/
def ZoneAllocator.refill (z : ZoneAllocator) (layout : Layout)
    (mp : MappedPages8k) (heapId' : Nat) :
    Option (Except String Unit × ZoneAllocator) :=
  match getSlab layout.size with
  | Slab.base idx =>
    (z.smallSlabs.get? idx).map fun sca =>
      (Except.ok (), ⟨z.smallSlabs.set idx (sca.refill mp heapId')⟩)
  | Slab.large _ => some (Except.error invalidLayoutErr, z)
  | Slab.unsupported => some (Except.error invalidLayoutErr, z)

/-- The loop body of `small_slab_with_max_empty_pages`: keep the running
maximum empty-page count and the index of the slab attaining it, updating
only on a strict improvement. -/
def maxScanStep (acc : Nat × Nat) (pr : Nat × SCAllocator) : Nat × Nat :=
  if pr.2.empty_slabs.length > acc.1 then (pr.2.empty_slabs.length, pr.1) else acc

/-- `ZoneAllocator::small_slab_with_max_empty_pages()`: the running maximum
of `empty_slabs.elements` over the slab array, with the index attaining it;
`(0, 0)` when every count is zero. -/
def ZoneAllocator.smallSlabWithMaxEmptyPages (z : ZoneAllocator) : Nat × Nat :=
  z.smallSlabs.enum.foldl maxScanStep (0, 0)

/-- `ZoneAllocator::retrieve_empty_page()`: when the maximum empty-page
count exceeds `SLAB_EMPTY_PAGES_THRESHOLD`, pop an empty page from the
allocator attaining it. -/
def ZoneAllocator.retrieveEmptyPage (z : ZoneAllocator) :
    Option (Option MappedPages8k × ZoneAllocator) :=
  let m := z.smallSlabWithMaxEmptyPages
  if m.1 > slabEmptyPagesThreshold then
    (z.smallSlabs.get? m.2).map fun sca =>
      let r := sca.retrieveEmptyPage
      (r.1, ⟨z.smallSlabs.set m.2 r.2⟩)
  else some (none, z)

def noEmptyPageErr : String :=
  "Could not find an empty page to exchange within the heap"

/-- `ZoneAllocator::exchange_pages_within_heap(layout, heap_id)`: withdraw
an empty page from the best-stocked class and refill it into `layout`'s
class; an error when no class holds an empty page. -/
def ZoneAllocator.exchangePagesWithinHeap (z : ZoneAllocator) (layout : Layout)
    (heapId' : Nat) : Option (Except String Unit × ZoneAllocator) :=
  (z.retrieveEmptyPage).bind fun r =>
    match r.1 with
    | none => some (Except.error noEmptyPageErr, r.2)
    | some mp => r.2.refill layout mp heapId'

/-- The `SCAllocator::allocate` and `exchange_pages_within_heap` calls a
single `ZoneAllocator::allocate` makes, in order. -/
inductive ZoneEvent where
  | scaAlloc (idx : Nat)
  | exchange
deriving DecidableEq, Repr

/-- `ZoneAllocator::allocate(layout)`, with the trace of the slab-allocator
calls and page exchanges it performs. On an `Err` from the class's
allocator, `self.heap_id()?` runs first (its error propagates, forgoing the
exchange), then `exchange_pages_within_heap(layout, heap_id)?`, then a
single retry of the class's allocator whose result is returned. -/
def ZoneAllocator.allocateT (z : ZoneAllocator) (layout : Layout) :
    Option (Except String Nat × ZoneAllocator × List ZoneEvent) :=
  match getSlab layout.size with
  | Slab.base idx =>
    (z.smallSlabs.get? idx).bind fun sca =>
      (sca.allocate layout).bind fun r =>
        let z1 : ZoneAllocator := ⟨z.smallSlabs.set idx r.2⟩
        match r.1 with
        | Except.ok ptr => some (Except.ok ptr, z1, [ZoneEvent.scaAlloc idx])
        | Except.error _ =>
          (z1.heapId).bind fun hres =>
            match hres with
            | Except.error he =>
              some (Except.error he, z1, [ZoneEvent.scaAlloc idx])
            | Except.ok hid =>
              (z1.exchangePagesWithinHeap layout hid).bind fun xr =>
                match xr.1 with
                | Except.error xe =>
                  some (Except.error xe, xr.2,
                    [ZoneEvent.scaAlloc idx, ZoneEvent.exchange])
                | Except.ok _ =>
                  (xr.2.smallSlabs.get? idx).bind fun sca2 =>
                    (sca2.allocate layout).map fun r2 =>
                      (r2.1, ⟨xr.2.smallSlabs.set idx r2.2⟩,
                        [ZoneEvent.scaAlloc idx, ZoneEvent.exchange,
                          ZoneEvent.scaAlloc idx])
  | Slab.large _ => some (Except.error invalidLayoutErr, z, [])
  | Slab.unsupported => some (Except.error invalidLayoutErr, z, [])

/-- `ZoneAllocator::allocate(layout)`: the traced model, trace erased. -/
def ZoneAllocator.allocate (z : ZoneAllocator) (layout : Layout) :
    Option (Except String Nat × ZoneAllocator) :=
  (z.allocateT layout).map fun t => (t.1, t.2.1)

/-- `ZoneAllocator::deallocate(ptr, layout)`: dispatch on the class. -/
def ZoneAllocator.deallocate (z : ZoneAllocator) (ptr : Nat) (layout : Layout) :
    Option (Except String Unit × ZoneAllocator) :=
  match getSlab layout.size with
  | Slab.base idx =>
    (z.smallSlabs.get? idx).bind fun sca =>
      (sca.deallocate ptr layout).map fun r =>
        (r.1, ⟨z.smallSlabs.set idx r.2⟩)
  | Slab.large _ => some (Except.error invalidLayoutErr, z)
  | Slab.unsupported => some (Except.error invalidLayoutErr, z)

/-- `ZoneAllocator::empty_pages()`: the total empty-page count. -/
def ZoneAllocator.emptyPages (z : ZoneAllocator) : Nat :=
  z.smallSlabs.foldl (fun acc sca => acc + sca.empty_slabs.length) 0

/-! ## Spec-side definitions and sample states -/

/-- The upper bounds of the eleven base size classes
(`ZoneAllocator::BASE_ALLOC_SIZES`). -/
def classBounds : List Nat := [8, 16, 32, 64, 128, 256, 512, 1024, 2048, 4096, 8104]

/-- The size-class index the spec's staircase assigns to a size: the number
of class bounds lying strictly below it; `get_slab` is proved below to
realize it on every supported size. -/
def classIdx (s : Nat) : Nat :=
  (classBounds.map fun b => if b < s then 1 else 0).sum

/-- The largest empty-page count over all size-class allocators of a zone. -/
def maxEmptyCount (z : ZoneAllocator) : Nat :=
  (z.smallSlabs.map fun sca => sca.empty_slabs.length).foldr max 0

/-- A backing page as handed over by the external page provider (its
metadata content before `refill` clears it is irrelevant). -/
def providerPage (a : Nat) : MappedPages8k :=
  { startAddress := a, bitfield := fun _ => false, heapId := 0 }

/-- A size-4096 allocator (so `objects_per_page = 1`) refilled with one
backing page at address 8192. -/
def oneObjSCA : SCAllocator :=
  (SCAllocator.new 4096).refill (providerPage 8192) 0

/-- The state of `oneObjSCA` after one allocation of `{4096, 1}`. -/
def oneObjSCA1 : SCAllocator :=
  match oneObjSCA.allocate ⟨4096, 1⟩ with
  | some r => r.2
  | none => oneObjSCA

/-- A size-16 allocator refilled with one (still empty) backing page at
address 8192. -/
def sca16 : SCAllocator := (SCAllocator.new 16).refill (providerPage 8192) 0

/-- The eleven-class zone with one empty page refilled into class 16
(index 1) and no other pages. -/
def zone16 : ZoneAllocator :=
  match ZoneAllocator.new.refill ⟨16, 1⟩ (providerPage 8192) 0 with
  | some r => r.2
  | none => ZoneAllocator.new

/-- The state of `sca16` after one allocation of `{16, 1}`. -/
def sca16a : SCAllocator :=
  match sca16.allocate ⟨16, 1⟩ with
  | some r => r.2
  | none => sca16

/-- The single page held by `sca16a`: the refilled page with slot 0
allocated. -/
def page16a : MappedPages8k :=
  { startAddress := 8192
    bitfield := fun j =>
      if j = 0 then true else initBitfield 16 (pageSize - metadataSize) j
    heapId := 0 }

/-! ## Invariant, reachability and accounting definitions -/

/-- Free usable slots of one page for class size `size` under alignment
`align`: indices whose slot starts at a multiple of the alignment, fits in
the data region, and whose bit is clear. For a page whose base address is a
multiple of `align`, these are exactly the slots `first_fit` can pick. -/
def pageUFree (size align : Nat) (p : MappedPages8k) : Nat :=
  ((List.range maxBits).filter fun i =>
    !p.bitfield i
      && decide ((i * size) % align = 0)
      && decide (i * size + size ≤ dataBytes)).length

/-- Total free usable slots over every page the allocator holds. -/
def SCAllocator.uFree (s : SCAllocator) (align : Nat) : Nat :=
  (s.allPages.map (pageUFree s.size align)).sum

/-- Every owned page sits below the next fresh provider address. -/
def BoundedAddrs (s : SCAllocator) (c : Nat) : Prop :=
  ∀ p ∈ s.allPages, p.startAddress < pageSize * c

/-- The allocator's structural invariant: the class size is supported and
`obj_per_page` derived from it; pages sit at positive page-aligned
addresses, no two at the same address (so each page is in exactly one
list); sentinel bits are set; pages on `empty_slabs` have all in-range bits
clear; pages on `full_slabs` are fully set; pages on `slabs` hold at least
one object and, when a page holds at least two objects, also at least one
free slot; a one-object class never populates `full_slabs`. -/
structure SCInv (s : SCAllocator) : Prop where
  sizePos : 0 < s.size
  sizeLe : s.size ≤ dataBytes
  objEq : s.obj_per_page = objectsPerPage s.size
  basePos : ∀ p ∈ s.allPages, 0 < p.startAddress
  aligned : ∀ p ∈ s.allPages, p.startAddress % pageSize = 0
  nodupAddr : (s.allPages.map MappedPages8k.startAddress).Nodup
  sentinel : ∀ p ∈ s.allPages, ∀ i, s.obj_per_page ≤ i → p.bitfield i = true
  emptyClear : ∀ p ∈ s.empty_slabs, ∀ i < s.obj_per_page, p.bitfield i = false
  fullSet : ∀ p ∈ s.full_slabs, ∀ i < maxBits, p.bitfield i = true
  slabsUsed : ∀ p ∈ s.slabs, ∃ i, i < s.obj_per_page ∧ p.bitfield i = true
  slabsFree : 2 ≤ s.obj_per_page →
    ∀ p ∈ s.slabs, ∃ i, i < s.obj_per_page ∧ p.bitfield i = false
  objOneFull : s.obj_per_page = 1 → s.full_slabs = []

/-- A live, previously allocated slot: `ptr` is the base of slot `i` of an
owned page whose bit `i` is set. Every pointer a prior `allocate` returned
and that has not been freed since is of this shape. -/
def LivePtr (s : SCAllocator) (ptr : Nat) : Prop :=
  ∃ p ∈ s.allPages, ∃ i, ptr = p.startAddress + i * s.size
    ∧ i < s.obj_per_page ∧ p.bitfield i = true

/-- As `LivePtr`, additionally requiring the slot to be usable under
`align` (slot offset a multiple of `align` and slot inside the data
region), as every slot picked by `first_fit` is. -/
def LivePtrAt (s : SCAllocator) (align ptr : Nat) : Prop :=
  ∃ p ∈ s.allPages, ∃ i, ptr = p.startAddress + i * s.size
    ∧ i < s.obj_per_page ∧ p.bitfield i = true
    ∧ (i * s.size) % align = 0 ∧ i * s.size + s.size ≤ dataBytes

/-- The states reachable through the spec's legal operation sequences:
start from `new` with a supported class size (positive, at most
`MAX_ALLOC_SIZE`); `refill` takes fresh page-aligned nonzero provider pages
(spec section 6's page-provider contract); `allocate` and `deallocate` take
layouts whose alignment is a power of two at most the page size (Rust
`Layout` validity plus spec section 7, which rejects larger alignments;
equivalently a positive divisor of the page size); `deallocate` receives
only live previously-allocated pointers (spec section 5's caller
preconditions); `retrieve_empty_page` is unrestricted. Panicking steps
produce no state, so only completed steps extend a run. -/
inductive SCReachable : SCAllocator → Prop where
  | new (size : Nat) (h1 : 0 < size) (h2 : size ≤ dataBytes) :
      SCReachable (SCAllocator.new size)
  | refill (s : SCAllocator) (mp : MappedPages8k) (hid : Nat)
      (h : SCReachable s)
      (hpos : 0 < mp.startAddress) (hal : mp.startAddress % pageSize = 0)
      (hfresh : ∀ q ∈ s.allPages, q.startAddress ≠ mp.startAddress) :
      SCReachable (s.refill mp hid)
  | alloc (s : SCAllocator) (layout : Layout) (r : Except String Nat)
      (s' : SCAllocator) (h : SCReachable s)
      (hal : 0 < layout.align) (hdvd : layout.align ∣ pageSize)
      (hstep : s.allocate layout = some (r, s')) : SCReachable s'
  | dealloc (s : SCAllocator) (ptr : Nat) (layout : Layout)
      (r : Except String Unit) (s' : SCAllocator) (h : SCReachable s)
      (hlive : LivePtr s ptr)
      (hstep : s.deallocate ptr layout = some (r, s')) : SCReachable s'
  | retrieve (s : SCAllocator) (po : Option MappedPages8k) (s' : SCAllocator)
      (h : SCReachable s) (hstep : s.retrieveEmptyPage = (po, s')) :
      SCReachable s'

/-- One allocation of the first run of C7: `allocate`, and on an error
`refill` a fresh provider page (base `pageSize * c`) and `allocate` again.
Returns the new state, the pointer obtained and the next fresh-page
counter; `none` on a panic or on an allocation failure the refill did not
cure. -/
def allocStep (s : SCAllocator) (L : Layout) (c : Nat) :
    Option (SCAllocator × Nat × Nat) :=
  (s.allocate L).bind fun r =>
    match r.1 with
    | Except.ok ptr => some (r.2, ptr, c)
    | Except.error _ =>
      let s2 := r.2.refill (providerPage (pageSize * c)) 0
      (s2.allocate L).bind fun r2 =>
        match r2.1 with
        | Except.ok ptr => some (r2.2, ptr, c + 1)
        | Except.error _ => none

/-- `n` allocations, refilling with fresh pages whenever out of memory;
returns the final state, the pointers in order, and the fresh counter. -/
def run1 : Nat → SCAllocator → Layout → Nat →
    Option (SCAllocator × List Nat × Nat)
  | 0, s, _, c => some (s, [], c)
  | n + 1, s, L, c =>
    (allocStep s L c).bind fun t =>
      (run1 n t.1 L t.2.2).map fun u => (u.1, t.2.1 :: u.2.1, u.2.2)

/-- Deallocate the listed pointers in order; `none` on a panic or error. -/
def deallocAll : List Nat → SCAllocator → Layout → Option SCAllocator
  | [], s, _ => some s
  | q :: qs, s, L =>
    (s.deallocate q L).bind fun r =>
      match r.1 with
      | Except.ok _ => deallocAll qs r.2 L
      | Except.error _ => none

/-- `n` plain allocations with no refill; `none` if any fails. -/
def allocRun : Nat → SCAllocator → Layout → Option SCAllocator
  | 0, s, _ => some s
  | n + 1, s, L =>
    (s.allocate L).bind fun r =>
      match r.1 with
      | Except.ok _ => allocRun n r.2 L
      | Except.error _ => none

/-! ## Size-class mapping (claim C8) -/

theorem getSlab_eq_classIdx {s : Nat} (h : s ≤ maxAllocSize) :
    getSlab s = Slab.base (classIdx s) := by
  have hmax : s ≤ 8104 := by
    simp only [maxAllocSize, dataBytes, pageSize, metadataSize] at h; omega
  unfold getSlab
  by_cases h1 : s ≤ 8
  · rw [if_pos h1]
    simp [classIdx, classBounds, show ¬ (8:Nat) < s from by omega, show ¬ (16:Nat) < s from by omega, show ¬ (32:Nat) < s from by omega, show ¬ (64:Nat) < s from by omega, show ¬ (128:Nat) < s from by omega, show ¬ (256:Nat) < s from by omega, show ¬ (512:Nat) < s from by omega, show ¬ (1024:Nat) < s from by omega, show ¬ (2048:Nat) < s from by omega, show ¬ (4096:Nat) < s from by omega, show ¬ (8104:Nat) < s from by omega]
  rw [if_neg h1]
  by_cases h2 : s ≤ 16
  · rw [if_pos h2]
    simp [classIdx, classBounds, show (8:Nat) < s from by omega, show ¬ (16:Nat) < s from by omega, show ¬ (32:Nat) < s from by omega, show ¬ (64:Nat) < s from by omega, show ¬ (128:Nat) < s from by omega, show ¬ (256:Nat) < s from by omega, show ¬ (512:Nat) < s from by omega, show ¬ (1024:Nat) < s from by omega, show ¬ (2048:Nat) < s from by omega, show ¬ (4096:Nat) < s from by omega, show ¬ (8104:Nat) < s from by omega]
  rw [if_neg h2]
  by_cases h3 : s ≤ 32
  · rw [if_pos h3]
    simp [classIdx, classBounds, show (8:Nat) < s from by omega, show (16:Nat) < s from by omega, show ¬ (32:Nat) < s from by omega, show ¬ (64:Nat) < s from by omega, show ¬ (128:Nat) < s from by omega, show ¬ (256:Nat) < s from by omega, show ¬ (512:Nat) < s from by omega, show ¬ (1024:Nat) < s from by omega, show ¬ (2048:Nat) < s from by omega, show ¬ (4096:Nat) < s from by omega, show ¬ (8104:Nat) < s from by omega]
  rw [if_neg h3]
  by_cases h4 : s ≤ 64
  · rw [if_pos h4]
    simp [classIdx, classBounds, show (8:Nat) < s from by omega, show (16:Nat) < s from by omega, show (32:Nat) < s from by omega, show ¬ (64:Nat) < s from by omega, show ¬ (128:Nat) < s from by omega, show ¬ (256:Nat) < s from by omega, show ¬ (512:Nat) < s from by omega, show ¬ (1024:Nat) < s from by omega, show ¬ (2048:Nat) < s from by omega, show ¬ (4096:Nat) < s from by omega, show ¬ (8104:Nat) < s from by omega]
  rw [if_neg h4]
  by_cases h5 : s ≤ 128
  · rw [if_pos h5]
    simp [classIdx, classBounds, show (8:Nat) < s from by omega, show (16:Nat) < s from by omega, show (32:Nat) < s from by omega, show (64:Nat) < s from by omega, show ¬ (128:Nat) < s from by omega, show ¬ (256:Nat) < s from by omega, show ¬ (512:Nat) < s from by omega, show ¬ (1024:Nat) < s from by omega, show ¬ (2048:Nat) < s from by omega, show ¬ (4096:Nat) < s from by omega, show ¬ (8104:Nat) < s from by omega]
  rw [if_neg h5]
  by_cases h6 : s ≤ 256
  · rw [if_pos h6]
    simp [classIdx, classBounds, show (8:Nat) < s from by omega, show (16:Nat) < s from by omega, show (32:Nat) < s from by omega, show (64:Nat) < s from by omega, show (128:Nat) < s from by omega, show ¬ (256:Nat) < s from by omega, show ¬ (512:Nat) < s from by omega, show ¬ (1024:Nat) < s from by omega, show ¬ (2048:Nat) < s from by omega, show ¬ (4096:Nat) < s from by omega, show ¬ (8104:Nat) < s from by omega]
  rw [if_neg h6]
  by_cases h7 : s ≤ 512
  · rw [if_pos h7]
    simp [classIdx, classBounds, show (8:Nat) < s from by omega, show (16:Nat) < s from by omega, show (32:Nat) < s from by omega, show (64:Nat) < s from by omega, show (128:Nat) < s from by omega, show (256:Nat) < s from by omega, show ¬ (512:Nat) < s from by omega, show ¬ (1024:Nat) < s from by omega, show ¬ (2048:Nat) < s from by omega, show ¬ (4096:Nat) < s from by omega, show ¬ (8104:Nat) < s from by omega]
  rw [if_neg h7]
  by_cases h8 : s ≤ 1024
  · rw [if_pos h8]
    simp [classIdx, classBounds, show (8:Nat) < s from by omega, show (16:Nat) < s from by omega, show (32:Nat) < s from by omega, show (64:Nat) < s from by omega, show (128:Nat) < s from by omega, show (256:Nat) < s from by omega, show (512:Nat) < s from by omega, show ¬ (1024:Nat) < s from by omega, show ¬ (2048:Nat) < s from by omega, show ¬ (4096:Nat) < s from by omega, show ¬ (8104:Nat) < s from by omega]
  rw [if_neg h8]
  by_cases h9 : s ≤ 2048
  · rw [if_pos h9]
    simp [classIdx, classBounds, show (8:Nat) < s from by omega, show (16:Nat) < s from by omega, show (32:Nat) < s from by omega, show (64:Nat) < s from by omega, show (128:Nat) < s from by omega, show (256:Nat) < s from by omega, show (512:Nat) < s from by omega, show (1024:Nat) < s from by omega, show ¬ (2048:Nat) < s from by omega, show ¬ (4096:Nat) < s from by omega, show ¬ (8104:Nat) < s from by omega]
  rw [if_neg h9]
  by_cases h10 : s ≤ 4096
  · rw [if_pos h10]
    simp [classIdx, classBounds, show (8:Nat) < s from by omega, show (16:Nat) < s from by omega, show (32:Nat) < s from by omega, show (64:Nat) < s from by omega, show (128:Nat) < s from by omega, show (256:Nat) < s from by omega, show (512:Nat) < s from by omega, show (1024:Nat) < s from by omega, show (2048:Nat) < s from by omega, show ¬ (4096:Nat) < s from by omega, show ¬ (8104:Nat) < s from by omega]
  rw [if_neg h10]
  have h11 : s ≤ maxAllocSize := h
  rw [if_pos h11]
  simp [classIdx, classBounds, show (8:Nat) < s from by omega, show (16:Nat) < s from by omega, show (32:Nat) < s from by omega, show (64:Nat) < s from by omega, show (128:Nat) < s from by omega, show (256:Nat) < s from by omega, show (512:Nat) < s from by omega, show (1024:Nat) < s from by omega, show (2048:Nat) < s from by omega, show (4096:Nat) < s from by omega, show ¬ (8104:Nat) < s from by omega]

theorem classIdx_mono {s1 s2 : Nat} (h : s1 ≤ s2) : classIdx s1 ≤ classIdx s2 := by
  unfold classIdx
  refine List.sum_le_sum ?_
  intro b _
  by_cases hb : b < s1
  · rw [if_pos hb, if_pos (lt_of_lt_of_le hb h)]
  · rw [if_neg hb]
    split_ifs <;> omega

/-- C8: the size-to-class mapping is monotone: for sizes
`s1 ≤ s2 ≤ MAX_ALLOC_SIZE`, both sizes are assigned base size classes by
`get_slab` and the index assigned to `s1` is at most the one assigned to
`s2`. -/
theorem c8_size_class_monotone (s1 s2 : Nat) (h12 : s1 ≤ s2)
    (h2 : s2 ≤ maxAllocSize) :
    ∃ i1 i2, getSlab s1 = Slab.base i1 ∧ getSlab s2 = Slab.base i2 ∧ i1 ≤ i2 :=
  ⟨classIdx s1, classIdx s2, getSlab_eq_classIdx (le_trans h12 h2),
    getSlab_eq_classIdx h2, classIdx_mono h12⟩

/-- Witness for C8 at the concrete pair `9 ≤ 4097`. -/
theorem c8_size_class_monotone_witness :
    (9 : Nat) ≤ 4097 ∧ (4097 : Nat) ≤ maxAllocSize ∧
      ∃ i1 i2, getSlab 9 = Slab.base i1 ∧ getSlab 4097 = Slab.base i2 ∧ i1 ≤ i2 :=
  ⟨by decide, by decide, c8_size_class_monotone 9 4097 (by decide) (by decide)⟩

/-! ## The empty-page scan (claim C6) -/

theorem foldrMax_le_iff {l : List Nat} {x : Nat} :
    l.foldr max 0 ≤ x ↔ ∀ a ∈ l, a ≤ x := by
  induction l with
  | nil => simp
  | cons a t ih => simp [Nat.max_le, ih]

theorem le_foldrMax {l : List Nat} {a : Nat} (h : a ∈ l) : a ≤ l.foldr max 0 := by
  induction l with
  | nil => cases h
  | cons b t ih =>
    rcases List.mem_cons.mp h with rfl | h'
    · exact Nat.le_max_left _ _
    · exact le_trans (ih h') (Nat.le_max_right _ _)

theorem maxScan_spec (l : List SCAllocator) : ∀ (n m id : Nat),
    (∀ sca ∈ l,
        sca.empty_slabs.length ≤ ((l.enumFrom n).foldl maxScanStep (m, id)).1)
    ∧ m ≤ ((l.enumFrom n).foldl maxScanStep (m, id)).1
    ∧ ((l.enumFrom n).foldl maxScanStep (m, id) = (m, id)
        ∨ ∃ pr ∈ l.enumFrom n,
            pr.1 = ((l.enumFrom n).foldl maxScanStep (m, id)).2
            ∧ pr.2.empty_slabs.length
                = ((l.enumFrom n).foldl maxScanStep (m, id)).1) := by
  induction l with
  | nil =>
    intro n m id
    exact ⟨by simp, le_refl _, Or.inl rfl⟩
  | cons a t ih =>
    intro n m id
    have hcons : (a :: t).enumFrom n = (n, a) :: t.enumFrom (n + 1) := rfl
    rw [hcons, List.foldl_cons]
    by_cases hgt : a.empty_slabs.length > m
    · have hstep : maxScanStep (m, id) (n, a) = (a.empty_slabs.length, n) := by
        simp [maxScanStep, hgt]
      rw [hstep]
      obtain ⟨ub, lb, att⟩ := ih (n + 1) a.empty_slabs.length n
      refine ⟨?_, le_trans (le_of_lt hgt) lb, ?_⟩
      · intro sca hs
        rcases List.mem_cons.mp hs with rfl | hs'
        · exact lb
        · exact ub sca hs'
      · rcases att with heq | ⟨pr, hpr, h1, h2⟩
        · exact Or.inr ⟨(n, a), List.mem_cons_self _ _, by rw [heq], by rw [heq]⟩
        · exact Or.inr ⟨pr, List.mem_cons_of_mem _ hpr, h1, h2⟩
    · have hstep : maxScanStep (m, id) (n, a) = (m, id) := by
        simp [maxScanStep, hgt]
      rw [hstep]
      obtain ⟨ub, lb, att⟩ := ih (n + 1) m id
      refine ⟨?_, lb, ?_⟩
      · intro sca hs
        rcases List.mem_cons.mp hs with rfl | hs'
        · exact le_trans (Nat.le_of_not_lt hgt) lb
        · exact ub sca hs'
      · rcases att with heq | ⟨pr, hpr, h1, h2⟩
        · exact Or.inl heq
        · exact Or.inr ⟨pr, List.mem_cons_of_mem _ hpr, h1, h2⟩

theorem smallSlabWithMax_spec (z : ZoneAllocator) :
    (∀ sca ∈ z.smallSlabs,
        sca.empty_slabs.length ≤ z.smallSlabWithMaxEmptyPages.1)
    ∧ (z.smallSlabWithMaxEmptyPages = (0, 0)
        ∨ ∃ sca, z.smallSlabs.get? z.smallSlabWithMaxEmptyPages.2 = some sca
            ∧ sca.empty_slabs.length = z.smallSlabWithMaxEmptyPages.1) := by
  have hz : z.smallSlabs.enum = z.smallSlabs.enumFrom 0 := rfl
  have h := maxScan_spec z.smallSlabs 0 0 0
  unfold ZoneAllocator.smallSlabWithMaxEmptyPages
  rw [hz]
  refine ⟨h.1, ?_⟩
  rcases h.2.2 with heq | ⟨pr, hpr, h1, h2⟩
  · exact Or.inl heq
  · refine Or.inr ⟨pr.2, ?_, h2⟩
    rw [← h1]
    have : pr ∈ z.smallSlabs.enum := hz ▸ hpr
    have := List.mem_enum_iff_getElem?.mp this
    rw [List.get?_eq_getElem?]
    exact this

theorem maxScan_eq_maxEmptyCount (z : ZoneAllocator) :
    z.smallSlabWithMaxEmptyPages.1 = maxEmptyCount z := by
  obtain ⟨ub, att⟩ := smallSlabWithMax_spec z
  apply le_antisymm
  · rcases att with heq | ⟨sca, hget, hlen⟩
    · rw [heq]; exact Nat.zero_le _
    · rw [← hlen]
      unfold maxEmptyCount
      exact le_foldrMax (List.mem_map_of_mem _ (List.get?_mem hget))
  · unfold maxEmptyCount
    rw [foldrMax_le_iff]
    intro a ha
    obtain ⟨sca, hmem, rfl⟩ := List.mem_map.mp ha
    exact ub sca hmem

/-- C6: `ZoneAllocator::retrieve_empty_page` returns a page exactly when the
maximum empty-page count over all size-class allocators exceeds
`SLAB_EMPTY_PAGES_THRESHOLD` (= 0), and the page it returns is popped off
the front of the empty list of an allocator attaining that maximum. -/
theorem c6_retrieve_empty_page (z : ZoneAllocator) (res : Option MappedPages8k)
    (z' : ZoneAllocator) (h : z.retrieveEmptyPage = some (res, z')) :
    (res.isSome ↔ slabEmptyPagesThreshold < maxEmptyCount z)
    ∧ ∀ p, res = some p →
        ∃ idx sca, z.smallSlabs.get? idx = some sca
          ∧ sca.empty_slabs.length = maxEmptyCount z
          ∧ sca.empty_slabs.head? = some p
          ∧ z' = ⟨z.smallSlabs.set idx
                    { sca with empty_slabs := sca.empty_slabs.tail }⟩ := by
  have hmax := maxScan_eq_maxEmptyCount z
  obtain ⟨ub, att⟩ := smallSlabWithMax_spec z
  unfold ZoneAllocator.retrieveEmptyPage at h
  by_cases hpos : z.smallSlabWithMaxEmptyPages.1 > slabEmptyPagesThreshold
  · rw [if_pos hpos] at h
    rcases att with heq | ⟨sca, hget, hlen⟩
    · rw [heq] at hpos; exact absurd hpos (by decide)
    · rw [hget, Option.map_some'] at h
      rcases hemp : sca.empty_slabs with _ | ⟨p0, rest⟩
      · rw [hemp] at hlen
        rw [← hlen] at hpos
        exact absurd hpos (by simp)
      · have hr : sca.retrieveEmptyPage
            = (some p0, { sca with empty_slabs := rest }) := by
          unfold SCAllocator.retrieveEmptyPage
          rw [hemp]
        rw [hr] at h
        obtain ⟨h1, h2⟩ := Prod.mk.injEq .. ▸ (Option.some.inj h)
        constructor
        · rw [← h1, ← hmax]
          simp [hpos]
        · intro p hp
          rw [← h1] at hp
          refine ⟨z.smallSlabWithMaxEmptyPages.2, sca, hget, hmax ▸ hlen, ?_, ?_⟩
          · rw [hemp, Option.some.inj hp]; rfl
          · rw [← h2, hemp]
            simp
  · rw [if_neg hpos] at h
    obtain ⟨h1, h2⟩ := Prod.mk.injEq .. ▸ (Option.some.inj h)
    constructor
    · rw [← h1]
      simp only [Option.isSome_none, Bool.false_eq_true, false_iff]
      rw [← hmax]
      exact hpos
    · intro p hp
      rw [← h1] at hp
      cases hp

/-! ## Zone allocation: the out-of-memory retry (claims C2, C10) -/

theorem zoneAllocT_ok (z : ZoneAllocator) (layout : Layout) (idx : Nat)
    (sca : SCAllocator) (ptr : Nat) (sca' : SCAllocator)
    (hidx : getSlab layout.size = Slab.base idx)
    (hget : z.smallSlabs.get? idx = some sca)
    (hok : sca.allocate layout = some (Except.ok ptr, sca')) :
    z.allocateT layout
      = some (Except.ok ptr, ⟨z.smallSlabs.set idx sca'⟩,
          [ZoneEvent.scaAlloc idx]) := by
  simp only [ZoneAllocator.allocateT, hidx, hget, hok, Option.some_bind]

theorem zoneAllocT_heapIdErr (z : ZoneAllocator) (layout : Layout) (idx : Nat)
    (sca : SCAllocator) (e : String) (sca' : SCAllocator) (he : String)
    (hidx : getSlab layout.size = Slab.base idx)
    (hget : z.smallSlabs.get? idx = some sca)
    (herr : sca.allocate layout = some (Except.error e, sca'))
    (hheap : ZoneAllocator.heapId ⟨z.smallSlabs.set idx sca'⟩
        = some (Except.error he)) :
    z.allocateT layout
      = some (Except.error he, ⟨z.smallSlabs.set idx sca'⟩,
          [ZoneEvent.scaAlloc idx]) := by
  simp only [ZoneAllocator.allocateT, hidx, hget, herr, hheap, Option.some_bind]

theorem zoneAllocT_exchangeErr (z : ZoneAllocator) (layout : Layout) (idx : Nat)
    (sca : SCAllocator) (e : String) (sca' : SCAllocator) (hid : Nat)
    (xe : String) (z2 : ZoneAllocator)
    (hidx : getSlab layout.size = Slab.base idx)
    (hget : z.smallSlabs.get? idx = some sca)
    (herr : sca.allocate layout = some (Except.error e, sca'))
    (hheap : ZoneAllocator.heapId ⟨z.smallSlabs.set idx sca'⟩
        = some (Except.ok hid))
    (hex : ZoneAllocator.exchangePagesWithinHeap ⟨z.smallSlabs.set idx sca'⟩
        layout hid = some (Except.error xe, z2)) :
    z.allocateT layout
      = some (Except.error xe, z2,
          [ZoneEvent.scaAlloc idx, ZoneEvent.exchange]) := by
  simp only [ZoneAllocator.allocateT, hidx, hget, herr, hheap, hex,
    Option.some_bind]

theorem zoneAllocT_exchangeOk (z : ZoneAllocator) (layout : Layout) (idx : Nat)
    (sca : SCAllocator) (e : String) (sca' : SCAllocator) (hid : Nat)
    (z2 : ZoneAllocator) (sca2 : SCAllocator) (r2 : Except String Nat)
    (sca2' : SCAllocator)
    (hidx : getSlab layout.size = Slab.base idx)
    (hget : z.smallSlabs.get? idx = some sca)
    (herr : sca.allocate layout = some (Except.error e, sca'))
    (hheap : ZoneAllocator.heapId ⟨z.smallSlabs.set idx sca'⟩
        = some (Except.ok hid))
    (hex : ZoneAllocator.exchangePagesWithinHeap ⟨z.smallSlabs.set idx sca'⟩
        layout hid = some (Except.ok (), z2))
    (hget2 : z2.smallSlabs.get? idx = some sca2)
    (hre : sca2.allocate layout = some (r2, sca2')) :
    z.allocateT layout
      = some (r2, ⟨z2.smallSlabs.set idx sca2'⟩,
          [ZoneEvent.scaAlloc idx, ZoneEvent.exchange,
            ZoneEvent.scaAlloc idx]) := by
  simp only [ZoneAllocator.allocateT, hidx, hget, herr, hheap, hex, hget2, hre,
    Option.some_bind, Option.map_some']

theorem zoneAllocT_getNone (z : ZoneAllocator) (layout : Layout) (idx : Nat)
    (hidx : getSlab layout.size = Slab.base idx)
    (hget : z.smallSlabs.get? idx = none) :
    z.allocateT layout = none := by
  simp only [ZoneAllocator.allocateT, hidx, hget, Option.none_bind]

theorem zoneAllocT_allocNone (z : ZoneAllocator) (layout : Layout) (idx : Nat)
    (sca : SCAllocator)
    (hidx : getSlab layout.size = Slab.base idx)
    (hget : z.smallSlabs.get? idx = some sca)
    (halloc : sca.allocate layout = none) :
    z.allocateT layout = none := by
  simp only [ZoneAllocator.allocateT, hidx, hget, halloc, Option.some_bind,
    Option.none_bind]

theorem zoneAllocT_heapIdNone (z : ZoneAllocator) (layout : Layout) (idx : Nat)
    (sca : SCAllocator) (e : String) (sca' : SCAllocator)
    (hidx : getSlab layout.size = Slab.base idx)
    (hget : z.smallSlabs.get? idx = some sca)
    (herr : sca.allocate layout = some (Except.error e, sca'))
    (hheap : ZoneAllocator.heapId ⟨z.smallSlabs.set idx sca'⟩ = none) :
    z.allocateT layout = none := by
  simp only [ZoneAllocator.allocateT, hidx, hget, herr, hheap, Option.some_bind,
    Option.none_bind]

theorem zoneAllocT_exchangeNone (z : ZoneAllocator) (layout : Layout)
    (idx : Nat) (sca : SCAllocator) (e : String) (sca' : SCAllocator)
    (hid : Nat)
    (hidx : getSlab layout.size = Slab.base idx)
    (hget : z.smallSlabs.get? idx = some sca)
    (herr : sca.allocate layout = some (Except.error e, sca'))
    (hheap : ZoneAllocator.heapId ⟨z.smallSlabs.set idx sca'⟩
        = some (Except.ok hid))
    (hex : ZoneAllocator.exchangePagesWithinHeap ⟨z.smallSlabs.set idx sca'⟩
        layout hid = none) :
    z.allocateT layout = none := by
  simp only [ZoneAllocator.allocateT, hidx, hget, herr, hheap, hex,
    Option.some_bind, Option.none_bind]

theorem zoneAllocT_get2None (z : ZoneAllocator) (layout : Layout) (idx : Nat)
    (sca : SCAllocator) (e : String) (sca' : SCAllocator) (hid : Nat)
    (z2 : ZoneAllocator)
    (hidx : getSlab layout.size = Slab.base idx)
    (hget : z.smallSlabs.get? idx = some sca)
    (herr : sca.allocate layout = some (Except.error e, sca'))
    (hheap : ZoneAllocator.heapId ⟨z.smallSlabs.set idx sca'⟩
        = some (Except.ok hid))
    (hex : ZoneAllocator.exchangePagesWithinHeap ⟨z.smallSlabs.set idx sca'⟩
        layout hid = some (Except.ok (), z2))
    (hget2 : z2.smallSlabs.get? idx = none) :
    z.allocateT layout = none := by
  simp only [ZoneAllocator.allocateT, hidx, hget, herr, hheap, hex, hget2,
    Option.some_bind, Option.none_bind]

theorem zoneAllocT_reallocNone (z : ZoneAllocator) (layout : Layout)
    (idx : Nat) (sca : SCAllocator) (e : String) (sca' : SCAllocator)
    (hid : Nat) (z2 : ZoneAllocator) (sca2 : SCAllocator)
    (hidx : getSlab layout.size = Slab.base idx)
    (hget : z.smallSlabs.get? idx = some sca)
    (herr : sca.allocate layout = some (Except.error e, sca'))
    (hheap : ZoneAllocator.heapId ⟨z.smallSlabs.set idx sca'⟩
        = some (Except.ok hid))
    (hex : ZoneAllocator.exchangePagesWithinHeap ⟨z.smallSlabs.set idx sca'⟩
        layout hid = some (Except.ok (), z2))
    (hget2 : z2.smallSlabs.get? idx = some sca2)
    (hre : sca2.allocate layout = none) :
    z.allocateT layout = none := by
  simp only [ZoneAllocator.allocateT, hidx, hget, herr, hheap, hex, hget2, hre,
    Option.some_bind, Option.none_bind, Option.map_none']

/-- The trace of a completed `ZoneAllocator::allocate` on a supported class:
one slab-allocator call, or one call followed by an exchange, or a call, an
exchange and the single retry. -/
theorem zoneAllocT_traces (z : ZoneAllocator) (layout : Layout) (idx : Nat)
    (hidx : getSlab layout.size = Slab.base idx)
    (r : Except String Nat) (z' : ZoneAllocator) (tr : List ZoneEvent)
    (h : z.allocateT layout = some (r, z', tr)) :
    tr = [ZoneEvent.scaAlloc idx]
    ∨ tr = [ZoneEvent.scaAlloc idx, ZoneEvent.exchange]
    ∨ tr = [ZoneEvent.scaAlloc idx, ZoneEvent.exchange,
        ZoneEvent.scaAlloc idx] := by
  rcases hget : z.smallSlabs.get? idx with _ | sca
  · rw [zoneAllocT_getNone z layout idx hidx hget] at h
    cases h
  rcases halloc : sca.allocate layout with _ | ⟨r1, sca'⟩
  · rw [zoneAllocT_allocNone z layout idx sca hidx hget halloc] at h
    cases h
  rcases r1 with e | ptr
  · rcases hheap : ZoneAllocator.heapId ⟨z.smallSlabs.set idx sca'⟩
        with _ | ⟨he | hid⟩
    · rw [zoneAllocT_heapIdNone z layout idx sca e sca' hidx hget halloc
        hheap] at h
      cases h
    · rw [zoneAllocT_heapIdErr z layout idx sca e sca' he hidx hget halloc
        hheap] at h
      cases h
      exact Or.inl rfl
    · rcases hex : ZoneAllocator.exchangePagesWithinHeap
          ⟨z.smallSlabs.set idx sca'⟩ layout hid with _ | ⟨xr, z2⟩
      · rw [zoneAllocT_exchangeNone z layout idx sca e sca' hid hidx hget
          halloc hheap hex] at h
        cases h
      rcases xr with xe | u
      · rw [zoneAllocT_exchangeErr z layout idx sca e sca' hid xe z2 hidx
          hget halloc hheap hex] at h
        cases h
        exact Or.inr (Or.inl rfl)
      cases u
      rcases hget2 : z2.smallSlabs.get? idx with _ | sca2
      · rw [zoneAllocT_get2None z layout idx sca e sca' hid z2 hidx hget
          halloc hheap hex hget2] at h
        cases h
      rcases hre : sca2.allocate layout with _ | ⟨r2, sca2'⟩
      · rw [zoneAllocT_reallocNone z layout idx sca e sca' hid z2 sca2 hidx
          hget halloc hheap hex hget2 hre] at h
        cases h
      rw [zoneAllocT_exchangeOk z layout idx sca e sca' hid z2 sca2 r2 sca2'
        hidx hget halloc hheap hex hget2 hre] at h
      cases h
      exact Or.inr (Or.inr rfl)
  · rw [zoneAllocT_ok z layout idx sca ptr sca' hidx hget halloc] at h
    cases h
    exact Or.inl rfl

/-- C2 amended: on a supported class, `ZoneAllocator::allocate` makes at
most two slab-allocator calls and at most one exchange (final conjunct: the
trace is one of three shapes). When the first slab-allocator call succeeds,
its result is returned with no exchange. When it errors and the heap id is
readable, the exchange runs, and the single retry's result is returned when
the exchange succeeds while the exchange's error propagates with no retry
when it fails. When the heap id is not readable (the index-0 allocator
holds no pages), the heap-id error propagates without any exchange. -/
theorem c2_oom_retry_once (z : ZoneAllocator) (layout : Layout) (idx : Nat)
    (sca : SCAllocator) (hidx : getSlab layout.size = Slab.base idx)
    (hget : z.smallSlabs.get? idx = some sca) :
    (∀ ptr sca', sca.allocate layout = some (Except.ok ptr, sca') →
        z.allocateT layout
          = some (Except.ok ptr, ⟨z.smallSlabs.set idx sca'⟩,
              [ZoneEvent.scaAlloc idx]))
    ∧ (∀ e sca' he, sca.allocate layout = some (Except.error e, sca') →
        ZoneAllocator.heapId ⟨z.smallSlabs.set idx sca'⟩
            = some (Except.error he) →
        z.allocateT layout
          = some (Except.error he, ⟨z.smallSlabs.set idx sca'⟩,
              [ZoneEvent.scaAlloc idx]))
    ∧ (∀ e sca' hid xe z2, sca.allocate layout = some (Except.error e, sca') →
        ZoneAllocator.heapId ⟨z.smallSlabs.set idx sca'⟩
            = some (Except.ok hid) →
        ZoneAllocator.exchangePagesWithinHeap ⟨z.smallSlabs.set idx sca'⟩
            layout hid = some (Except.error xe, z2) →
        z.allocateT layout
          = some (Except.error xe, z2,
              [ZoneEvent.scaAlloc idx, ZoneEvent.exchange]))
    ∧ (∀ e sca' hid z2 sca2 r2 sca2',
        sca.allocate layout = some (Except.error e, sca') →
        ZoneAllocator.heapId ⟨z.smallSlabs.set idx sca'⟩
            = some (Except.ok hid) →
        ZoneAllocator.exchangePagesWithinHeap ⟨z.smallSlabs.set idx sca'⟩
            layout hid = some (Except.ok (), z2) →
        z2.smallSlabs.get? idx = some sca2 →
        sca2.allocate layout = some (r2, sca2') →
        z.allocateT layout
          = some (r2, ⟨z2.smallSlabs.set idx sca2'⟩,
              [ZoneEvent.scaAlloc idx, ZoneEvent.exchange,
                ZoneEvent.scaAlloc idx]))
    ∧ (∀ r z' tr, z.allocateT layout = some (r, z', tr) →
        tr = [ZoneEvent.scaAlloc idx]
        ∨ tr = [ZoneEvent.scaAlloc idx, ZoneEvent.exchange]
        ∨ tr = [ZoneEvent.scaAlloc idx, ZoneEvent.exchange,
            ZoneEvent.scaAlloc idx]) := by
  refine ⟨?_, ?_, ?_, ?_, ?_⟩
  · intro ptr sca' hok
    exact zoneAllocT_ok z layout idx sca ptr sca' hidx hget hok
  · intro e sca' he herr hheap
    exact zoneAllocT_heapIdErr z layout idx sca e sca' he hidx hget herr hheap
  · intro e sca' hid xe z2 herr hheap hex
    exact zoneAllocT_exchangeErr z layout idx sca e sca' hid xe z2 hidx hget
      herr hheap hex
  · intro e sca' hid z2 sca2 r2 sca2' herr hheap hex hget2 hre
    exact zoneAllocT_exchangeOk z layout idx sca e sca' hid z2 sca2 r2 sca2'
      hidx hget herr hheap hex hget2 hre
  · intro r z' tr h
    exact zoneAllocT_traces z layout idx hidx r z' tr h

/-- Witness for the amended C2 on the empty eleven-class zone: the first
slab-allocator call errors, the heap id is unreadable, and the heap-id error
is returned after a single slab-allocator call. -/
theorem c2_oom_retry_once_witness :
    getSlab (8 : Nat) = Slab.base 0
    ∧ ZoneAllocator.new.smallSlabs.get? 0 = some (SCAllocator.new 8)
    ∧ ZoneAllocator.new.allocateT ⟨8, 1⟩
        = some (Except.error noPagesErr,
            ⟨ZoneAllocator.new.smallSlabs.set 0 (SCAllocator.new 8)⟩,
            [ZoneEvent.scaAlloc 0]) :=
  ⟨rfl, rfl,
    (c2_oom_retry_once ZoneAllocator.new ⟨8, 1⟩ 0 (SCAllocator.new 8) rfl
          rfl).2.1
      outOfMemoryErr (SCAllocator.new 8) noPagesErr rfl rfl⟩

/-- C2 counterexample: on the empty eleven-class zone, the class-0 allocator
errors with out-of-memory, yet `ZoneAllocator::allocate` performs no
`exchange_pages_within_heap` and no retry: its trace is the single
slab-allocator call, because the heap-id read fails first. -/
theorem c2_counterexample :
    (SCAllocator.new 8).allocate ⟨8, 1⟩
        = some (Except.error outOfMemoryErr, SCAllocator.new 8)
    ∧ (ZoneAllocator.new.allocateT ⟨8, 1⟩).map (fun t => t.2.2)
        = some [ZoneEvent.scaAlloc 0]
    ∧ ZoneEvent.exchange ∉ [ZoneEvent.scaAlloc 0] :=
  ⟨rfl, rfl, by decide⟩

/-- C10: when the targeted class's allocator errors and the class-8
(index-0) allocator of the resulting zone holds no pages, `Zone::allocate`
returns the heap-id error without attempting the page exchange; no other
class's empty pages are consulted. -/
theorem c10_no_exchange_without_heap_id (z : ZoneAllocator) (layout : Layout)
    (idx : Nat) (sca : SCAllocator) (e : String) (sca' : SCAllocator)
    (sca0 : SCAllocator)
    (hidx : getSlab layout.size = Slab.base idx)
    (hget : z.smallSlabs.get? idx = some sca)
    (herr : sca.allocate layout = some (Except.error e, sca'))
    (hget0 : (z.smallSlabs.set idx sca').get? 0 = some sca0)
    (hnp : sca0.allPages = []) :
    z.allocateT layout
      = some (Except.error noPagesErr, ⟨z.smallSlabs.set idx sca'⟩,
          [ZoneEvent.scaAlloc idx])
    ∧ ZoneEvent.exchange ∉ [ZoneEvent.scaAlloc idx] := by
  have hne : ZoneEvent.exchange ∉ [ZoneEvent.scaAlloc idx] := by simp
  have hheap : ZoneAllocator.heapId ⟨z.smallSlabs.set idx sca'⟩
      = some (Except.error noPagesErr) := by
    simp only [ZoneAllocator.heapId, hget0, Option.map_some']
    simp [SCAllocator.heapId, hnp]
  exact ⟨zoneAllocT_heapIdErr z layout idx sca e sca' noPagesErr hidx hget
      herr hheap, hne⟩

/-- Witness for C10 on the zone holding one empty class-16 page: class 0 is
out of memory, the index-0 allocator holds no pages, and the class-16 empty
page is not exchanged. -/
theorem c10_no_exchange_without_heap_id_witness :
    (zone16.smallSlabs.get? 1).map (fun s => s.empty_slabs.length) = some 1
    ∧ zone16.allocateT ⟨8, 1⟩
        = some (Except.error noPagesErr,
            ⟨zone16.smallSlabs.set 0 (SCAllocator.new 8)⟩,
            [ZoneEvent.scaAlloc 0])
    ∧ ZoneEvent.exchange ∉ [ZoneEvent.scaAlloc 0] :=
  ⟨rfl,
    (c10_no_exchange_without_heap_id zone16 ⟨8, 1⟩ 0 (SCAllocator.new 8)
        outOfMemoryErr (SCAllocator.new 8) (SCAllocator.new 8) rfl rfl rfl rfl
        rfl).1,
    (c10_no_exchange_without_heap_id zone16 ⟨8, 1⟩ 0 (SCAllocator.new 8)
        outOfMemoryErr (SCAllocator.new 8) (SCAllocator.new 8) rfl rfl rfl rfl
        rfl).2⟩

set_option maxRecDepth 4000 in
/-- Witness for C6 on the zone holding one empty class-16 page. -/
theorem c6_retrieve_empty_page_witness :
    ∃ res z', zone16.retrieveEmptyPage = some (res, z')
      ∧ (res.isSome ↔ slabEmptyPagesThreshold < maxEmptyCount zone16)
      ∧ res.isSome = true := by
  refine ⟨_, _, rfl, (c6_retrieve_empty_page zone16 _ _ rfl).1, rfl⟩

/-! ## SCAllocator allocation equations (claims C4, C9, and later C1/C3/C7) -/

theorem updateFirstAlloc_nil (scL : Layout) :
    updateFirstAlloc scL [] = (0, none, [], []) := rfl

theorem updateFirstAlloc_cons (scL : Layout) (p : MappedPages8k)
    (rest : List MappedPages8k) :
    updateFirstAlloc scL (p :: rest)
      = if (p.allocate scL).1 ≠ 0
          then ((p.allocate scL).1, some (p.allocate scL).2,
            (p.allocate scL).2 :: rest, [PageAllocCall.scanSlabs scL])
          else ((updateFirstAlloc scL rest).1, (updateFirstAlloc scL rest).2.1,
            (p.allocate scL).2 :: (updateFirstAlloc scL rest).2.2.1,
            PageAllocCall.scanSlabs scL :: (updateFirstAlloc scL rest).2.2.2) :=
  rfl

theorem updateFirstAlloc_trace (scL : Layout) (l : List MappedPages8k) :
    ∀ c ∈ (updateFirstAlloc scL l).2.2.2, c = PageAllocCall.scanSlabs scL := by
  induction l with
  | nil => intro c hc; rw [updateFirstAlloc_nil] at hc; cases hc
  | cons p rest ih =>
    intro c hc
    rw [updateFirstAlloc_cons] at hc
    by_cases hp : (p.allocate scL).1 ≠ 0
    · rw [if_pos hp] at hc
      exact List.mem_singleton.mp hc
    · rw [if_neg hp] at hc
      rcases List.mem_cons.mp hc with rfl | hc'
      · rfl
      · exact ih c hc'

/-- `try_allocate_from_pagelist` after the scan finds no page: the null
pointer is reported, `slabs` keeps the scan's state, nothing moves. -/
theorem tryAlloc_eq_scanNone (s : SCAllocator) (scL : Layout)
    (hos : (updateFirstAlloc scL s.slabs).2.1 = none) :
    s.tryAllocateFromPagelist scL
      = some (0, { s with slabs := (updateFirstAlloc scL s.slabs).2.2.1 },
          (updateFirstAlloc scL s.slabs).2.2.2) := by
  simp only [SCAllocator.tryAllocateFromPagelist, hos]

/-- `try_allocate_from_pagelist` after the scan succeeds on a page that is
not full afterwards: no list movement, `allocation_count` grows. -/
theorem tryAlloc_eq_scanNotFull (s : SCAllocator) (scL : Layout)
    (p' : MappedPages8k)
    (hos : (updateFirstAlloc scL s.slabs).2.1 = some p')
    (hnf : ¬ p'.isFull) :
    s.tryAllocateFromPagelist scL
      = some ((updateFirstAlloc scL s.slabs).1,
          { s with
              slabs := (updateFirstAlloc scL s.slabs).2.2.1,
              allocation_count := s.allocation_count + 1 },
          (updateFirstAlloc scL s.slabs).2.2.2) := by
  simp only [SCAllocator.tryAllocateFromPagelist, hos, if_neg hnf,
    Option.map_some', Option.some.injEq]

/-- `try_allocate_from_pagelist` after the scan fills a page: the page moves
to `full_slabs` through `move_partial_to_full` (whose `unwrap` panic
propagates as `none`). -/
theorem tryAlloc_eq_scanFull (s : SCAllocator) (scL : Layout)
    (p' : MappedPages8k) (s2 : SCAllocator)
    (hos : (updateFirstAlloc scL s.slabs).2.1 = some p')
    (hf : p'.isFull)
    (hmv : SCAllocator.movePartialToFull
        { s with slabs := (updateFirstAlloc scL s.slabs).2.2.1 }
        p'.startAddress = some s2) :
    s.tryAllocateFromPagelist scL
      = some ((updateFirstAlloc scL s.slabs).1,
          { s2 with allocation_count := s2.allocation_count + 1 },
          (updateFirstAlloc scL s.slabs).2.2.2) := by
  simp only [SCAllocator.tryAllocateFromPagelist, hos, if_pos hf, hmv,
    Option.map_some']

/-- As `tryAlloc_eq_scanFull` when the move panics. -/
theorem tryAlloc_eq_scanFullNone (s : SCAllocator) (scL : Layout)
    (p' : MappedPages8k)
    (hos : (updateFirstAlloc scL s.slabs).2.1 = some p')
    (hf : p'.isFull)
    (hmv : SCAllocator.movePartialToFull
        { s with slabs := (updateFirstAlloc scL s.slabs).2.2.1 }
        p'.startAddress = none) :
    s.tryAllocateFromPagelist scL = none := by
  simp only [SCAllocator.tryAllocateFromPagelist, hos, if_pos hf, hmv,
    Option.map_none']

theorem tryAlloc_trace_eq (s : SCAllocator) (scL : Layout)
    (res : Nat × SCAllocator × List PageAllocCall)
    (h : s.tryAllocateFromPagelist scL = some res) :
    res.2.2 = (updateFirstAlloc scL s.slabs).2.2.2 := by
  rcases hos : (updateFirstAlloc scL s.slabs).2.1 with _ | p'
  · rw [tryAlloc_eq_scanNone s scL hos] at h
    cases h
    rfl
  · by_cases hf : p'.isFull
    · rcases hmv : SCAllocator.movePartialToFull
          { s with slabs := (updateFirstAlloc scL s.slabs).2.2.1 }
          p'.startAddress with _ | s2
      · rw [tryAlloc_eq_scanFullNone s scL p' hos hf hmv] at h
        cases h
      · rw [tryAlloc_eq_scanFull s scL p' s2 hos hf hmv] at h
        cases h
        rfl
    · rw [tryAlloc_eq_scanNotFull s scL p' hos hf] at h
      cases h
      rfl

/-- `SCAllocator::allocate` when an opening `assert!` fails: a release-mode
panic. -/
theorem scaAllocT_assertPanic (s : SCAllocator) (layout : Layout)
    (h : ¬ layout.size ≤ s.size ∨ ¬ s.size ≤ pageSize - cacheLineSize) :
    s.allocateT layout = none := by
  rcases h with h | h
  · simp only [SCAllocator.allocateT, if_pos h]
  · by_cases h1 : ¬ layout.size ≤ s.size
    · simp only [SCAllocator.allocateT, if_pos h1]
    · simp only [SCAllocator.allocateT, if_neg h1, if_pos h]

/-- `SCAllocator::allocate` when the scan of `slabs` produced a non-null
pointer: that pointer is returned. -/
theorem scaAllocT_scanOk (s : SCAllocator) (layout : Layout) (ptr : Nat)
    (s1 : SCAllocator) (tr0 : List PageAllocCall)
    (h1 : layout.size ≤ s.size) (h2 : s.size ≤ pageSize - cacheLineSize)
    (htry : s.tryAllocateFromPagelist ⟨s.size, layout.align⟩
        = some (ptr, s1, tr0))
    (hptr : ptr ≠ 0) :
    s.allocateT layout = some (Except.ok ptr, s1, tr0) := by
  simp only [SCAllocator.allocateT, if_neg (not_not_intro h1),
    if_neg (not_not_intro h2), htry, Option.map_some', if_neg hptr]

/-- `SCAllocator::allocate` when the scan fails and `empty_slabs` is empty:
out of memory. -/
theorem scaAllocT_oom (s : SCAllocator) (layout : Layout)
    (s1 : SCAllocator) (tr0 : List PageAllocCall)
    (h1 : layout.size ≤ s.size) (h2 : s.size ≤ pageSize - cacheLineSize)
    (htry : s.tryAllocateFromPagelist ⟨s.size, layout.align⟩
        = some (0, s1, tr0))
    (hemp : s1.empty_slabs = []) :
    s.allocateT layout = some (Except.error outOfMemoryErr, s1, tr0) := by
  simp only [SCAllocator.allocateT, if_neg (not_not_intro h1),
    if_neg (not_not_intro h2), htry, Option.map_some', eq_self_iff_true,
    if_true, hemp]

/-- `SCAllocator::allocate` when the scan fails and a page is popped off
`empty_slabs`: `page.allocate` runs with the caller's original layout, the
page is pushed onto `slabs`, and the pointer (null turning into the
out-of-memory error) is returned. -/
theorem scaAllocT_empty (s : SCAllocator) (layout : Layout)
    (s1 : SCAllocator) (tr0 : List PageAllocCall) (ep : MappedPages8k)
    (rest : List MappedPages8k)
    (h1 : layout.size ≤ s.size) (h2 : s.size ≤ pageSize - cacheLineSize)
    (htry : s.tryAllocateFromPagelist ⟨s.size, layout.align⟩
        = some (0, s1, tr0))
    (hemp : s1.empty_slabs = ep :: rest) :
    s.allocateT layout
      = some
          (if (ep.allocate layout).1 ≠ 0 then Except.ok (ep.allocate layout).1
            else Except.error outOfMemoryErr,
          { s1 with
              empty_slabs := rest
              slabs := (ep.allocate layout).2 :: s1.slabs },
          tr0 ++ [PageAllocCall.fromEmpty layout]) := by
  simp only [SCAllocator.allocateT, if_neg (not_not_intro h1),
    if_neg (not_not_intro h2), htry, Option.map_some', eq_self_iff_true,
    if_true, hemp]

/-- C4 amended: every page-level allocation made while scanning the partial
list uses the widened layout `{self.size, layout.align}`, but the allocation
on a page popped off the empty list is passed the caller's original layout
instead. -/
theorem c4_page_alloc_layouts (s : SCAllocator) (layout : Layout)
    (r : Except String Nat) (s' : SCAllocator) (tr : List PageAllocCall)
    (h : s.allocateT layout = some (r, s', tr)) :
    (∀ L, PageAllocCall.scanSlabs L ∈ tr → L = ⟨s.size, layout.align⟩)
    ∧ (∀ L, PageAllocCall.fromEmpty L ∈ tr → L = layout) := by
  by_cases h1 : layout.size ≤ s.size
  · by_cases h2 : s.size ≤ pageSize - cacheLineSize
    · rcases htry : s.tryAllocateFromPagelist ⟨s.size, layout.align⟩
          with _ | ⟨ptr, s1, tr0⟩
      · rw [show s.allocateT layout = none by
          simp only [SCAllocator.allocateT, if_neg (not_not_intro h1),
            if_neg (not_not_intro h2), htry, Option.map_none']] at h
        cases h
      · have htr0 : ∀ c ∈ tr0, c = PageAllocCall.scanSlabs
            ⟨s.size, layout.align⟩ := by
          have he : tr0 = (updateFirstAlloc ⟨s.size, layout.align⟩
              s.slabs).2.2.2 :=
            tryAlloc_trace_eq s ⟨s.size, layout.align⟩ (ptr, s1, tr0) htry
          intro c hc
          exact updateFirstAlloc_trace _ _ c (he ▸ hc)
        by_cases hptr : ptr = 0
        · subst hptr
          rcases hemp : s1.empty_slabs with _ | ⟨ep, rest⟩
          · rw [scaAllocT_oom s layout s1 tr0 h1 h2 htry hemp] at h
            cases h
            constructor
            · intro L hL
              have := htr0 _ hL
              cases this
              rfl
            · intro L hL
              have := htr0 _ hL
              cases this
          · rw [scaAllocT_empty s layout s1 tr0 ep rest h1 h2 htry hemp] at h
            cases h
            constructor
            · intro L hL
              rcases List.mem_append.mp hL with hL' | hL'
              · have := htr0 _ hL'
                cases this
                rfl
              · cases List.mem_singleton.mp hL'
            · intro L hL
              rcases List.mem_append.mp hL with hL' | hL'
              · have := htr0 _ hL'
                cases this
              · cases List.mem_singleton.mp hL'
                rfl
        · rw [scaAllocT_scanOk s layout ptr s1 tr0 h1 h2 htry hptr] at h
          cases h
          constructor
          · intro L hL
            have := htr0 _ hL
            cases this
            rfl
          · intro L hL
            have := htr0 _ hL
            cases this
    · rw [scaAllocT_assertPanic s layout (Or.inr h2)] at h
      cases h
  · rw [scaAllocT_assertPanic s layout (Or.inl h1)] at h
    cases h

/-- Witness for the amended C4, on the one-page class-16 allocator and the
layout `{1, 1}`: the single page-level allocation is the empty-list one and
it carries the original layout. -/
theorem c4_page_alloc_layouts_witness :
    ∃ r s' tr, sca16.allocateT ⟨1, 1⟩ = some (r, s', tr)
      ∧ (∀ L, PageAllocCall.scanSlabs L ∈ tr → L = ⟨sca16.size, 1⟩)
      ∧ (∀ L, PageAllocCall.fromEmpty L ∈ tr → L = ⟨1, 1⟩) := by
  refine ⟨_, _, _, rfl, ?_, ?_⟩
  · exact (c4_page_alloc_layouts sca16 ⟨1, 1⟩ _ _ _ rfl).1
  · exact (c4_page_alloc_layouts sca16 ⟨1, 1⟩ _ _ _ rfl).2

/-- C4 counterexample: allocating `{1, 1}` from the one-page class-16
allocator performs exactly one page-level allocation, the one on the page
popped off the empty list, and hands it the caller's original layout
`{1, 1}` rather than the widened layout `{16, 1}`. -/
theorem c4_counterexample :
    (sca16.allocateT ⟨1, 1⟩).map (fun t => t.2.2)
        = some [PageAllocCall.fromEmpty ⟨1, 1⟩]
    ∧ sca16.size = 16
    ∧ (⟨1, 1⟩ : Layout) ≠ (⟨16, 1⟩ : Layout) :=
  ⟨rfl, rfl, by decide⟩

/-- C5 counterexample: deallocating the (never-allocated) first slot of the
page held on the class-16 allocator's empty list is an invalid deallocation
whose masked page base lies in neither the partial nor the full list; the
code does not return an error but panics: `page.deallocate` reports a double
free on memory it should not have touched, and the subsequent bookkeeping
`unwrap` fails. -/
theorem c5_counterexample :
    sca16.deallocate 8192 ⟨16, 1⟩ = none
    ∧ (8192 : Nat)
        ∉ (sca16.slabs ++ sca16.full_slabs).map MappedPages8k.startAddress
    ∧ (sca16.empty_slabs.map MappedPages8k.startAddress) = [8192] :=
  ⟨rfl, by decide, by decide⟩

/-- C9 counterexample: the opening `assert!`s of `allocate` and `deallocate`
are active in release builds: a layout whose size exceeds the class size
makes both panic (rather than being debug-only checks). -/
theorem c9_counterexample :
    (SCAllocator.new 8).allocate ⟨16, 1⟩ = none
    ∧ (SCAllocator.new 8).deallocate 8192 ⟨16, 1⟩ = none :=
  ⟨rfl, rfl⟩

/-- C1 counterexample: on a class of size 4096 (one object per page, as in
the zone's index-9 class), refilling one page and allocating once through
the legal API leaves a page whose in-range bits are all set sitting in
`slabs` while `full_slabs` stays empty: its list does not match its
bitfield census. -/
theorem c1_counterexample :
    oneObjSCA.allocate ⟨4096, 1⟩ = some (Except.ok 8192, oneObjSCA1)
    ∧ oneObjSCA1.obj_per_page = 1
    ∧ oneObjSCA1.slabs.length = 1
    ∧ (∀ p ∈ oneObjSCA1.slabs, ∀ i < oneObjSCA1.obj_per_page,
        p.bitfield i = true)
    ∧ oneObjSCA1.full_slabs.length = 0
    ∧ oneObjSCA1.empty_slabs.length = 0 :=
  ⟨rfl, by decide, by decide, by decide, by decide, by decide⟩

/-! ## Page and list basics -/

theorem setBit_start (p : MappedPages8k) (i : Nat) :
    (p.setBit i).startAddress = p.startAddress := rfl

theorem setBit_bf (p : MappedPages8k) (i j : Nat) :
    (p.setBit i).bitfield j = if j = i then true else p.bitfield j := rfl

theorem clearBit_start (p : MappedPages8k) (i : Nat) :
    (p.clearBit i).startAddress = p.startAddress := rfl

theorem clearBit_bf (p : MappedPages8k) (i j : Nat) :
    (p.clearBit i).bitfield j = if j = i then false else p.bitfield j := rfl

theorem firstFit_some_spec (p : MappedPages8k) (L : Layout) (i : Nat)
    (h : firstFit p L = some i) :
    i < maxBits ∧ p.bitfield i = false
      ∧ (p.startAddress + i * L.size) % L.align = 0
      ∧ i * L.size + L.size ≤ dataBytes := by
  have hmem := List.mem_range.mp (List.mem_of_find?_eq_some h)
  have hpred := List.find?_some h
  simp only [Bool.and_eq_true, Bool.not_eq_true', decide_eq_true_eq] at hpred
  exact ⟨hmem, hpred.1.1, hpred.1.2, hpred.2⟩

theorem firstFit_none_spec (p : MappedPages8k) (L : Layout)
    (h : firstFit p L = none) :
    ∀ i < maxBits, p.bitfield i = false →
      (p.startAddress + i * L.size) % L.align = 0 →
      ¬ i * L.size + L.size ≤ dataBytes := by
  intro i hi hb hal hsz
  have := List.find?_eq_none.mp h i (List.mem_range.mpr hi)
  simp only [Bool.and_eq_true, Bool.not_eq_true', decide_eq_true_eq,
    not_and] at this
  exact this ⟨hb, hal⟩ hsz

theorem firstFit_zero (p : MappedPages8k) (L : Layout)
    (hb : p.bitfield 0 = false)
    (hal : p.startAddress % L.align = 0)
    (hsz : L.size ≤ dataBytes) :
    firstFit p L = some 0 := by
  have hr : List.range maxBits = 0 :: (List.range 511).map (· + 1) := by
    rw [show maxBits = 511 + 1 from rfl, List.range_succ_eq_map]
  unfold firstFit
  rw [hr]
  refine List.find?_cons_of_pos _ ?_
  simp only [Bool.and_eq_true, Bool.not_eq_true', decide_eq_true_eq]
  refine ⟨⟨hb, ?_⟩, ?_⟩
  · simpa using hal
  · simpa using hsz

theorem pageAllocate_none (p : MappedPages8k) (L : Layout)
    (h : firstFit p L = none) : p.allocate L = (0, p) := by
  simp only [MappedPages8k.allocate, h]

theorem pageAllocate_some (p : MappedPages8k) (L : Layout) (i : Nat)
    (h : firstFit p L = some i) :
    p.allocate L = (p.startAddress + i * L.size, p.setBit i) := by
  simp only [MappedPages8k.allocate, h]

theorem removeFromList_none (addr : Nat) (l : List MappedPages8k) :
    removeFromList addr l = none ↔ ∀ q ∈ l, q.startAddress ≠ addr := by
  induction l with
  | nil => simp [removeFromList]
  | cons p rest ih =>
    by_cases hp : p.startAddress = addr
    · simp [removeFromList, hp]
    · simp only [removeFromList, if_neg hp, Option.map_eq_none', ih,
        List.mem_cons]
      constructor
      · intro h q hq
        rcases hq with rfl | hq
        · exact hp
        · exact h q hq
      · intro h q hq
        exact h q (Or.inr hq)

theorem removeFromList_some (addr : Nat) (l : List MappedPages8k)
    (p : MappedPages8k) (l' : List MappedPages8k)
    (h : removeFromList addr l = some (p, l')) :
    ∃ pre suf, l = pre ++ p :: suf ∧ l' = pre ++ suf
      ∧ p.startAddress = addr ∧ ∀ q ∈ pre, q.startAddress ≠ addr := by
  induction l generalizing l' with
  | nil => cases h
  | cons a rest ih =>
    by_cases ha : a.startAddress = addr
    · rw [removeFromList, if_pos ha] at h
      obtain ⟨h1, h2⟩ := Prod.mk.injEq .. ▸ Option.some.inj h
      subst h1
      exact ⟨[], rest, rfl, by simp [h2], ha, by simp⟩
    · rw [removeFromList, if_neg ha] at h
      rcases hrec : removeFromList addr rest with _ | ⟨q, l2⟩
      · rw [hrec] at h; cases h
      · rw [hrec, Option.map_some'] at h
        obtain ⟨h1, h2⟩ := Prod.mk.injEq .. ▸ Option.some.inj h
        subst h1
        obtain ⟨pre, suf, hl, hl', hq, hpre⟩ := ih l2 hrec
        refine ⟨a :: pre, suf, by rw [hl]; rfl, by rw [← h2, hl']; rfl, hq, ?_⟩
        intro x hx
        rcases List.mem_cons.mp hx with rfl | hx'
        · exact ha
        · exact hpre x hx'

theorem removeFromList_append (addr : Nat) (pre : List MappedPages8k)
    (p : MappedPages8k) (suf : List MappedPages8k)
    (hp : p.startAddress = addr)
    (hpre : ∀ q ∈ pre, q.startAddress ≠ addr) :
    removeFromList addr (pre ++ p :: suf) = some (p, pre ++ suf) := by
  induction pre with
  | nil => simp [removeFromList, hp]
  | cons a t ih =>
    have ha : a.startAddress ≠ addr := hpre a (List.mem_cons_self _ _)
    rw [List.cons_append, removeFromList, if_neg ha,
      ih fun q hq => hpre q (List.mem_cons_of_mem _ hq), Option.map_some']
    rfl

theorem replacePage_skip (addr : Nat) (p' : MappedPages8k)
    (l : List MappedPages8k) (h : ∀ q ∈ l, q.startAddress ≠ addr) :
    replacePage addr p' l = l := by
  induction l with
  | nil => rfl
  | cons a t ih =>
    simp only [replacePage, List.map_cons,
      if_neg (h a (List.mem_cons_self _ _))]
    rw [show List.map _ t = replacePage addr p' t from rfl,
      ih fun q hq => h q (List.mem_cons_of_mem _ hq)]

theorem replacePage_append (addr : Nat) (p' : MappedPages8k)
    (pre : List MappedPages8k) (p : MappedPages8k)
    (suf : List MappedPages8k) (hp : p.startAddress = addr)
    (hpre : ∀ q ∈ pre, q.startAddress ≠ addr)
    (hsuf : ∀ q ∈ suf, q.startAddress ≠ addr) :
    replacePage addr p' (pre ++ p :: suf) = pre ++ p' :: suf := by
  unfold replacePage
  rw [List.map_append, List.map_cons, if_pos hp]
  rw [show List.map _ pre = replacePage addr p' pre from rfl,
    show List.map _ suf = replacePage addr p' suf from rfl,
    replacePage_skip addr p' pre hpre, replacePage_skip addr p' suf hsuf]

theorem find_addr_unique {l : List MappedPages8k} {p : MappedPages8k}
    (hnd : (l.map MappedPages8k.startAddress).Nodup) (hmem : p ∈ l) :
    l.find? (fun q => q.startAddress = p.startAddress) = some p := by
  induction l with
  | nil => cases hmem
  | cons a t ih =>
    rw [List.map_cons, List.nodup_cons] at hnd
    by_cases ha : a.startAddress = p.startAddress
    · have : p = a := by
        rcases List.mem_cons.mp hmem with rfl | hmem'
        · rfl
        · exact absurd (ha ▸ List.mem_map_of_mem _ hmem') hnd.1
      rw [this]
      exact List.find?_cons_of_pos _ (by simp)
    · have hmem' : p ∈ t := by
        rcases List.mem_cons.mp hmem with rfl | hmem'
        · exact absurd rfl ha
        · exact hmem'
      rw [List.find?_cons_of_neg _ (by simp [ha]), ih hnd.2 hmem']

/-! ## The partial-list scan -/

theorem updateFirstAlloc_none_spec (scL : Layout) (l : List MappedPages8k)
    (hpos : ∀ p ∈ l, 0 < p.startAddress)
    (h : (updateFirstAlloc scL l).2.1 = none) :
    (updateFirstAlloc scL l).1 = 0 ∧ (updateFirstAlloc scL l).2.2.1 = l
      ∧ ∀ p ∈ l, firstFit p scL = none := by
  induction l with
  | nil => exact ⟨rfl, rfl, by simp⟩
  | cons p rest ih =>
    rcases hff : firstFit p scL with _ | i
    · have hpa := pageAllocate_none p scL hff
      have hcons := updateFirstAlloc_cons scL p rest
      rw [hpa] at hcons
      simp only [ne_eq, not_true_eq_false, if_false, reduceIte] at hcons
      rw [hcons] at h ⊢
      obtain ⟨h1, h2, h3⟩ := ih (fun q hq => hpos q (List.mem_cons_of_mem _ hq)) h
      refine ⟨h1, by rw [h2], ?_⟩
      intro q hq
      rcases List.mem_cons.mp hq with rfl | hq'
      · exact hff
      · exact h3 q hq'
    · have hpa := pageAllocate_some p scL i hff
      have hptr : p.startAddress + i * scL.size ≠ 0 := by
        have := hpos p (List.mem_cons_self _ _)
        omega
      have hcons := updateFirstAlloc_cons scL p rest
      rw [hpa] at hcons
      simp only [ne_eq, hptr, not_false_eq_true, if_true, reduceIte] at hcons
      rw [hcons] at h
      cases h

theorem updateFirstAlloc_some_spec (scL : Layout) (l : List MappedPages8k)
    (hpos : ∀ p ∈ l, 0 < p.startAddress) (p' : MappedPages8k)
    (h : (updateFirstAlloc scL l).2.1 = some p') :
    ∃ pre p suf i, l = pre ++ p :: suf
      ∧ (updateFirstAlloc scL l).2.2.1 = pre ++ p' :: suf
      ∧ firstFit p scL = some i ∧ p' = p.setBit i
      ∧ (updateFirstAlloc scL l).1 = p.startAddress + i * scL.size
      ∧ ∀ q ∈ pre, firstFit q scL = none := by
  induction l with
  | nil => cases h
  | cons p rest ih =>
    rcases hff : firstFit p scL with _ | i
    · have hpa := pageAllocate_none p scL hff
      have hcons := updateFirstAlloc_cons scL p rest
      rw [hpa] at hcons
      simp only [ne_eq, not_true_eq_false, if_false, reduceIte] at hcons
      rw [hcons] at h ⊢
      obtain ⟨pre, q, suf, i, hl, hl', hffq, hp', hptr, hpre⟩ :=
        ih (fun q hq => hpos q (List.mem_cons_of_mem _ hq)) h
      refine ⟨p :: pre, q, suf, i, by rw [hl]; rfl, by rw [hl']; rfl, hffq,
        hp', hptr, ?_⟩
      intro x hx
      rcases List.mem_cons.mp hx with rfl | hx'
      · exact hff
      · exact hpre x hx'
    · have hpa := pageAllocate_some p scL i hff
      have hptr : p.startAddress + i * scL.size ≠ 0 := by
        have := hpos p (List.mem_cons_self _ _)
        omega
      have hcons := updateFirstAlloc_cons scL p rest
      rw [hpa] at hcons
      simp only [ne_eq, hptr, not_false_eq_true, if_true, reduceIte] at hcons
      rw [hcons] at h ⊢
      cases h
      exact ⟨[], p, rest, i, rfl, rfl, hff, rfl, rfl, by simp⟩

/-! ## Arithmetic and counting helpers -/

theorem dataBytes_eq : dataBytes = 8104 := rfl

theorem maxBits_eq : maxBits = 512 := rfl

theorem start_mod_add {start n : Nat} (h : start % n = 0) (x : Nat) :
    (start + x) % n = x % n := by
  conv_lhs => rw [Nat.add_mod, h, Nat.zero_add, Nat.mod_mod_of_dvd x (dvd_refl n)]

theorem align_dvd_start {align start : Nat} (hdvd : align ∣ pageSize)
    (hal : start % pageSize = 0) : start % align = 0 :=
  Nat.mod_eq_zero_of_dvd (dvd_trans hdvd (Nat.dvd_of_mod_eq_zero hal))

theorem objectsPerPage_pos {size : Nat} (h1 : 0 < size) (h2 : size ≤ dataBytes) :
    0 < objectsPerPage size := by
  unfold objectsPerPage
  have : 0 < dataBytes / size := Nat.div_pos h2 h1
  simp only [maxBits_eq]
  omega

theorem objectsPerPage_le (size : Nat) : objectsPerPage size ≤ maxBits :=
  min_le_right _ _

theorem objectsPerPage_mul_le {size : Nat} (h1 : 0 < size) :
    objectsPerPage size * size ≤ dataBytes := by
  unfold objectsPerPage
  calc min (dataBytes / size) maxBits * size
      ≤ dataBytes / size * size :=
        Nat.mul_le_mul_right _ (min_le_left _ _)
    _ ≤ dataBytes := Nat.div_mul_le_self _ _

theorem SCInv.objPos {s : SCAllocator} (inv : SCInv s) : 0 < s.obj_per_page :=
  inv.objEq ▸ objectsPerPage_pos inv.sizePos inv.sizeLe

theorem SCInv.slotFits {s : SCAllocator} (inv : SCInv s) {i : Nat}
    (hi : i < s.obj_per_page) : i * s.size + s.size ≤ dataBytes := by
  have h1 : (i + 1) * s.size ≤ s.obj_per_page * s.size :=
    Nat.mul_le_mul_right _ hi
  calc i * s.size + s.size = (i + 1) * s.size := by ring
    _ ≤ s.obj_per_page * s.size := h1
    _ ≤ dataBytes := by rw [inv.objEq]; exact objectsPerPage_mul_le inv.sizePos

theorem SCInv.clearLt {s : SCAllocator} (inv : SCInv s) {p : MappedPages8k}
    (hp : p ∈ s.allPages) {i : Nat} (hb : p.bitfield i = false) :
    i < s.obj_per_page := by
  by_contra hge
  have := inv.sentinel p hp i (Nat.le_of_not_lt hge)
  rw [this] at hb
  cases hb

theorem filter_length_succ {l : List Nat} (hnd : l.Nodup) {i : Nat}
    (hi : i ∈ l) {f g : Nat → Bool} (hfg : ∀ j ∈ l, j ≠ i → g j = f j)
    (hfi : f i = true) (hgi : g i = false) :
    (l.filter g).length + 1 = (l.filter f).length := by
  induction l with
  | nil => cases hi
  | cons a t ih =>
    rw [List.nodup_cons] at hnd
    rcases List.mem_cons.mp hi with rfl | hi'
    · rw [List.filter_cons, List.filter_cons, hfi, hgi]
      simp only [Bool.false_eq_true, reduceIte, List.length_cons,
        Nat.add_left_inj]
      congr 1
      apply List.filter_congr
      intro j hj
      exact hfg j (List.mem_cons_of_mem _ hj) fun hji => hnd.1 (hji ▸ hj)
    · have ha : a ≠ i := fun hai => hnd.1 (hai ▸ hi')
      rw [List.filter_cons, List.filter_cons,
        hfg a (List.mem_cons_self _ _) ha]
      have hrec := ih hnd.2 hi' fun j hj hji =>
        hfg j (List.mem_cons_of_mem _ hj) hji
      by_cases hfa : f a = true
      · simp only [hfa, if_true, List.length_cons]
        omega
      · simp only [Bool.not_eq_true] at hfa
        simp only [hfa, Bool.false_eq_true, reduceIte]
        exact hrec

theorem pageUFree_setBit {size align : Nat} (p : MappedPages8k) (i : Nat)
    (hi : i < maxBits) (hb : p.bitfield i = false)
    (hal : (i * size) % align = 0) (hfit : i * size + size ≤ dataBytes) :
    pageUFree size align (p.setBit i) + 1 = pageUFree size align p := by
  unfold pageUFree
  refine filter_length_succ (List.nodup_range _) (List.mem_range.mpr hi)
    ?_ ?_ ?_
  · intro j _ hji
    simp only [MappedPages8k.setBit, if_neg hji]
  · simp only [hb, Bool.not_false, Bool.true_and, Bool.and_eq_true,
      decide_eq_true_eq]
    exact ⟨hal, hfit⟩
  · simp only [MappedPages8k.setBit, eq_self_iff_true, if_true,
      Bool.not_true, Bool.false_and]

theorem pageUFree_clearBit {size align : Nat} (p : MappedPages8k) (i : Nat)
    (hi : i < maxBits) (hb : p.bitfield i = true)
    (hal : (i * size) % align = 0) (hfit : i * size + size ≤ dataBytes) :
    pageUFree size align (p.clearBit i) = pageUFree size align p + 1 := by
  unfold pageUFree
  refine (filter_length_succ (List.nodup_range _) (List.mem_range.mpr hi)
    ?_ ?_ ?_).symm
  · intro j _ hji
    simp only [MappedPages8k.clearBit, if_neg hji]
  · simp only [MappedPages8k.clearBit, eq_self_iff_true, if_true,
      Bool.not_false, Bool.true_and, Bool.and_eq_true, decide_eq_true_eq]
    exact ⟨hal, hfit⟩
  · simp only [hb, Bool.not_true, Bool.false_and]

theorem pageUFree_pos {size align : Nat} (p : MappedPages8k) (i : Nat)
    (hi : i < maxBits) (hb : p.bitfield i = false)
    (hal : (i * size) % align = 0) (hfit : i * size + size ≤ dataBytes) :
    0 < pageUFree size align p := by
  unfold pageUFree
  rw [List.length_pos]
  intro hnil
  have hmem : i ∈ (List.range maxBits).filter fun j =>
      !p.bitfield j && decide ((j * size) % align = 0)
        && decide (j * size + size ≤ dataBytes) := by
    rw [List.mem_filter]
    refine ⟨List.mem_range.mpr hi, ?_⟩
    simp only [hb, Bool.not_false, Bool.true_and, Bool.and_eq_true,
      decide_eq_true_eq]
    exact ⟨hal, hfit⟩
  rw [hnil] at hmem
  cases hmem

theorem pageUFree_zero_of_full {size align : Nat} (p : MappedPages8k)
    (h : ∀ i < maxBits, p.bitfield i = true) :
    pageUFree size align p = 0 := by
  unfold pageUFree
  rw [List.length_eq_zero, List.filter_eq_nil_iff]
  intro i hi
  rw [h i (List.mem_range.mp hi)]
  simp

theorem pageUFree_zero_of_firstFit_none {s : SCAllocator} {align : Nat}
    (p : MappedPages8k)
    (hff : firstFit p ⟨s.size, align⟩ = none)
    (hst : p.startAddress % align = 0) :
    pageUFree s.size align p = 0 := by
  unfold pageUFree
  rw [List.length_eq_zero, List.filter_eq_nil_iff]
  intro i hi
  have hi2 := List.mem_range.mp hi
  simp only [Bool.and_eq_true, Bool.not_eq_true', decide_eq_true_eq, not_and]
  intro hcond
  have hal2 : (p.startAddress + i * s.size) % align = 0 := by
    rw [start_mod_add hst]
    exact hcond.2
  exact firstFit_none_spec p ⟨s.size, align⟩ hff i hi2 hcond.1 hal2

/-! ## Permutation and uniqueness helpers -/

theorem perm_cons_mid {α : Type} (e f pre suf : List α) (p : α) :
    (e ++ (pre ++ p :: suf) ++ f).Perm (p :: (e ++ (pre ++ suf) ++ f)) := by
  have h1 : (pre ++ p :: suf).Perm (p :: (pre ++ suf)) := List.perm_middle
  refine ((h1.append_left e).append_right f).trans ?_
  rw [List.append_assoc e, List.append_assoc e]
  exact List.perm_middle

theorem perm_cons_last {α : Type} (e m f : List α) (p : α) :
    (e ++ m ++ (p :: f)).Perm (p :: (e ++ m ++ f)) := by
  have : e ++ m ++ (p :: f) = (e ++ m) ++ p :: f := rfl
  rw [this]
  exact List.perm_middle

theorem perm_cons_head {α : Type} (e m f : List α) (p : α) :
    ((p :: e) ++ m ++ f).Perm (p :: (e ++ m ++ f)) := by
  simp [List.append_assoc]

theorem uFree_congr {s s' : SCAllocator} {l : List MappedPages8k}
    (hsz : s'.size = s.size)
    (hp : s.allPages.Perm l) (hp' : s'.allPages.Perm l) (align : Nat) :
    s'.uFree align = s.uFree align := by
  unfold SCAllocator.uFree
  rw [hsz]
  exact ((hp'.map (pageUFree s.size align)).sum_eq).trans
    ((hp.map (pageUFree s.size align)).sum_eq).symm

theorem uFree_perm {s : SCAllocator} {l : List MappedPages8k}
    (hp : s.allPages.Perm l) (align : Nat) :
    s.uFree align = (l.map (pageUFree s.size align)).sum :=
  (hp.map (pageUFree s.size align)).sum_eq

theorem SCInv.addr_inj {s : SCAllocator} (inv : SCInv s)
    {p q : MappedPages8k} (hp : p ∈ s.allPages) (hq : q ∈ s.allPages)
    (heq : p.startAddress = q.startAddress) : p = q :=
  List.inj_on_of_nodup_map inv.nodupAddr hp hq heq

theorem nodup_decomp_addr {l pre suf : List MappedPages8k}
    {p : MappedPages8k} (hl : l = pre ++ p :: suf)
    (hnd : (l.map MappedPages8k.startAddress).Nodup) :
    (∀ q ∈ pre, q.startAddress ≠ p.startAddress)
      ∧ ∀ q ∈ suf, q.startAddress ≠ p.startAddress := by
  subst hl
  rw [List.map_append, List.map_cons, List.nodup_append] at hnd
  obtain ⟨-, hnd2, hdisj⟩ := hnd
  rw [List.nodup_cons] at hnd2
  constructor
  · intro q hq heq
    exact hdisj (List.mem_map_of_mem _ hq)
      (by rw [heq]; exact List.mem_cons_self _ _)
  · intro q hq heq
    exact hnd2.1 (heq ▸ List.mem_map_of_mem _ hq)

theorem SCInv.nodup_slabs {s : SCAllocator} (inv : SCInv s) :
    (s.slabs.map MappedPages8k.startAddress).Nodup := by
  have h := inv.nodupAddr
  unfold SCAllocator.allPages at h
  rw [List.map_append, List.map_append] at h
  obtain ⟨h12, -, -⟩ := List.nodup_append.mp h
  exact (List.nodup_append.mp h12).2.1

theorem SCInv.nodup_full {s : SCAllocator} (inv : SCInv s) :
    (s.full_slabs.map MappedPages8k.startAddress).Nodup := by
  have h := inv.nodupAddr
  unfold SCAllocator.allPages at h
  rw [List.map_append, List.map_append] at h
  exact (List.nodup_append.mp h).2.1

theorem notFull_clear {p : MappedPages8k} (h : ¬ p.isFull) :
    ∃ j, j < maxBits ∧ p.bitfield j = false := by
  unfold MappedPages8k.isFull at h
  push_neg at h
  obtain ⟨j, hj, hbj⟩ := h
  exact ⟨j, hj, by simpa using hbj⟩

theorem notEmpty_set {p : MappedPages8k} {n : Nat} (h : ¬ p.isEmpty n) :
    ∃ j, j < n ∧ p.bitfield j = true := by
  unfold MappedPages8k.isEmpty at h
  push_neg at h
  obtain ⟨j, hj, hbj⟩ := h
  exact ⟨j, hj, by simpa using hbj⟩

theorem scaAlloc_of_allocT {s : SCAllocator} {layout : Layout}
    {r : Except String Nat} {s' : SCAllocator} {tr : List PageAllocCall}
    (h : s.allocateT layout = some (r, s', tr)) :
    s.allocate layout = some (r, s') := by
  simp [SCAllocator.allocate, h]

theorem scaAllocT_of_alloc {s : SCAllocator} {layout : Layout}
    {r : Except String Nat} {s' : SCAllocator}
    (h : s.allocate layout = some (r, s')) :
    ∃ tr, s.allocateT layout = some (r, s', tr) := by
  unfold SCAllocator.allocate at h
  rcases ht : s.allocateT layout with _ | ⟨r0, s0, tr0⟩
  · rw [ht] at h; cases h
  · rw [ht, Option.map_some'] at h
    obtain ⟨h1, h2⟩ := Prod.mk.injEq .. ▸ Option.some.inj h
    refine ⟨tr0, ?_⟩
    rw [show r0 = r from h1, show s0 = s' from h2]

/-! ## Invariant preservation -/

theorem mem_allPages_of_empty {s : SCAllocator} {p : MappedPages8k}
    (h : p ∈ s.empty_slabs) : p ∈ s.allPages := by
  unfold SCAllocator.allPages
  exact List.mem_append_left _ (List.mem_append_left _ h)

theorem mem_allPages_of_slabs {s : SCAllocator} {p : MappedPages8k}
    (h : p ∈ s.slabs) : p ∈ s.allPages := by
  unfold SCAllocator.allPages
  exact List.mem_append_left _ (List.mem_append_right _ h)

theorem mem_allPages_of_full {s : SCAllocator} {p : MappedPages8k}
    (h : p ∈ s.full_slabs) : p ∈ s.allPages := by
  unfold SCAllocator.allPages
  exact List.mem_append_right _ h

theorem mem_allPages_cases {s : SCAllocator} {p : MappedPages8k}
    (h : p ∈ s.allPages) :
    p ∈ s.empty_slabs ∨ p ∈ s.slabs ∨ p ∈ s.full_slabs := by
  unfold SCAllocator.allPages at h
  rcases List.mem_append.mp h with h' | h'
  · rcases List.mem_append.mp h' with h'' | h''
    · exact Or.inl h''
    · exact Or.inr (Or.inl h'')
  · exact Or.inr (Or.inr h')

theorem setBit_sentinel {p : MappedPages8k} {n : Nat}
    (hs : ∀ j, n ≤ j → p.bitfield j = true) (i : Nat) :
    ∀ j, n ≤ j → (p.setBit i).bitfield j = true := by
  intro j hj
  rw [setBit_bf]
  by_cases hji : j = i
  · simp [hji]
  · rw [if_neg hji]
    exact hs j hj

/-- Invariant preservation for the empty-list path of `allocate`: a page
popped off `empty_slabs` gets its bit 0 set and is pushed onto `slabs`. -/
theorem SCInv_emptyPath {s : SCAllocator} (inv : SCInv s)
    {ep : MappedPages8k} {rest : List MappedPages8k}
    (hemp : s.empty_slabs = ep :: rest) :
    SCInv { s with empty_slabs := rest, slabs := ep.setBit 0 :: s.slabs } := by
  have hepe : ep ∈ s.empty_slabs := by rw [hemp]; exact List.mem_cons_self _ _
  have hepm : ep ∈ s.allPages := mem_allPages_of_empty hepe
  have hobj := inv.objPos
  set s2 : SCAllocator :=
    { s with empty_slabs := rest, slabs := ep.setBit 0 :: s.slabs } with hs2
  have hperm1 : s.allPages.Perm (ep :: (rest ++ s.slabs ++ s.full_slabs)) := by
    have : s.allPages = ep :: (rest ++ s.slabs ++ s.full_slabs) := by
      unfold SCAllocator.allPages
      rw [hemp]
      simp [List.append_assoc]
    rw [this]
  have hperm2 : s2.allPages.Perm
      (ep.setBit 0 :: (rest ++ s.slabs ++ s.full_slabs)) := by
    have heq : s2.allPages
        = rest ++ ([] ++ ep.setBit 0 :: s.slabs) ++ s.full_slabs := rfl
    rw [heq]
    exact perm_cons_mid rest s.full_slabs [] s.slabs (ep.setBit 0)
  have hmem2 : ∀ p ∈ s2.allPages,
      p = ep.setBit 0 ∨ p ∈ s.allPages := by
    intro p hp
    rcases List.mem_cons.mp (hperm2.mem_iff.mp hp) with rfl | hp'
    · exact Or.inl rfl
    · right
      exact hperm1.mem_iff.mpr (List.mem_cons_of_mem _ hp')
  refine ⟨inv.sizePos, inv.sizeLe, inv.objEq, ?_, ?_, ?_, ?_, ?_, ?_, ?_,
    ?_, ?_⟩
  · intro p hp
    rcases hmem2 p hp with rfl | hp'
    · rw [setBit_start]
      exact inv.basePos ep hepm
    · exact inv.basePos p hp'
  · intro p hp
    rcases hmem2 p hp with rfl | hp'
    · rw [setBit_start]
      exact inv.aligned ep hepm
    · exact inv.aligned p hp'
  · rw [(hperm2.map MappedPages8k.startAddress).nodup_iff]
    have h1 := (hperm1.map MappedPages8k.startAddress).nodup_iff.mp
      inv.nodupAddr
    simpa [setBit_start] using h1
  · intro p hp
    rcases hmem2 p hp with rfl | hp'
    · exact setBit_sentinel (fun j hj => inv.sentinel ep hepm j hj) 0
    · exact inv.sentinel p hp'
  · intro p hp
    have hp' : p ∈ s.empty_slabs := by
      rw [hemp]
      exact List.mem_cons_of_mem _ hp
    exact inv.emptyClear p hp'
  · intro p hp
    exact inv.fullSet p hp
  · intro p hp
    rcases List.mem_cons.mp hp with rfl | hp'
    · exact ⟨0, hobj, by rw [setBit_bf]; simp⟩
    · exact inv.slabsUsed p hp'
  · intro hobj2 p hp
    rcases List.mem_cons.mp hp with rfl | hp'
    · refine ⟨1, hobj2, ?_⟩
      rw [setBit_bf, if_neg (by omega)]
      exact inv.emptyClear ep hepe 1 hobj2
    · exact inv.slabsFree hobj2 p hp'
  · exact inv.objOneFull

/-- Invariant preservation for a scan success that leaves the page
partial. -/
theorem SCInv_scanNotFull {s : SCAllocator} (inv : SCInv s)
    {pre suf : List MappedPages8k} {q : MappedPages8k} {i : Nat}
    (hdec : s.slabs = pre ++ q :: suf) (hi : i < s.obj_per_page)
    (hnf : ¬ (q.setBit i).isFull) :
    SCInv { s with
      slabs := pre ++ q.setBit i :: suf
      allocation_count := s.allocation_count + 1 } := by
  have hqs : q ∈ s.slabs := by
    rw [hdec]
    exact List.mem_append_right _ (List.mem_cons_self _ _)
  have hqm : q ∈ s.allPages := mem_allPages_of_slabs hqs
  have hpre_mem : ∀ p ∈ pre, p ∈ s.slabs := by
    intro p hp
    rw [hdec]
    exact List.mem_append_left _ hp
  have hsuf_mem : ∀ p ∈ suf, p ∈ s.slabs := by
    intro p hp
    rw [hdec]
    exact List.mem_append_right _ (List.mem_cons_of_mem _ hp)
  set s2 : SCAllocator := { s with
    slabs := pre ++ q.setBit i :: suf
    allocation_count := s.allocation_count + 1 } with hs2
  have hperm1 : s.allPages.Perm
      (q :: (s.empty_slabs ++ (pre ++ suf) ++ s.full_slabs)) := by
    have heq : s.allPages
        = s.empty_slabs ++ (pre ++ q :: suf) ++ s.full_slabs := by
      unfold SCAllocator.allPages
      rw [hdec]
    rw [heq]
    exact perm_cons_mid _ _ _ _ _
  have hperm2 : s2.allPages.Perm
      (q.setBit i :: (s.empty_slabs ++ (pre ++ suf) ++ s.full_slabs)) := by
    have heq : s2.allPages
        = s.empty_slabs ++ (pre ++ q.setBit i :: suf) ++ s.full_slabs := rfl
    rw [heq]
    exact perm_cons_mid _ _ _ _ _
  have hmem2 : ∀ p ∈ s2.allPages, p = q.setBit i ∨ p ∈ s.allPages := by
    intro p hp
    rcases List.mem_cons.mp (hperm2.mem_iff.mp hp) with rfl | hp'
    · exact Or.inl rfl
    · exact Or.inr (hperm1.mem_iff.mpr (List.mem_cons_of_mem _ hp'))
  refine ⟨inv.sizePos, inv.sizeLe, inv.objEq, ?_, ?_, ?_, ?_, ?_, ?_, ?_,
    ?_, ?_⟩
  · intro p hp
    rcases hmem2 p hp with rfl | hp'
    · rw [setBit_start]
      exact inv.basePos q hqm
    · exact inv.basePos p hp'
  · intro p hp
    rcases hmem2 p hp with rfl | hp'
    · rw [setBit_start]
      exact inv.aligned q hqm
    · exact inv.aligned p hp'
  · rw [(hperm2.map MappedPages8k.startAddress).nodup_iff]
    have h1 := (hperm1.map MappedPages8k.startAddress).nodup_iff.mp
      inv.nodupAddr
    simpa [setBit_start] using h1
  · intro p hp
    rcases hmem2 p hp with rfl | hp'
    · exact setBit_sentinel (fun j hj => inv.sentinel q hqm j hj) i
    · exact inv.sentinel p hp'
  · exact inv.emptyClear
  · exact inv.fullSet
  · intro p hp
    rcases List.mem_append.mp hp with hp' | hp'
    · exact inv.slabsUsed p (hpre_mem p hp')
    · rcases List.mem_cons.mp hp' with rfl | hp''
      · exact ⟨i, hi, by rw [setBit_bf]; simp⟩
      · exact inv.slabsUsed p (hsuf_mem p hp'')
  · intro hobj2 p hp
    rcases List.mem_append.mp hp with hp' | hp'
    · exact inv.slabsFree hobj2 p (hpre_mem p hp')
    · rcases List.mem_cons.mp hp' with rfl | hp''
      · obtain ⟨j, hj, hbj⟩ := notFull_clear hnf
        have hsent := setBit_sentinel
          (fun k hk => inv.sentinel q hqm k hk) i
        have hjobj : j < s.obj_per_page := by
          by_contra hge
          rw [hsent j (Nat.le_of_not_lt hge)] at hbj
          cases hbj
        exact ⟨j, hjobj, hbj⟩
      · exact inv.slabsFree hobj2 p (hsuf_mem p hp'')
  · exact inv.objOneFull

/-- Invariant preservation for a scan success that fills the page, which
then moves to `full_slabs`. -/
theorem SCInv_scanFull {s : SCAllocator} (inv : SCInv s)
    {pre suf : List MappedPages8k} {q : MappedPages8k} {i : Nat}
    (hdec : s.slabs = pre ++ q :: suf) (hi : i < s.obj_per_page)
    (hfull : (q.setBit i).isFull) (hobj2 : 2 ≤ s.obj_per_page) :
    SCInv { s with
      slabs := pre ++ suf
      full_slabs := q.setBit i :: s.full_slabs
      allocation_count := s.allocation_count + 1 } := by
  have hqs : q ∈ s.slabs := by
    rw [hdec]
    exact List.mem_append_right _ (List.mem_cons_self _ _)
  have hqm : q ∈ s.allPages := mem_allPages_of_slabs hqs
  have hpre_mem : ∀ p ∈ pre, p ∈ s.slabs := by
    intro p hp
    rw [hdec]
    exact List.mem_append_left _ hp
  have hsuf_mem : ∀ p ∈ suf, p ∈ s.slabs := by
    intro p hp
    rw [hdec]
    exact List.mem_append_right _ (List.mem_cons_of_mem _ hp)
  set s2 : SCAllocator := { s with
    slabs := pre ++ suf
    full_slabs := q.setBit i :: s.full_slabs
    allocation_count := s.allocation_count + 1 } with hs2
  have hperm1 : s.allPages.Perm
      (q :: (s.empty_slabs ++ (pre ++ suf) ++ s.full_slabs)) := by
    have heq : s.allPages
        = s.empty_slabs ++ (pre ++ q :: suf) ++ s.full_slabs := by
      unfold SCAllocator.allPages
      rw [hdec]
    rw [heq]
    exact perm_cons_mid _ _ _ _ _
  have hperm2 : s2.allPages.Perm
      (q.setBit i :: (s.empty_slabs ++ (pre ++ suf) ++ s.full_slabs)) := by
    have heq : s2.allPages
        = s.empty_slabs ++ (pre ++ suf) ++ (q.setBit i :: s.full_slabs) :=
      rfl
    rw [heq]
    exact perm_cons_last _ _ _ _
  have hmem2 : ∀ p ∈ s2.allPages, p = q.setBit i ∨ p ∈ s.allPages := by
    intro p hp
    rcases List.mem_cons.mp (hperm2.mem_iff.mp hp) with rfl | hp'
    · exact Or.inl rfl
    · exact Or.inr (hperm1.mem_iff.mpr (List.mem_cons_of_mem _ hp'))
  refine ⟨inv.sizePos, inv.sizeLe, inv.objEq, ?_, ?_, ?_, ?_, ?_, ?_, ?_,
    ?_, ?_⟩
  · intro p hp
    rcases hmem2 p hp with rfl | hp'
    · rw [setBit_start]
      exact inv.basePos q hqm
    · exact inv.basePos p hp'
  · intro p hp
    rcases hmem2 p hp with rfl | hp'
    · rw [setBit_start]
      exact inv.aligned q hqm
    · exact inv.aligned p hp'
  · rw [(hperm2.map MappedPages8k.startAddress).nodup_iff]
    have h1 := (hperm1.map MappedPages8k.startAddress).nodup_iff.mp
      inv.nodupAddr
    simpa [setBit_start] using h1
  · intro p hp
    rcases hmem2 p hp with rfl | hp'
    · exact setBit_sentinel (fun j hj => inv.sentinel q hqm j hj) i
    · exact inv.sentinel p hp'
  · exact inv.emptyClear
  · intro p hp
    rcases List.mem_cons.mp hp with rfl | hp'
    · exact hfull
    · exact inv.fullSet p hp'
  · intro p hp
    rcases List.mem_append.mp hp with hp' | hp'
    · exact inv.slabsUsed p (hpre_mem p hp')
    · exact inv.slabsUsed p (hsuf_mem p hp')
  · intro ho2 p hp
    rcases List.mem_append.mp hp with hp' | hp'
    · exact inv.slabsFree ho2 p (hpre_mem p hp')
    · exact inv.slabsFree ho2 p (hsuf_mem p hp')
  · intro h1
    have h2 : s.obj_per_page = 1 := h1
    exact absurd hobj2 (by omega)

theorem movePartialToFull_eq {s : SCAllocator} {pre suf : List MappedPages8k}
    {x : MappedPages8k} (hslabs : s.slabs = pre ++ x :: suf)
    (hpre : ∀ q ∈ pre, q.startAddress ≠ x.startAddress) :
    s.movePartialToFull x.startAddress
      = some { s with
          slabs := pre ++ suf
          full_slabs := x :: s.full_slabs } := by
  unfold SCAllocator.movePartialToFull
  rw [hslabs, removeFromList_append _ _ _ _ rfl hpre, Option.map_some']

/-- The central specification of `SCAllocator::allocate` on an invariant
state and a spec-valid layout: the call completes without panicking; on
success exactly one previously clear, in-range, alignment-compatible bit of
one owned page is set and the corresponding slot address returned, the page
multiset otherwise unchanged; on failure the state is unchanged and no
owned page has a free usable slot. -/
theorem scaAllocate_spec (s : SCAllocator) (layout : Layout) (inv : SCInv s)
    (hls : layout.size ≤ s.size) (hal : 0 < layout.align)
    (hdvd : layout.align ∣ pageSize) :
    ∃ r s', s.allocate layout = some (r, s') ∧ SCInv s'
      ∧ s'.size = s.size ∧ s'.obj_per_page = s.obj_per_page
      ∧ ((∃ ptr p rest i, r = Except.ok ptr
            ∧ s.allPages.Perm (p :: rest)
            ∧ s'.allPages.Perm (p.setBit i :: rest)
            ∧ i < s.obj_per_page ∧ p.bitfield i = false
            ∧ (i * s.size) % layout.align = 0
            ∧ i * s.size + s.size ≤ dataBytes
            ∧ ptr = p.startAddress + i * s.size)
          ∨ (r = Except.error outOfMemoryErr ∧ s' = s
              ∧ s.uFree layout.align = 0)) := by
  have h2 : s.size ≤ pageSize - cacheLineSize := by
    have h3 := inv.sizeLe
    rw [dataBytes_eq] at h3
    simp only [pageSize, cacheLineSize]
    omega
  have hpos_slabs : ∀ p ∈ s.slabs, 0 < p.startAddress := fun p hp =>
    inv.basePos p (mem_allPages_of_slabs hp)
  rcases hos : (updateFirstAlloc ⟨s.size, layout.align⟩ s.slabs).2.1
      with _ | p'
  · -- the scan found nothing
    obtain ⟨hptr0, hsame, hffn⟩ :=
      updateFirstAlloc_none_spec ⟨s.size, layout.align⟩ s.slabs hpos_slabs hos
    have htry := tryAlloc_eq_scanNone s ⟨s.size, layout.align⟩ hos
    rw [hsame] at htry
    have hseta : ({ s with slabs := s.slabs } : SCAllocator) = s := rfl
    rw [hseta] at htry
    rcases hemp : s.empty_slabs with _ | ⟨ep, rest⟩
    · -- out of memory
      have hT := scaAllocT_oom s layout s _ hls h2 htry hemp
      refine ⟨_, _, scaAlloc_of_allocT hT, inv, rfl, rfl,
        Or.inr ⟨rfl, rfl, ?_⟩⟩
      unfold SCAllocator.uFree
      apply List.sum_eq_zero
      intro x hx
      obtain ⟨p, hp, rfl⟩ := List.mem_map.mp hx
      rcases mem_allPages_cases hp with hp' | hp' | hp'
      · rw [hemp] at hp'
        cases hp'
      · exact pageUFree_zero_of_firstFit_none p (hffn p hp')
          (align_dvd_start hdvd (inv.aligned p hp))
      · exact pageUFree_zero_of_full p (inv.fullSet p hp')
    · -- pop an empty page
      have hepe : ep ∈ s.empty_slabs := by
        rw [hemp]
        exact List.mem_cons_self _ _
      have hepm : ep ∈ s.allPages := mem_allPages_of_empty hepe
      have hobj := inv.objPos
      have hb0 : ep.bitfield 0 = false := inv.emptyClear ep hepe 0 hobj
      have hal0 : ep.startAddress % layout.align = 0 :=
        align_dvd_start hdvd (inv.aligned ep hepm)
      have hffz := firstFit_zero ep layout hb0 hal0 (le_trans hls inv.sizeLe)
      have hpa := pageAllocate_some ep layout 0 hffz
      have hT := scaAllocT_empty s layout s _ ep rest hls h2 htry hemp
      rw [hpa] at hT
      simp only [Nat.zero_mul, Nat.add_zero] at hT
      have hne : ep.startAddress ≠ 0 := by
        have := inv.basePos ep hepm
        omega
      rw [if_pos hne] at hT
      refine ⟨_, _, scaAlloc_of_allocT hT, SCInv_emptyPath inv hemp, rfl, rfl,
        Or.inl ⟨ep.startAddress, ep, rest ++ s.slabs ++ s.full_slabs, 0,
          rfl, ?_, ?_, hobj, hb0, by simp, ?_, by simp⟩⟩
      · have heq : s.allPages = ep :: (rest ++ s.slabs ++ s.full_slabs) := by
          unfold SCAllocator.allPages
          rw [hemp]
          simp [List.append_assoc]
        rw [heq]
      · have heq : SCAllocator.allPages
            { s with empty_slabs := rest, slabs := ep.setBit 0 :: s.slabs }
            = rest ++ ([] ++ ep.setBit 0 :: s.slabs) ++ s.full_slabs := rfl
        rw [heq]
        exact perm_cons_mid rest s.full_slabs [] s.slabs (ep.setBit 0)
      · simpa using inv.sizeLe
  · -- the scan succeeded on page p'
    obtain ⟨pre, q, suf, i, hdec, hlist, hffq, hp', hptr, hpren⟩ :=
      updateFirstAlloc_some_spec ⟨s.size, layout.align⟩ s.slabs hpos_slabs
        p' hos
    obtain ⟨hi512, hbq, halq, hfitq⟩ := firstFit_some_spec q _ i hffq
    have hqs : q ∈ s.slabs := by
      rw [hdec]
      exact List.mem_append_right _ (List.mem_cons_self _ _)
    have hqm : q ∈ s.allPages := mem_allPages_of_slabs hqs
    have hiobj : i < s.obj_per_page := inv.clearLt hqm hbq
    have halq' : (i * s.size) % layout.align = 0 := by
      have hst : q.startAddress % layout.align = 0 :=
        align_dvd_start hdvd (inv.aligned q hqm)
      have := halq
      rw [show (⟨s.size, layout.align⟩ : Layout).size = s.size from rfl,
        show (⟨s.size, layout.align⟩ : Layout).align = layout.align from rfl,
        start_mod_add hst] at this
      exact this
    have hfitq' : i * s.size + s.size ≤ dataBytes := hfitq
    have hptrpos : (updateFirstAlloc ⟨s.size, layout.align⟩ s.slabs).1 ≠ 0 := by
      rw [hptr]
      have := inv.basePos q hqm
      have h0 : 0 < q.startAddress + i * (⟨s.size, layout.align⟩ : Layout).size := by
        omega
      omega
    have hperm1 : s.allPages.Perm
        (q :: (s.empty_slabs ++ (pre ++ suf) ++ s.full_slabs)) := by
      have heq : s.allPages
          = s.empty_slabs ++ (pre ++ q :: suf) ++ s.full_slabs := by
        unfold SCAllocator.allPages
        rw [hdec]
      rw [heq]
      exact perm_cons_mid _ _ _ _ _
    by_cases hfull : (q.setBit i).isFull
    · -- the page fills and moves to full_slabs
      have hobj2 : 2 ≤ s.obj_per_page := by
        obtain ⟨j, hjobj, hbj⟩ := inv.slabsUsed q hqs
        have hij : i ≠ j := by
          intro hij
          rw [hij, hbj] at hbq
          cases hbq
        omega
      have hnds := inv.nodup_slabs
      have hpre_ne : ∀ x ∈ pre, x.startAddress ≠ q.startAddress :=
        (nodup_decomp_addr hdec hnds).1
      have hpre_ne' : ∀ x ∈ pre, x.startAddress ≠ (q.setBit i).startAddress := by
        intro x hx
        rw [setBit_start]
        exact hpre_ne x hx
      have hmv := @movePartialToFull_eq
        { s with slabs := pre ++ q.setBit i :: suf }
        pre suf (q.setBit i) rfl hpre_ne'
      have htry := tryAlloc_eq_scanFull s ⟨s.size, layout.align⟩ p' _ hos
        (hp' ▸ hfull) (by rw [hlist, hp']; exact hmv)
      have hT := scaAllocT_scanOk s layout _ _ _ hls h2 htry hptrpos
      refine ⟨_, _, scaAlloc_of_allocT hT,
        hp' ▸ SCInv_scanFull inv hdec hiobj hfull hobj2, rfl, rfl,
        Or.inl ⟨_, q, s.empty_slabs ++ (pre ++ suf) ++ s.full_slabs, i, rfl,
          hperm1, ?_, hiobj, hbq, halq', hfitq', hptr⟩⟩
      show (s.empty_slabs ++ (pre ++ suf)
          ++ (q.setBit i :: s.full_slabs)).Perm
        (q.setBit i :: (s.empty_slabs ++ (pre ++ suf) ++ s.full_slabs))
      exact perm_cons_last _ _ _ _
    · -- the page stays partial
      have htry := tryAlloc_eq_scanNotFull s ⟨s.size, layout.align⟩ p' hos
        (hp' ▸ hfull)
      rw [hlist, hp'] at htry
      have hT := scaAllocT_scanOk s layout _ _ _ hls h2 htry hptrpos
      refine ⟨_, _, scaAlloc_of_allocT hT,
        SCInv_scanNotFull inv hdec hiobj hfull, rfl, rfl,
        Or.inl ⟨_, q, s.empty_slabs ++ (pre ++ suf) ++ s.full_slabs, i, rfl,
          hperm1, ?_, hiobj, hbq, halq', hfitq', hptr⟩⟩
      show (s.empty_slabs ++ (pre ++ q.setBit i :: suf)
          ++ s.full_slabs).Perm
        (q.setBit i :: (s.empty_slabs ++ (pre ++ suf) ++ s.full_slabs))
      exact perm_cons_mid _ _ _ _ _

/-! ## The deallocation path -/

theorem addr_disj_empty_slabs {s : SCAllocator} (inv : SCInv s) :
    ∀ q ∈ s.empty_slabs, ∀ p ∈ s.slabs,
      q.startAddress ≠ p.startAddress := by
  have h := inv.nodupAddr
  unfold SCAllocator.allPages at h
  rw [List.map_append, List.map_append, List.nodup_append] at h
  obtain ⟨h12, -, -⟩ := h
  rw [List.nodup_append] at h12
  obtain ⟨-, -, hd⟩ := h12
  intro q hq p hp heq
  exact hd (List.mem_map_of_mem _ hq) (heq ▸ List.mem_map_of_mem _ hp)

theorem addr_disj_ef_full {s : SCAllocator} (inv : SCInv s) :
    ∀ q ∈ s.empty_slabs ++ s.slabs, ∀ p ∈ s.full_slabs,
      q.startAddress ≠ p.startAddress := by
  have h := inv.nodupAddr
  unfold SCAllocator.allPages at h
  rw [List.map_append, List.map_append, List.nodup_append] at h
  obtain ⟨-, -, hd⟩ := h
  intro q hq p hp heq
  rcases List.mem_append.mp hq with hq' | hq'
  · exact hd (List.mem_append_left _ (List.mem_map_of_mem _ hq'))
      (heq ▸ List.mem_map_of_mem _ hp)
  · exact hd (List.mem_append_right _ (List.mem_map_of_mem _ hq'))
      (heq ▸ List.mem_map_of_mem _ hp)

theorem dataBytes_lt_pageSize : dataBytes < pageSize := by
  rw [dataBytes_eq]
  simp [pageSize]

/-- The address mask `ptr & !(SIZE - 1)` recovers the page base of any slot
pointer. -/
theorem slot_page_base {base i size : Nat} (hal : base % pageSize = 0)
    (hfit : i * size + size ≤ dataBytes) :
    base + i * size - (base + i * size) % pageSize = base := by
  have h1 : i * size < pageSize :=
    lt_of_le_of_lt (le_trans (Nat.le_add_right _ _) hfit) dataBytes_lt_pageSize
  obtain ⟨k, rfl⟩ := Nat.dvd_of_mod_eq_zero hal
  have h2 : (pageSize * k + i * size) % pageSize = i * size := by
    rw [Nat.mul_add_mod]
    exact Nat.mod_eq_of_lt h1
  omega

/-- `page.deallocate` on a set in-range slot boundary succeeds and clears
the bit. -/
theorem pageDealloc_ok {p : MappedPages8k} {ptr : Nat} {L : Layout} {i : Nat}
    (hoff : ptr - p.startAddress = i * L.size) (hsz : 0 < L.size)
    (hi : i < objectsPerPage L.size) (hb : p.bitfield i = true) :
    MappedPages8k.deallocate p ptr L = (Except.ok (), p.clearBit i) := by
  simp only [MappedPages8k.deallocate, hoff]
  rw [if_neg (by simp [Nat.mul_mod_left]), Nat.mul_div_cancel _ hsz,
    if_neg (not_not_intro hi), if_neg (by simp [hb])]

theorem findPage_eq {s : SCAllocator} (inv : SCInv s) {p : MappedPages8k}
    (hp : p ∈ s.allPages) :
    s.findPage p.startAddress = some p := by
  unfold SCAllocator.findPage
  exact find_addr_unique inv.nodupAddr hp

/-- `SCAllocator::deallocate` once the owning page has been located: the
branch structure on the page-level result. -/
theorem scaDealloc_eq (s : SCAllocator) (ptr : Nat) (layout : Layout)
    (h1 : layout.size ≤ s.size) (h2 : s.size ≤ pageSize - cacheLineSize)
    {sp : MappedPages8k}
    (hfind : s.findPage (ptr - ptr % pageSize) = some sp) :
    s.deallocate ptr layout
      = (let r := sp.deallocate ptr ⟨s.size, layout.align⟩
         let s1 := s.writeBack (ptr - ptr % pageSize) r.2
         if r.2.isEmpty s.obj_per_page then
           (s1.moveToEmpty (ptr - ptr % pageSize)).map fun s2 => (r.1, s2)
         else if sp.isFull then
           (s1.moveFullToPartial (ptr - ptr % pageSize)).map fun s2 =>
             (r.1, s2)
         else some (r.1, s1)) := by
  simp only [SCAllocator.deallocate, if_neg (not_not_intro h1),
    if_neg (not_not_intro h2), hfind]

theorem perm_cons_third {α : Type} (e m pre suf : List α) (p : α) :
    (e ++ m ++ (pre ++ p :: suf)).Perm (p :: (e ++ m ++ (pre ++ suf))) := by
  have h1 : (pre ++ p :: suf).Perm (p :: (pre ++ suf)) := List.perm_middle
  exact (h1.append_left (e ++ m)).trans List.perm_middle

/-- Distinct owned slots have distinct addresses: the page base and slot
index are recoverable from a slot pointer. -/
theorem slot_eq_of_ptr_eq {s : SCAllocator} (inv : SCInv s)
    {p q : MappedPages8k} (hp : p ∈ s.allPages) (hq : q ∈ s.allPages)
    {i j : Nat} (hi : i < s.obj_per_page) (hj : j < s.obj_per_page)
    (heq : p.startAddress + i * s.size = q.startAddress + j * s.size) :
    p = q ∧ i = j := by
  have hfi := inv.slotFits hi
  have hfj := inv.slotFits hj
  have h1 : p.startAddress = q.startAddress := by
    have hbp := slot_page_base (inv.aligned p hp) hfi
    have hbq := slot_page_base (inv.aligned q hq) hfj
    rw [heq] at hbp
    omega
  have h2 : i = j := by
    have : i * s.size = j * s.size := by omega
    exact Nat.eq_of_mul_eq_mul_right inv.sizePos this
  exact ⟨inv.addr_inj hp hq h1, h2⟩

theorem clearBit_sentinel {p : MappedPages8k} {n : Nat}
    (hs : ∀ j, n ≤ j → p.bitfield j = true) {i : Nat} (hi : i < n) :
    ∀ j, n ≤ j → (p.clearBit i).bitfield j = true := by
  intro j hj
  rw [clearBit_bf, if_neg (by omega)]
  exact hs j hj

/-- Invariant preservation for a deallocation that empties its page: the
page moves `slabs -> empty_slabs`. -/
theorem SCInv_deallocEmpty {s : SCAllocator} (inv : SCInv s)
    {pre suf : List MappedPages8k} {p : MappedPages8k} {i : Nat}
    (hdec : s.slabs = pre ++ p :: suf) (hi : i < s.obj_per_page)
    (hempty : (p.clearBit i).isEmpty s.obj_per_page) :
    SCInv { s with
      slabs := pre ++ suf
      empty_slabs := p.clearBit i :: s.empty_slabs } := by
  have hps : p ∈ s.slabs := by
    rw [hdec]
    exact List.mem_append_right _ (List.mem_cons_self _ _)
  have hpm : p ∈ s.allPages := mem_allPages_of_slabs hps
  have hpre_mem : ∀ q ∈ pre, q ∈ s.slabs := by
    intro q hq
    rw [hdec]
    exact List.mem_append_left _ hq
  have hsuf_mem : ∀ q ∈ suf, q ∈ s.slabs := by
    intro q hq
    rw [hdec]
    exact List.mem_append_right _ (List.mem_cons_of_mem _ hq)
  set s2 : SCAllocator := { s with
    slabs := pre ++ suf
    empty_slabs := p.clearBit i :: s.empty_slabs } with hs2
  have hperm1 : s.allPages.Perm
      (p :: (s.empty_slabs ++ (pre ++ suf) ++ s.full_slabs)) := by
    have heq : s.allPages
        = s.empty_slabs ++ (pre ++ p :: suf) ++ s.full_slabs := by
      unfold SCAllocator.allPages
      rw [hdec]
    rw [heq]
    exact perm_cons_mid _ _ _ _ _
  have hperm2 : s2.allPages.Perm
      (p.clearBit i :: (s.empty_slabs ++ (pre ++ suf) ++ s.full_slabs)) := by
    have heq : s2.allPages
        = (p.clearBit i :: s.empty_slabs) ++ (pre ++ suf) ++ s.full_slabs :=
      rfl
    rw [heq]
    exact perm_cons_head _ _ _ _
  have hmem2 : ∀ q ∈ s2.allPages, q = p.clearBit i ∨ q ∈ s.allPages := by
    intro q hq
    rcases List.mem_cons.mp (hperm2.mem_iff.mp hq) with rfl | hq'
    · exact Or.inl rfl
    · exact Or.inr (hperm1.mem_iff.mpr (List.mem_cons_of_mem _ hq'))
  refine ⟨inv.sizePos, inv.sizeLe, inv.objEq, ?_, ?_, ?_, ?_, ?_, ?_, ?_,
    ?_, ?_⟩
  · intro q hq
    rcases hmem2 q hq with rfl | hq'
    · rw [clearBit_start]
      exact inv.basePos p hpm
    · exact inv.basePos q hq'
  · intro q hq
    rcases hmem2 q hq with rfl | hq'
    · rw [clearBit_start]
      exact inv.aligned p hpm
    · exact inv.aligned q hq'
  · rw [(hperm2.map MappedPages8k.startAddress).nodup_iff]
    have h1 := (hperm1.map MappedPages8k.startAddress).nodup_iff.mp
      inv.nodupAddr
    simpa [clearBit_start] using h1
  · intro q hq
    rcases hmem2 q hq with rfl | hq'
    · exact clearBit_sentinel (fun j hj => inv.sentinel p hpm j hj) hi
    · exact inv.sentinel q hq'
  · intro q hq
    rcases List.mem_cons.mp hq with rfl | hq'
    · exact fun k hk => hempty k hk
    · exact inv.emptyClear q hq'
  · exact inv.fullSet
  · intro q hq
    rcases List.mem_append.mp hq with hq' | hq'
    · exact inv.slabsUsed q (hpre_mem q hq')
    · exact inv.slabsUsed q (hsuf_mem q hq')
  · intro hobj2 q hq
    rcases List.mem_append.mp hq with hq' | hq'
    · exact inv.slabsFree hobj2 q (hpre_mem q hq')
    · exact inv.slabsFree hobj2 q (hsuf_mem q hq')
  · exact inv.objOneFull

/-- Invariant preservation for a deallocation on a full page that does not
empty it: the page moves `full_slabs -> slabs`. -/
theorem SCInv_deallocFromFull {s : SCAllocator} (inv : SCInv s)
    {pre suf : List MappedPages8k} {p : MappedPages8k} {i : Nat}
    (hdec : s.full_slabs = pre ++ p :: suf) (hi : i < s.obj_per_page)
    (hne : ¬ (p.clearBit i).isEmpty s.obj_per_page) :
    SCInv { s with
      full_slabs := pre ++ suf
      slabs := p.clearBit i :: s.slabs } := by
  have hpf : p ∈ s.full_slabs := by
    rw [hdec]
    exact List.mem_append_right _ (List.mem_cons_self _ _)
  have hpm : p ∈ s.allPages := mem_allPages_of_full hpf
  have hpre_mem : ∀ q ∈ pre, q ∈ s.full_slabs := by
    intro q hq
    rw [hdec]
    exact List.mem_append_left _ hq
  have hsuf_mem : ∀ q ∈ suf, q ∈ s.full_slabs := by
    intro q hq
    rw [hdec]
    exact List.mem_append_right _ (List.mem_cons_of_mem _ hq)
  set s2 : SCAllocator := { s with
    full_slabs := pre ++ suf
    slabs := p.clearBit i :: s.slabs } with hs2
  have hperm1 : s.allPages.Perm
      (p :: (s.empty_slabs ++ s.slabs ++ (pre ++ suf))) := by
    have heq : s.allPages
        = s.empty_slabs ++ s.slabs ++ (pre ++ p :: suf) := by
      unfold SCAllocator.allPages
      rw [hdec]
    rw [heq]
    exact perm_cons_third _ _ _ _ _
  have hperm2 : s2.allPages.Perm
      (p.clearBit i :: (s.empty_slabs ++ s.slabs ++ (pre ++ suf))) := by
    have heq : s2.allPages
        = s.empty_slabs ++ ([] ++ p.clearBit i :: s.slabs) ++ (pre ++ suf) :=
      rfl
    rw [heq]
    exact perm_cons_mid _ _ _ _ _
  have hmem2 : ∀ q ∈ s2.allPages, q = p.clearBit i ∨ q ∈ s.allPages := by
    intro q hq
    rcases List.mem_cons.mp (hperm2.mem_iff.mp hq) with rfl | hq'
    · exact Or.inl rfl
    · exact Or.inr (hperm1.mem_iff.mpr (List.mem_cons_of_mem _ hq'))
  refine ⟨inv.sizePos, inv.sizeLe, inv.objEq, ?_, ?_, ?_, ?_, ?_, ?_, ?_,
    ?_, ?_⟩
  · intro q hq
    rcases hmem2 q hq with rfl | hq'
    · rw [clearBit_start]
      exact inv.basePos p hpm
    · exact inv.basePos q hq'
  · intro q hq
    rcases hmem2 q hq with rfl | hq'
    · rw [clearBit_start]
      exact inv.aligned p hpm
    · exact inv.aligned q hq'
  · rw [(hperm2.map MappedPages8k.startAddress).nodup_iff]
    have h1 := (hperm1.map MappedPages8k.startAddress).nodup_iff.mp
      inv.nodupAddr
    simpa [clearBit_start] using h1
  · intro q hq
    rcases hmem2 q hq with rfl | hq'
    · exact clearBit_sentinel (fun j hj => inv.sentinel p hpm j hj) hi
    · exact inv.sentinel q hq'
  · exact inv.emptyClear
  · intro q hq
    rcases List.mem_append.mp hq with hq' | hq'
    · exact inv.fullSet q (hpre_mem q hq')
    · exact inv.fullSet q (hsuf_mem q hq')
  · intro q hq
    rcases List.mem_cons.mp hq with rfl | hq'
    · obtain ⟨j, hj, hbj⟩ := notEmpty_set hne
      exact ⟨j, hj, hbj⟩
    · exact inv.slabsUsed q hq'
  · intro hobj2 q hq
    rcases List.mem_cons.mp hq with rfl | hq'
    · exact ⟨i, hi, by rw [clearBit_bf, if_pos rfl]⟩
    · exact inv.slabsFree hobj2 q hq'
  · intro h1
    have h2 := inv.objOneFull h1
    rw [hdec] at h2
    exact absurd h2 (by simp)

/-- Invariant preservation for a deallocation that leaves its page partial:
no page moves between lists. -/
theorem SCInv_deallocInPlace {s : SCAllocator} (inv : SCInv s)
    {pre suf : List MappedPages8k} {p : MappedPages8k} {i : Nat}
    (hdec : s.slabs = pre ++ p :: suf) (hi : i < s.obj_per_page)
    (hne : ¬ (p.clearBit i).isEmpty s.obj_per_page) :
    SCInv { s with slabs := pre ++ p.clearBit i :: suf } := by
  have hps : p ∈ s.slabs := by
    rw [hdec]
    exact List.mem_append_right _ (List.mem_cons_self _ _)
  have hpm : p ∈ s.allPages := mem_allPages_of_slabs hps
  have hpre_mem : ∀ q ∈ pre, q ∈ s.slabs := by
    intro q hq
    rw [hdec]
    exact List.mem_append_left _ hq
  have hsuf_mem : ∀ q ∈ suf, q ∈ s.slabs := by
    intro q hq
    rw [hdec]
    exact List.mem_append_right _ (List.mem_cons_of_mem _ hq)
  set s2 : SCAllocator := { s with slabs := pre ++ p.clearBit i :: suf }
    with hs2
  have hperm1 : s.allPages.Perm
      (p :: (s.empty_slabs ++ (pre ++ suf) ++ s.full_slabs)) := by
    have heq : s.allPages
        = s.empty_slabs ++ (pre ++ p :: suf) ++ s.full_slabs := by
      unfold SCAllocator.allPages
      rw [hdec]
    rw [heq]
    exact perm_cons_mid _ _ _ _ _
  have hperm2 : s2.allPages.Perm
      (p.clearBit i :: (s.empty_slabs ++ (pre ++ suf) ++ s.full_slabs)) := by
    have heq : s2.allPages
        = s.empty_slabs ++ (pre ++ p.clearBit i :: suf) ++ s.full_slabs :=
      rfl
    rw [heq]
    exact perm_cons_mid _ _ _ _ _
  have hmem2 : ∀ q ∈ s2.allPages, q = p.clearBit i ∨ q ∈ s.allPages := by
    intro q hq
    rcases List.mem_cons.mp (hperm2.mem_iff.mp hq) with rfl | hq'
    · exact Or.inl rfl
    · exact Or.inr (hperm1.mem_iff.mpr (List.mem_cons_of_mem _ hq'))
  refine ⟨inv.sizePos, inv.sizeLe, inv.objEq, ?_, ?_, ?_, ?_, ?_, ?_, ?_,
    ?_, ?_⟩
  · intro q hq
    rcases hmem2 q hq with rfl | hq'
    · rw [clearBit_start]
      exact inv.basePos p hpm
    · exact inv.basePos q hq'
  · intro q hq
    rcases hmem2 q hq with rfl | hq'
    · rw [clearBit_start]
      exact inv.aligned p hpm
    · exact inv.aligned q hq'
  · rw [(hperm2.map MappedPages8k.startAddress).nodup_iff]
    have h1 := (hperm1.map MappedPages8k.startAddress).nodup_iff.mp
      inv.nodupAddr
    simpa [clearBit_start] using h1
  · intro q hq
    rcases hmem2 q hq with rfl | hq'
    · exact clearBit_sentinel (fun j hj => inv.sentinel p hpm j hj) hi
    · exact inv.sentinel q hq'
  · exact inv.emptyClear
  · exact inv.fullSet
  · intro q hq
    rcases List.mem_append.mp hq with hq' | hq'
    · exact inv.slabsUsed q (hpre_mem q hq')
    · rcases List.mem_cons.mp hq' with rfl | hq''
      · obtain ⟨j, hj, hbj⟩ := notEmpty_set hne
        exact ⟨j, hj, hbj⟩
      · exact inv.slabsUsed q (hsuf_mem q hq'')
  · intro hobj2 q hq
    rcases List.mem_append.mp hq with hq' | hq'
    · exact inv.slabsFree hobj2 q (hpre_mem q hq')
    · rcases List.mem_cons.mp hq' with rfl | hq''
      · exact ⟨i, hi, by rw [clearBit_bf, if_pos rfl]⟩
      · exact inv.slabsFree hobj2 q (hsuf_mem q hq'')
  · exact inv.objOneFull

theorem obj_le_maxBits {s : SCAllocator} (inv : SCInv s) :
    s.obj_per_page ≤ maxBits := by
  rw [inv.objEq]
  exact objectsPerPage_le s.size

/-- A page holding a set in-range bit is not on `empty_slabs`. -/
theorem target_not_empty {s : SCAllocator} (inv : SCInv s)
    {p : MappedPages8k} {i : Nat} (hi : i < s.obj_per_page)
    (hb : p.bitfield i = true) : p ∉ s.empty_slabs := by
  intro hpe
  rw [inv.emptyClear p hpe i hi] at hb
  cases hb

/-- A page that one clear empties was on `slabs`. -/
theorem target_slabs_of_clear_empty {s : SCAllocator} (inv : SCInv s)
    {p : MappedPages8k} {i : Nat} (hp : p ∈ s.allPages)
    (hi : i < s.obj_per_page) (hb : p.bitfield i = true)
    (hempty : (p.clearBit i).isEmpty s.obj_per_page) : p ∈ s.slabs := by
  rcases mem_allPages_cases hp with hq | hq | hq
  · exact absurd hq (target_not_empty inv hi hb)
  · exact hq
  · exfalso
    by_cases h1 : s.obj_per_page = 1
    · have h2 := inv.objOneFull h1
      rw [h2] at hq
      cases hq
    · have hobj2 : 2 ≤ s.obj_per_page := by
        have := inv.objPos
        omega
      have hex : ∃ j, j < s.obj_per_page ∧ j ≠ i := by
        rcases Nat.eq_zero_or_pos i with h0 | h0
        · exact ⟨1, hobj2, by omega⟩
        · exact ⟨0, by omega, by omega⟩
      obtain ⟨j, hjobj, hji⟩ := hex
      have hjmax : j < maxBits := lt_of_lt_of_le hjobj (obj_le_maxBits inv)
      have hbj := inv.fullSet p hq j hjmax
      have hc := hempty j hjobj
      rw [clearBit_bf, if_neg hji, hbj] at hc
      cases hc

/-- A full page whose clear leaves it non-empty was on `full_slabs`. -/
theorem target_full_of_wasFull {s : SCAllocator} (inv : SCInv s)
    {p : MappedPages8k} {i : Nat} (hp : p ∈ s.allPages)
    (hi : i < s.obj_per_page) (hb : p.bitfield i = true)
    (hfull : p.isFull) (hne : ¬ (p.clearBit i).isEmpty s.obj_per_page) :
    p ∈ s.full_slabs := by
  rcases mem_allPages_cases hp with hq | hq | hq
  · exact absurd hq (target_not_empty inv hi hb)
  · exfalso
    by_cases h1 : s.obj_per_page = 1
    · apply hne
      intro k hk
      have hki : k = i := by omega
      rw [clearBit_bf, if_pos hki]
    · have hobj2 : 2 ≤ s.obj_per_page := by
        have := inv.objPos
        omega
      obtain ⟨j, hjobj, hbj⟩ := inv.slabsFree hobj2 p hq
      have hjmax : j < maxBits := lt_of_lt_of_le hjobj (obj_le_maxBits inv)
      rw [hfull j hjmax] at hbj
      cases hbj
  · exact hq

/-- A non-full page holding a set in-range bit was on `slabs`. -/
theorem target_slabs_of_notFull {s : SCAllocator} (inv : SCInv s)
    {p : MappedPages8k} {i : Nat} (hp : p ∈ s.allPages)
    (hi : i < s.obj_per_page) (hb : p.bitfield i = true)
    (hnf : ¬ p.isFull) : p ∈ s.slabs := by
  rcases mem_allPages_cases hp with hq | hq | hq
  · exact absurd hq (target_not_empty inv hi hb)
  · exact hq
  · exact absurd (show p.isFull from fun k hk => inv.fullSet p hq k hk) hnf

theorem writeBack_slabs {s : SCAllocator} (inv : SCInv s)
    {pre suf : List MappedPages8k} {p : MappedPages8k}
    (hdec : s.slabs = pre ++ p :: suf) (p' : MappedPages8k) :
    s.writeBack p.startAddress p' = { s with slabs := pre ++ p' :: suf } := by
  have hps : p ∈ s.slabs := by
    rw [hdec]
    exact List.mem_append_right _ (List.mem_cons_self _ _)
  obtain ⟨hpre, hsuf⟩ := nodup_decomp_addr hdec inv.nodup_slabs
  have hemp : ∀ q ∈ s.empty_slabs, q.startAddress ≠ p.startAddress :=
    fun q hq => addr_disj_empty_slabs inv q hq p hps
  have hful : ∀ q ∈ s.full_slabs, q.startAddress ≠ p.startAddress := by
    intro q hq heq
    exact addr_disj_ef_full inv p (List.mem_append_right _ hps) q hq heq.symm
  unfold SCAllocator.writeBack
  rw [hdec, replacePage_skip _ _ _ hemp, replacePage_skip _ _ _ hful,
    replacePage_append _ _ _ _ _ rfl hpre hsuf]

theorem writeBack_full {s : SCAllocator} (inv : SCInv s)
    {pre suf : List MappedPages8k} {p : MappedPages8k}
    (hdec : s.full_slabs = pre ++ p :: suf) (p' : MappedPages8k) :
    s.writeBack p.startAddress p'
      = { s with full_slabs := pre ++ p' :: suf } := by
  have hpf : p ∈ s.full_slabs := by
    rw [hdec]
    exact List.mem_append_right _ (List.mem_cons_self _ _)
  obtain ⟨hpre, hsuf⟩ := nodup_decomp_addr hdec inv.nodup_full
  have hemp : ∀ q ∈ s.empty_slabs, q.startAddress ≠ p.startAddress :=
    fun q hq => addr_disj_ef_full inv q (List.mem_append_left _ hq) p hpf
  have hsl : ∀ q ∈ s.slabs, q.startAddress ≠ p.startAddress :=
    fun q hq => addr_disj_ef_full inv q (List.mem_append_right _ hq) p hpf
  unfold SCAllocator.writeBack
  rw [hdec, replacePage_skip _ _ _ hemp, replacePage_skip _ _ _ hsl,
    replacePage_append _ _ _ _ _ rfl hpre hsuf]

/-- The central specification of `SCAllocator::deallocate` on an invariant
state: freeing a live slot with an in-class layout completes without
panicking, returns `Ok`, clears exactly that slot's bit, and performs
exactly the spec's list movement: to the empty list when the page becomes
empty, from the full to the partial list when the page was full, and no
movement otherwise. -/
theorem scaDeallocate_spec (s : SCAllocator) (layout : Layout)
    (inv : SCInv s) (hls : layout.size ≤ s.size) {p : MappedPages8k}
    {i : Nat} (hp : p ∈ s.allPages) (hi : i < s.obj_per_page)
    (hb : p.bitfield i = true) :
    ∃ s', s.deallocate (p.startAddress + i * s.size) layout
        = some (Except.ok (), s')
      ∧ SCInv s' ∧ s'.size = s.size ∧ s'.obj_per_page = s.obj_per_page
      ∧ (∃ rest, s.allPages.Perm (p :: rest)
          ∧ s'.allPages.Perm (p.clearBit i :: rest))
      ∧ (((p.clearBit i).isEmpty s.obj_per_page
            ∧ ∃ pre suf, s.slabs = pre ++ p :: suf
              ∧ s'.slabs = pre ++ suf
              ∧ s'.empty_slabs = p.clearBit i :: s.empty_slabs
              ∧ s'.full_slabs = s.full_slabs)
        ∨ (¬ (p.clearBit i).isEmpty s.obj_per_page ∧ p.isFull
            ∧ ∃ pre suf, s.full_slabs = pre ++ p :: suf
              ∧ s'.full_slabs = pre ++ suf
              ∧ s'.slabs = p.clearBit i :: s.slabs
              ∧ s'.empty_slabs = s.empty_slabs)
        ∨ (¬ (p.clearBit i).isEmpty s.obj_per_page ∧ ¬ p.isFull
            ∧ ∃ pre suf, s.slabs = pre ++ p :: suf
              ∧ s'.slabs = pre ++ p.clearBit i :: suf
              ∧ s'.empty_slabs = s.empty_slabs
              ∧ s'.full_slabs = s.full_slabs)) := by
  have h2 : s.size ≤ pageSize - cacheLineSize := by
    have h3 := inv.sizeLe
    rw [dataBytes_eq] at h3
    simp only [pageSize, cacheLineSize]
    omega
  have hfit := inv.slotFits hi
  have hbase : p.startAddress + i * s.size
      - (p.startAddress + i * s.size) % pageSize = p.startAddress :=
    slot_page_base (inv.aligned p hp) hfit
  have hfind : s.findPage
      (p.startAddress + i * s.size
        - (p.startAddress + i * s.size) % pageSize) = some p := by
    rw [hbase]
    exact findPage_eq inv hp
  have hpd : MappedPages8k.deallocate p (p.startAddress + i * s.size)
      ⟨s.size, layout.align⟩ = (Except.ok (), p.clearBit i) :=
    pageDealloc_ok
      (show p.startAddress + i * s.size - p.startAddress = i * s.size by
        omega)
      inv.sizePos (inv.objEq ▸ hi) hb
  have heqn := scaDealloc_eq s (p.startAddress + i * s.size) layout hls h2
    hfind
  simp only [hpd] at heqn
  rw [hbase] at heqn
  by_cases hemp : (p.clearBit i).isEmpty s.obj_per_page
  · rw [if_pos hemp] at heqn
    have hps : p ∈ s.slabs := target_slabs_of_clear_empty inv hp hi hb hemp
    obtain ⟨pre, suf, hdec⟩ := List.append_of_mem hps
    obtain ⟨hpre, hsuf⟩ := nodup_decomp_addr hdec inv.nodup_slabs
    rw [writeBack_slabs inv hdec (p.clearBit i)] at heqn
    have hmv : SCAllocator.moveToEmpty
        { s with slabs := pre ++ p.clearBit i :: suf } p.startAddress
        = some { s with
            slabs := pre ++ suf
            empty_slabs := p.clearBit i :: s.empty_slabs } := by
      unfold SCAllocator.moveToEmpty
      rw [show ({ s with slabs := pre ++ p.clearBit i :: suf }
          : SCAllocator).slabs = pre ++ p.clearBit i :: suf from rfl,
        removeFromList_append _ _ _ _ (clearBit_start p i) hpre,
        Option.map_some']
    rw [hmv, Option.map_some'] at heqn
    refine ⟨_, heqn, SCInv_deallocEmpty inv hdec hi hemp, rfl, rfl,
      ⟨s.empty_slabs ++ (pre ++ suf) ++ s.full_slabs, ?_, ?_⟩,
      Or.inl ⟨hemp, pre, suf, hdec, rfl, rfl, rfl⟩⟩
    · have heq : s.allPages
          = s.empty_slabs ++ (pre ++ p :: suf) ++ s.full_slabs := by
        unfold SCAllocator.allPages
        rw [hdec]
      rw [heq]
      exact perm_cons_mid _ _ _ _ _
    · show ((p.clearBit i :: s.empty_slabs) ++ (pre ++ suf)
          ++ s.full_slabs).Perm _
      exact perm_cons_head _ _ _ _
  · rw [if_neg hemp] at heqn
    by_cases hfull : p.isFull
    · rw [if_pos hfull] at heqn
      have hpf : p ∈ s.full_slabs :=
        target_full_of_wasFull inv hp hi hb hfull hemp
      obtain ⟨pre, suf, hdec⟩ := List.append_of_mem hpf
      obtain ⟨hpre, hsuf⟩ := nodup_decomp_addr hdec inv.nodup_full
      rw [writeBack_full inv hdec (p.clearBit i)] at heqn
      have hmv : SCAllocator.moveFullToPartial
          { s with full_slabs := pre ++ p.clearBit i :: suf } p.startAddress
          = some { s with
              full_slabs := pre ++ suf
              slabs := p.clearBit i :: s.slabs } := by
        unfold SCAllocator.moveFullToPartial
        rw [show ({ s with full_slabs := pre ++ p.clearBit i :: suf }
            : SCAllocator).full_slabs = pre ++ p.clearBit i :: suf from rfl,
          removeFromList_append _ _ _ _ (clearBit_start p i) hpre,
          Option.map_some']
      rw [hmv, Option.map_some'] at heqn
      refine ⟨_, heqn, SCInv_deallocFromFull inv hdec hi hemp, rfl, rfl,
        ⟨s.empty_slabs ++ s.slabs ++ (pre ++ suf), ?_, ?_⟩,
        Or.inr (Or.inl ⟨hemp, hfull, pre, suf, hdec, rfl, rfl, rfl⟩)⟩
      · have heq : s.allPages
            = s.empty_slabs ++ s.slabs ++ (pre ++ p :: suf) := by
          unfold SCAllocator.allPages
          rw [hdec]
        rw [heq]
        exact perm_cons_third _ _ _ _ _
      · show (s.empty_slabs ++ ([] ++ p.clearBit i :: s.slabs)
            ++ (pre ++ suf)).Perm _
        exact perm_cons_mid _ _ _ _ _
    · rw [if_neg hfull] at heqn
      have hps : p ∈ s.slabs := target_slabs_of_notFull inv hp hi hb hfull
      obtain ⟨pre, suf, hdec⟩ := List.append_of_mem hps
      rw [writeBack_slabs inv hdec (p.clearBit i)] at heqn
      refine ⟨_, heqn, SCInv_deallocInPlace inv hdec hi hemp, rfl, rfl,
        ⟨s.empty_slabs ++ (pre ++ suf) ++ s.full_slabs, ?_, ?_⟩,
        Or.inr (Or.inr ⟨hemp, hfull, pre, suf, hdec, rfl, rfl, rfl⟩)⟩
      · have heq : s.allPages
            = s.empty_slabs ++ (pre ++ p :: suf) ++ s.full_slabs := by
          unfold SCAllocator.allPages
          rw [hdec]
        rw [heq]
        exact perm_cons_mid _ _ _ _ _
      · show (s.empty_slabs ++ (pre ++ p.clearBit i :: suf)
            ++ s.full_slabs).Perm _
        exact perm_cons_mid _ _ _ _ _

theorem SCInv_new {size : Nat} (h1 : 0 < size) (h2 : size ≤ dataBytes) :
    SCInv (SCAllocator.new size) := by
  refine ⟨h1, h2, rfl, ?_, ?_, ?_, ?_, ?_, ?_, ?_, ?_, ?_⟩ <;>
    simp [SCAllocator.new, SCAllocator.allPages]

theorem SCInv_refill {s : SCAllocator} (inv : SCInv s) {mp : MappedPages8k}
    {hid : Nat} (hpos : 0 < mp.startAddress)
    (hal : mp.startAddress % pageSize = 0)
    (hfresh : ∀ q ∈ s.allPages, q.startAddress ≠ mp.startAddress) :
    SCInv (s.refill mp hid) := by
  set mp' : MappedPages8k :=
    { startAddress := mp.startAddress
      bitfield := initBitfield s.size (pageSize - metadataSize)
      heapId := hid } with hmp'
  have hbf : ∀ j, mp'.bitfield j = decide (objectsPerPage s.size ≤ j) :=
    fun j => rfl
  show SCInv { s with empty_slabs := mp' :: s.empty_slabs }
  set s2 : SCAllocator := { s with empty_slabs := mp' :: s.empty_slabs }
    with hs2
  have hperm2 : s2.allPages.Perm (mp' :: s.allPages) := by
    have heq : s2.allPages
        = (mp' :: s.empty_slabs) ++ s.slabs ++ s.full_slabs := rfl
    rw [heq]
    have heq1 : s.allPages = s.empty_slabs ++ s.slabs ++ s.full_slabs := rfl
    rw [heq1]
    exact perm_cons_head _ _ _ _
  have hmem2 : ∀ q ∈ s2.allPages, q = mp' ∨ q ∈ s.allPages := by
    intro q hq
    rcases List.mem_cons.mp (hperm2.mem_iff.mp hq) with rfl | hq'
    · exact Or.inl rfl
    · exact Or.inr hq'
  refine ⟨inv.sizePos, inv.sizeLe, inv.objEq, ?_, ?_, ?_, ?_, ?_, ?_, ?_,
    ?_, ?_⟩
  · intro q hq
    rcases hmem2 q hq with rfl | hq'
    · exact hpos
    · exact inv.basePos q hq'
  · intro q hq
    rcases hmem2 q hq with rfl | hq'
    · exact hal
    · exact inv.aligned q hq'
  · rw [(hperm2.map MappedPages8k.startAddress).nodup_iff, List.map_cons,
      List.nodup_cons]
    refine ⟨?_, inv.nodupAddr⟩
    intro hmem
    obtain ⟨q, hq, hqe⟩ := List.mem_map.mp hmem
    exact hfresh q hq hqe
  · intro q hq
    rcases hmem2 q hq with rfl | hq'
    · intro j hj
      rw [hbf]
      rw [inv.objEq] at hj
      simp only [decide_eq_true_eq]
      exact hj
    · exact inv.sentinel q hq'
  · intro q hq
    rcases List.mem_cons.mp hq with rfl | hq'
    · intro j hj
      rw [hbf]
      rw [inv.objEq] at hj
      simp only [decide_eq_false_iff_not, not_le]
      exact hj
    · exact inv.emptyClear q hq'
  · exact inv.fullSet
  · exact inv.slabsUsed
  · exact inv.slabsFree
  · exact inv.objOneFull

theorem SCInv_retrieve {s : SCAllocator} (inv : SCInv s)
    {po : Option MappedPages8k} {s' : SCAllocator}
    (hstep : s.retrieveEmptyPage = (po, s')) : SCInv s' := by
  unfold SCAllocator.retrieveEmptyPage at hstep
  rcases hemp : s.empty_slabs with _ | ⟨p, rest⟩
  · rw [hemp] at hstep
    cases hstep
    exact inv
  · rw [hemp] at hstep
    cases hstep
    have hsub : SCAllocator.allPages
        { s with empty_slabs := rest } |>.Sublist s.allPages := by
      show (rest ++ s.slabs ++ s.full_slabs).Sublist s.allPages
      unfold SCAllocator.allPages
      rw [hemp]
      exact ((List.sublist_cons_self p rest).append_right _).append_right _
    have hmem : ∀ q ∈ SCAllocator.allPages { s with empty_slabs := rest },
        q ∈ s.allPages := fun q hq => hsub.mem hq
    refine ⟨inv.sizePos, inv.sizeLe, inv.objEq, ?_, ?_, ?_, ?_, ?_, ?_, ?_,
      ?_, ?_⟩
    · exact fun q hq => inv.basePos q (hmem q hq)
    · exact fun q hq => inv.aligned q (hmem q hq)
    · exact List.Nodup.sublist (hsub.map MappedPages8k.startAddress)
        inv.nodupAddr
    · exact fun q hq => inv.sentinel q (hmem q hq)
    · intro q hq
      exact inv.emptyClear q (by rw [hemp]; exact List.mem_cons_of_mem _ hq)
    · exact inv.fullSet
    · exact inv.slabsUsed
    · exact inv.slabsFree
    · exact inv.objOneFull

/-- Every state reachable through the spec's legal operation sequences
satisfies the structural invariant. -/
theorem inv_reachable {s : SCAllocator} (h : SCReachable s) : SCInv s := by
  induction h with
  | new size h1 h2 => exact SCInv_new h1 h2
  | refill s mp hid h hpos hal hfresh ih => exact SCInv_refill ih hpos hal hfresh
  | alloc s layout r s' h hal hdvd hstep ih =>
    by_cases hls : layout.size ≤ s.size
    · obtain ⟨r0, s0, hstep0, hinv0, -, -, -⟩ :=
        scaAllocate_spec s layout ih hls hal hdvd
      rw [hstep0] at hstep
      obtain ⟨h1, h2⟩ := Prod.mk.injEq .. ▸ Option.some.inj hstep
      exact h2 ▸ hinv0
    · have hT : s.allocateT layout = none :=
        scaAllocT_assertPanic s layout (Or.inl hls)
      rw [show s.allocate layout = none by
        simp [SCAllocator.allocate, hT]] at hstep
      cases hstep
  | dealloc s ptr layout r s' h hlive hstep ih =>
    by_cases hls : layout.size ≤ s.size
    · obtain ⟨p, hp, i, hptr, hi, hb⟩ := hlive
      subst hptr
      obtain ⟨s0, hstep0, hinv0, -⟩ :=
        scaDeallocate_spec s layout ih hls hp hi hb
      rw [hstep0] at hstep
      obtain ⟨h1, h2⟩ := Prod.mk.injEq .. ▸ Option.some.inj hstep
      exact h2 ▸ hinv0
    · rw [show s.deallocate ptr layout = none by
        unfold SCAllocator.deallocate
        rw [if_pos hls]] at hstep
      cases hstep
  | retrieve s po s' h hstep ih => exact SCInv_retrieve ih hstep

/-! ## Allocation/deallocation accounting (claim C7) -/

/-- A successful allocation consumes exactly one free usable slot, keeps
the page addresses, keeps every live pointer live, and returns a fresh
live pointer distinct from all of them. -/
theorem alloc_uFree_ok (s : SCAllocator) (L : Layout) (inv : SCInv s)
    (hls : L.size ≤ s.size) (hal : 0 < L.align) (hdvd : L.align ∣ pageSize)
    {n : Nat} (hn : s.uFree L.align = n + 1) :
    ∃ ptr s', s.allocate L = some (Except.ok ptr, s') ∧ SCInv s'
      ∧ s'.size = s.size ∧ s'.obj_per_page = s.obj_per_page
      ∧ s'.uFree L.align = n
      ∧ (s'.allPages.map MappedPages8k.startAddress).Perm
          (s.allPages.map MappedPages8k.startAddress)
      ∧ LivePtrAt s' L.align ptr
      ∧ (∀ q, LivePtrAt s L.align q → LivePtrAt s' L.align q)
      ∧ (∀ q, LivePtrAt s L.align q → q ≠ ptr) := by
  obtain ⟨r, s', hstep, inv', hsz, hobj, hcase⟩ :=
    scaAllocate_spec s L inv hls hal hdvd
  rcases hcase with ⟨ptr, p, rest, i, hr, hperm, hperm', hi, hb, halq, hfitq,
      hptr⟩ | ⟨-, -, huf0⟩
  · subst hr
    have hpm : p ∈ s.allPages := hperm.mem_iff.mpr (List.mem_cons_self _ _)
    have himax : i < maxBits := lt_of_lt_of_le hi (obj_le_maxBits inv)
    have hufs : s.uFree L.align
        = pageUFree s.size L.align p
          + (rest.map (pageUFree s.size L.align)).sum := by
      rw [uFree_perm hperm, List.map_cons, List.sum_cons]
    have hufs' : s'.uFree L.align
        = pageUFree s.size L.align (p.setBit i)
          + (rest.map (pageUFree s.size L.align)).sum := by
      rw [uFree_perm hperm', hsz, List.map_cons, List.sum_cons]
    have hdrop := @pageUFree_setBit s.size L.align p i himax hb halq hfitq
    refine ⟨ptr, s', hstep, inv', hsz, hobj, by omega, ?_, ?_, ?_, ?_⟩
    · have h1 := hperm'.map MappedPages8k.startAddress
      have h2 := hperm.map MappedPages8k.startAddress
      rw [List.map_cons, setBit_start] at h1
      rw [List.map_cons] at h2
      exact h1.trans h2.symm
    · refine ⟨p.setBit i, hperm'.mem_iff.mpr (List.mem_cons_self _ _), i,
        ?_, ?_, ?_, ?_, ?_⟩
      · rw [setBit_start, hsz]
        exact hptr
      · rw [hobj]
        exact hi
      · rw [setBit_bf, if_pos rfl]
      · rw [hsz]
        exact halq
      · rw [hsz]
        exact hfitq
    · intro q hq
      obtain ⟨pq, hpq, j, hq1, hj, hbj, halj, hfitj⟩ := hq
      rcases List.mem_cons.mp (hperm.mem_iff.mp hpq) with rfl | hmem
      · have hji : j ≠ i := by
          intro hji
          rw [hji, hb] at hbj
          cases hbj
        refine ⟨pq.setBit i, hperm'.mem_iff.mpr (List.mem_cons_self _ _), j,
          ?_, ?_, ?_, ?_, ?_⟩
        · rw [setBit_start, hsz]
          exact hq1
        · rw [hobj]
          exact hj
        · rw [setBit_bf, if_neg hji]
          exact hbj
        · rw [hsz]
          exact halj
        · rw [hsz]
          exact hfitj
      · refine ⟨pq, hperm'.mem_iff.mpr (List.mem_cons_of_mem _ hmem), j,
          ?_, ?_, hbj, ?_, ?_⟩
        · rw [hsz]
          exact hq1
        · rw [hobj]
          exact hj
        · rw [hsz]
          exact halj
        · rw [hsz]
          exact hfitj
    · intro q hq hqp
      obtain ⟨pq, hpq, j, hq1, hj, hbj, halj, hfitj⟩ := hq
      rw [hq1, hptr] at hqp
      obtain ⟨hpe, hie⟩ := slot_eq_of_ptr_eq inv hpq hpm hj hi hqp
      rw [hpe, hie, hb] at hbj
      cases hbj
  · rw [huf0] at hn
    cases hn

/-- A run of plain allocations succeeds whenever enough free usable slots
are on hand. -/
theorem allocRun_of_uFree (N : Nat) : ∀ (s : SCAllocator) (L : Layout),
    SCInv s → L.size ≤ s.size → 0 < L.align → L.align ∣ pageSize →
    N ≤ s.uFree L.align → (allocRun N s L).isSome := by
  induction N with
  | zero =>
    intro s L _ _ _ _ _
    rfl
  | succ n ih =>
    intro s L inv hls hal hdvd hN
    obtain ⟨m, hm⟩ : ∃ m, s.uFree L.align = m + 1 :=
      ⟨s.uFree L.align - 1, by omega⟩
    obtain ⟨ptr, s', hstep, inv', hsz, hobj, huf, -⟩ :=
      alloc_uFree_ok s L inv hls hal hdvd hm
    have heq : allocRun (n + 1) s L = allocRun n s' L := by
      conv_lhs => rw [allocRun]
      rw [hstep]
      rfl
    rw [heq]
    exact ih s' L inv' (by rw [hsz]; exact hls) hal hdvd (by omega)

/-- Deallocating a live usable slot returns exactly one free usable slot
and keeps every other live pointer live. -/
theorem dealloc_uFree_ok (s : SCAllocator) (L : Layout) (inv : SCInv s)
    (hls : L.size ≤ s.size) {ptr : Nat}
    (hlive : LivePtrAt s L.align ptr) :
    ∃ s', s.deallocate ptr L = some (Except.ok (), s') ∧ SCInv s'
      ∧ s'.size = s.size ∧ s'.obj_per_page = s.obj_per_page
      ∧ s'.uFree L.align = s.uFree L.align + 1
      ∧ ∀ q, q ≠ ptr → LivePtrAt s L.align q → LivePtrAt s' L.align q := by
  obtain ⟨p, hp, i, hptr, hi, hb, halq, hfitq⟩ := hlive
  subst hptr
  have himax : i < maxBits := lt_of_lt_of_le hi (obj_le_maxBits inv)
  obtain ⟨s', h1, inv', hsz, hobj, ⟨rest, hperm, hperm'⟩, -⟩ :=
    scaDeallocate_spec s L inv hls hp hi hb
  refine ⟨s', h1, inv', hsz, hobj, ?_, ?_⟩
  · have hufs : s.uFree L.align
        = pageUFree s.size L.align p
          + (rest.map (pageUFree s.size L.align)).sum := by
      rw [uFree_perm hperm, List.map_cons, List.sum_cons]
    have hufs' : s'.uFree L.align
        = pageUFree s.size L.align (p.clearBit i)
          + (rest.map (pageUFree s.size L.align)).sum := by
      rw [uFree_perm hperm', hsz, List.map_cons, List.sum_cons]
    have hgain := @pageUFree_clearBit s.size L.align p i himax hb halq hfitq
    omega
  · intro q hq hlq
    obtain ⟨pq, hpq, j, hq1, hj, hbj, halj, hfitj⟩ := hlq
    rcases List.mem_cons.mp (hperm.mem_iff.mp hpq) with rfl | hmem
    · have hji : j ≠ i := by
        intro hji
        subst hji
        exact hq hq1
      refine ⟨pq.clearBit i, hperm'.mem_iff.mpr (List.mem_cons_self _ _), j,
        ?_, ?_, ?_, ?_, ?_⟩
      · rw [clearBit_start, hsz]
        exact hq1
      · rw [hobj]
        exact hj
      · rw [clearBit_bf, if_neg hji]
        exact hbj
      · rw [hsz]
        exact halj
      · rw [hsz]
        exact hfitj
    · refine ⟨pq, hperm'.mem_iff.mpr (List.mem_cons_of_mem _ hmem), j,
        ?_, ?_, hbj, ?_, ?_⟩
      · rw [hsz]
        exact hq1
      · rw [hobj]
        exact hj
      · rw [hsz]
        exact halj
      · rw [hsz]
        exact hfitj

/-- Deallocating a list of distinct live usable pointers succeeds and
returns one free usable slot per pointer. -/
theorem deallocAll_uFree (L : Layout) : ∀ (qs : List Nat) (s : SCAllocator),
    SCInv s → L.size ≤ s.size →
    qs.Pairwise (fun a b => a ≠ b) →
    (∀ q ∈ qs, LivePtrAt s L.align q) →
    ∃ s2, deallocAll qs s L = some s2 ∧ SCInv s2
      ∧ s2.size = s.size
      ∧ s2.uFree L.align = s.uFree L.align + qs.length := by
  intro qs
  induction qs with
  | nil =>
    intro s inv hls _ _
    exact ⟨s, rfl, inv, rfl, rfl⟩
  | cons q qs ih =>
    intro s inv hls hpw hlv
    obtain ⟨s', h1, inv', hsz, hobj, huf, hpres⟩ :=
      dealloc_uFree_ok s L inv hls (hlv q (List.mem_cons_self _ _))
    obtain ⟨hq1, hpw'⟩ := List.pairwise_cons.mp hpw
    obtain ⟨s2, h2, inv2, hsz2, huf2⟩ := ih s' inv'
      (by rw [hsz]; exact hls) hpw'
      (fun x hx => hpres x (hq1 x hx).symm (hlv x (List.mem_cons_of_mem _ hx)))
    have heq : deallocAll (q :: qs) s L = deallocAll qs s' L := by
      conv_lhs => rw [deallocAll]
      rw [h1]
      rfl
    refine ⟨s2, by rw [heq]; exact h2, inv2, by rw [hsz2, hsz], ?_⟩
    rw [huf2, huf, List.length_cons]
    omega

theorem boundedAddrs_of_perm {s s' : SCAllocator} {c : Nat}
    (h : (s'.allPages.map MappedPages8k.startAddress).Perm
        (s.allPages.map MappedPages8k.startAddress))
    (hbd : BoundedAddrs s c) : BoundedAddrs s' c := by
  intro p hp
  have hmem : p.startAddress ∈ s.allPages.map MappedPages8k.startAddress :=
    h.mem_iff.mp (List.mem_map_of_mem _ hp)
  obtain ⟨q, hq, hqe⟩ := List.mem_map.mp hmem
  rw [← hqe]
  exact hbd q hq

theorem refill_allPages (s : SCAllocator) (mp : MappedPages8k) (hid : Nat) :
    (s.refill mp hid).allPages
      = { startAddress := mp.startAddress
          bitfield := initBitfield s.size (pageSize - metadataSize)
          heapId := hid } :: s.allPages := rfl

theorem livePtrAt_refill {s : SCAllocator} {mp : MappedPages8k} {hid : Nat}
    {align q : Nat} (h : LivePtrAt s align q) :
    LivePtrAt (s.refill mp hid) align q := by
  obtain ⟨p, hp, i, h1, h2, h3, h4, h5⟩ := h
  refine ⟨p, ?_, i, h1, h2, h3, h4, h5⟩
  rw [refill_allPages]
  exact List.mem_cons_of_mem _ hp

theorem uFree_refill (s : SCAllocator) (mp : MappedPages8k)
    (hid align : Nat) :
    (s.refill mp hid).uFree align
      = pageUFree s.size align
          { startAddress := mp.startAddress
            bitfield := initBitfield s.size (pageSize - metadataSize)
            heapId := hid }
        + s.uFree align := by
  unfold SCAllocator.uFree
  rw [refill_allPages, List.map_cons, List.sum_cons]
  rfl

theorem pageUFree_fresh_pos (size align : Nat) (h1 : 0 < size)
    (h2 : size ≤ dataBytes) (a hid : Nat) :
    0 < pageUFree size align
        { startAddress := a
          bitfield := initBitfield size (pageSize - metadataSize)
          heapId := hid } := by
  apply pageUFree_pos _ 0
  · rw [maxBits_eq]
    omega
  · show initBitfield size (pageSize - metadataSize) 0 = false
    unfold initBitfield
    simp only [decide_eq_false_iff_not, not_le]
    exact lt_min (Nat.div_pos h2 h1) (by rw [maxBits_eq]; omega)
  · simp
  · simpa using h2

theorem allocStep_ok {s : SCAllocator} {L : Layout} (c : Nat) {ptr : Nat}
    {s' : SCAllocator}
    (h : s.allocate L = some (Except.ok ptr, s')) :
    allocStep s L c = some (s', ptr, c) := by
  unfold allocStep
  rw [h]
  rfl

theorem allocStep_oomRefill {s : SCAllocator} {L : Layout} (c : Nat)
    {e : String} {s1 : SCAllocator}
    (h : s.allocate L = some (Except.error e, s1)) {ptr : Nat}
    {s2 : SCAllocator}
    (h2 : (s1.refill (providerPage (pageSize * c)) 0).allocate L
        = some (Except.ok ptr, s2)) :
    allocStep s L c = some (s2, ptr, c + 1) := by
  unfold allocStep
  rw [h]
  show ((s1.refill (providerPage (pageSize * c)) 0).allocate L).bind _ = _
  rw [h2]
  rfl

/-- One C7 first-run step: succeeds from any invariant bounded state,
consuming a fresh provider page exactly when the allocator was out of
memory. -/
theorem allocStep_spec (s : SCAllocator) (L : Layout) (c : Nat)
    (inv : SCInv s) (hls : L.size ≤ s.size) (hal : 0 < L.align)
    (hdvd : L.align ∣ pageSize) (hc : 1 ≤ c) (hbd : BoundedAddrs s c) :
    ∃ s' ptr c', allocStep s L c = some (s', ptr, c') ∧ SCInv s'
      ∧ s'.size = s.size ∧ c ≤ c' ∧ 1 ≤ c' ∧ BoundedAddrs s' c'
      ∧ LivePtrAt s' L.align ptr
      ∧ (∀ q, LivePtrAt s L.align q → LivePtrAt s' L.align q)
      ∧ (∀ q, LivePtrAt s L.align q → q ≠ ptr) := by
  rcases hn : s.uFree L.align with _ | n
  · -- out of memory: the first allocation fails, a fresh page is refilled
    obtain ⟨r, s0, hstep, inv0, hsz0, hobj0, hcase⟩ :=
      scaAllocate_spec s L inv hls hal hdvd
    rcases hcase with ⟨ptr, p, rest, i, hr, hperm, -, hi, hb, halq, hfitq, -⟩
        | ⟨rfl, hs0, -⟩
    · exfalso
      have himax : i < maxBits := lt_of_lt_of_le hi (obj_le_maxBits inv)
      have hpos := @pageUFree_pos s.size L.align p i himax hb halq hfitq
      have hufs : s.uFree L.align
          = pageUFree s.size L.align p
            + (rest.map (pageUFree s.size L.align)).sum := by
        rw [uFree_perm hperm, List.map_cons, List.sum_cons]
      omega
    · rw [hs0] at hstep
      set mp := providerPage (pageSize * c) with hmp
      have hfresh : ∀ q ∈ s.allPages, q.startAddress ≠ mp.startAddress := by
        intro q hq
        have := hbd q hq
        show q.startAddress ≠ pageSize * c
        omega
      have hpos : 0 < mp.startAddress := by
        show 0 < pageSize * c
        have : (0:Nat) < pageSize := by simp [pageSize]
        exact Nat.mul_pos this hc
      have halm : mp.startAddress % pageSize = 0 := Nat.mul_mod_right _ _
      have inv2 := @SCInv_refill s inv mp 0 hpos halm hfresh
      have huf2 : 0 < (s.refill mp 0).uFree L.align := by
        rw [uFree_refill]
        have := pageUFree_fresh_pos s.size L.align inv.sizePos
          inv.sizeLe mp.startAddress 0
        omega
      obtain ⟨m, hm⟩ : ∃ m, (s.refill mp 0).uFree L.align = m + 1 :=
        ⟨(s.refill mp 0).uFree L.align - 1, by omega⟩
      obtain ⟨ptr, s2, hstep2, inv3, hsz2, hobj2, huf3, hpm2, hlive2,
          hpres2, hdist2⟩ :=
        alloc_uFree_ok (s.refill mp 0) L inv2 hls hal hdvd hm
      refine ⟨s2, ptr, c + 1, allocStep_oomRefill c hstep hstep2, inv3,
        hsz2, by omega, by omega, ?_, hlive2, ?_, ?_⟩
      · apply boundedAddrs_of_perm hpm2
        intro q hq
        rw [refill_allPages] at hq
        rcases List.mem_cons.mp hq with rfl | hq'
        · show pageSize * c < pageSize * (c + 1)
          have h0 : (0:Nat) < pageSize := by simp [pageSize]
          have h1 : pageSize * (c + 1) = pageSize * c + pageSize := by ring
          omega
        · have := hbd q hq'
          have hple : pageSize * c ≤ pageSize * (c + 1) :=
            Nat.mul_le_mul_left _ (by omega)
          omega
      · intro q hq
        exact hpres2 q (livePtrAt_refill hq)
      · intro q hq
        exact hdist2 q (livePtrAt_refill hq)
  · obtain ⟨ptr, s', hstep, inv', hsz, hobj, huf, hpm, hlive, hpres,
        hdist⟩ := alloc_uFree_ok s L inv hls hal hdvd hn
    exact ⟨s', ptr, c, allocStep_ok c hstep, inv', hsz, le_refl c, hc,
      boundedAddrs_of_perm hpm hbd, hlive, hpres, hdist⟩

theorem run1_succ_eq {n : Nat} {s : SCAllocator} {L : Layout} {c : Nat}
    {s' : SCAllocator} {ptr c' : Nat}
    (h : allocStep s L c = some (s', ptr, c')) :
    run1 (n + 1) s L c
      = (run1 n s' L c').map fun u => (u.1, ptr :: u.2.1, u.2.2) := by
  conv_lhs => rw [run1]
  rw [h]
  rfl

/-- The first C7 run: `N` allocations with refill-on-demand always
complete, returning `N` pairwise distinct pointers that are all live and
usable at the final state. -/
theorem run1_spec (L : Layout) (hal : 0 < L.align)
    (hdvd : L.align ∣ pageSize) :
    ∀ (N : Nat) (s : SCAllocator) (c : Nat), SCInv s → L.size ≤ s.size →
      1 ≤ c → BoundedAddrs s c →
      ∃ s1 ptrs c1, run1 N s L c = some (s1, ptrs, c1)
        ∧ SCInv s1 ∧ s1.size = s.size ∧ ptrs.length = N
        ∧ ptrs.Pairwise (fun a b => a ≠ b)
        ∧ (∀ q ∈ ptrs, LivePtrAt s1 L.align q)
        ∧ (∀ q, LivePtrAt s L.align q →
            LivePtrAt s1 L.align q ∧ ∀ x ∈ ptrs, x ≠ q) := by
  intro N
  induction N with
  | zero =>
    intro s c inv hls hc hbd
    exact ⟨s, [], c, rfl, inv, rfl, rfl, List.Pairwise.nil, by simp,
      fun q hq => ⟨hq, by simp⟩⟩
  | succ n ih =>
    intro s c inv hls hc hbd
    obtain ⟨s', ptr, c', hstep, inv', hsz, hcc, hc', hbd', hlive', hpres,
        hdist⟩ := allocStep_spec s L c inv hls hal hdvd hc hbd
    obtain ⟨s1, ptrs, c1, hrun, inv1, hsz1, hlen, hpw, hlv, hkeep⟩ :=
      ih s' c' inv' (by rw [hsz]; exact hls) hc' hbd'
    have hptr1 := hkeep ptr hlive'
    refine ⟨s1, ptr :: ptrs, c1, ?_, inv1, by rw [hsz1, hsz], by
      rw [List.length_cons, hlen], ?_, ?_, ?_⟩
    · rw [run1_succ_eq hstep, hrun, Option.map_some']
    · exact List.pairwise_cons.mpr
        ⟨fun x hx => (hptr1.2 x hx).symm, hpw⟩
    · intro q hq
      rcases List.mem_cons.mp hq with rfl | hq'
      · exact hptr1.1
      · exact hlv q hq'
    · intro q hq
      have h1 := hkeep q (hpres q hq)
      refine ⟨h1.1, ?_⟩
      intro x hx
      rcases List.mem_cons.mp hx with rfl | hx'
      · exact (hdist q hq).symm
      · exact h1.2 x hx'

/-- C7's property over the source operations: `N` allocations with fresh
refills on demand, then freeing all `N` objects, leaves enough free slots
that a second run of `N` allocations succeeds with no further refill. -/
theorem c7_reuse_core (N size c0 : Nat) (L : Layout)
    (h1 : 0 < size) (h2 : size ≤ dataBytes) (hls : L.size ≤ size)
    (hal : 0 < L.align) (hdvd : L.align ∣ pageSize) (hc : 1 ≤ c0) :
    ∃ s1 ptrs c1, run1 N (SCAllocator.new size) L c0 = some (s1, ptrs, c1)
      ∧ ptrs.length = N
      ∧ ∃ s2, deallocAll ptrs s1 L = some s2
        ∧ (allocRun N s2 L).isSome := by
  have inv0 := SCInv_new h1 h2
  have hbd0 : BoundedAddrs (SCAllocator.new size) c0 := by
    intro p hp
    simp [SCAllocator.new, SCAllocator.allPages] at hp
  obtain ⟨s1, ptrs, c1, hrun, inv1, hsz1, hlen, hpw, hlv, -⟩ :=
    run1_spec L hal hdvd N (SCAllocator.new size) c0 inv0 hls hc hbd0
  have hls1 : L.size ≤ s1.size := by rw [hsz1]; exact hls
  obtain ⟨s2, hdeal, inv2, hsz2, huf2⟩ :=
    deallocAll_uFree L ptrs s1 inv1 hls1 hpw hlv
  refine ⟨s1, ptrs, c1, hrun, hlen, s2, hdeal, ?_⟩
  apply allocRun_of_uFree N s2 L inv2 (by rw [hsz2]; exact hls1) hal hdvd
  rw [huf2, hlen]
  omega

theorem pageDealloc_offsetErr (p : MappedPages8k) (ptr : Nat) (L : Layout)
    (h : (ptr - p.startAddress) % L.size ≠ 0) :
    MappedPages8k.deallocate p ptr L = (Except.error offsetErr, p) := by
  simp only [MappedPages8k.deallocate, if_pos h]

theorem pageDealloc_rangeErr (p : MappedPages8k) (ptr : Nat) (L : Layout)
    (h0 : (ptr - p.startAddress) % L.size = 0)
    (h1 : ¬ (ptr - p.startAddress) / L.size < objectsPerPage L.size) :
    MappedPages8k.deallocate p ptr L = (Except.error rangeErr, p) := by
  simp only [MappedPages8k.deallocate]
  rw [if_neg (not_not_intro h0), if_pos h1]

theorem pageDealloc_doubleFree (p : MappedPages8k) (ptr : Nat) (L : Layout)
    (i : Nat) (h0 : ptr - p.startAddress = i * L.size) (hsz : 0 < L.size)
    (h1 : i < objectsPerPage L.size) (hb : p.bitfield i = false) :
    MappedPages8k.deallocate p ptr L = (Except.error doubleFreeErr, p) := by
  simp only [MappedPages8k.deallocate, h0]
  rw [if_neg (by simp [Nat.mul_mod_left]), Nat.mul_div_cancel _ hsz,
    if_neg (not_not_intro h1), if_pos hb]

/-- C5 amended: when the masked page base belongs to a page on the partial
list that is not full, every invalid slot target is reported as an error
with no state change: offsets that are not slot boundaries, slot indices at
or above `objects_per_page`, and already-clear slots (double free). (When
the base belongs to no owned page, or the affected page's census makes the
after-the-fact bookkeeping move fail, the release build panics instead of
returning an error.) -/
theorem c5_invalid_target_errors (s : SCAllocator) (layout : Layout)
    (h : SCReachable s) (hls : layout.size ≤ s.size)
    (p : MappedPages8k) (hp : p ∈ s.slabs) (hnf : ¬ p.isFull)
    (ptr : Nat) (hmask : ptr - ptr % pageSize = p.startAddress) :
    ((ptr - p.startAddress) % s.size ≠ 0 →
        s.deallocate ptr layout = some (Except.error offsetErr, s))
    ∧ (∀ i, ptr - p.startAddress = i * s.size → ¬ i < s.obj_per_page →
        s.deallocate ptr layout = some (Except.error rangeErr, s))
    ∧ (∀ i, ptr - p.startAddress = i * s.size → i < s.obj_per_page →
        p.bitfield i = false →
        s.deallocate ptr layout = some (Except.error doubleFreeErr, s)) := by
  have inv := inv_reachable h
  have h2 : s.size ≤ pageSize - cacheLineSize := by
    have h3 := inv.sizeLe
    rw [dataBytes_eq] at h3
    simp only [pageSize, cacheLineSize]
    omega
  have hpm : p ∈ s.allPages := mem_allPages_of_slabs hp
  have hfind : s.findPage (ptr - ptr % pageSize) = some p := by
    rw [hmask]
    exact findPage_eq inv hpm
  obtain ⟨pre, suf, hdec⟩ := List.append_of_mem hp
  have hwb : s.writeBack (ptr - ptr % pageSize) p = s := by
    rw [hmask, writeBack_slabs inv hdec p, ← hdec]
  obtain ⟨j, hj, hbj⟩ := inv.slabsUsed p hp
  have hnem : ¬ p.isEmpty s.obj_per_page := by
    intro hc
    rw [hc j hj] at hbj
    cases hbj
  refine ⟨?_, ?_, ?_⟩
  · intro hoff
    have hpd := pageDealloc_offsetErr p ptr ⟨s.size, layout.align⟩ hoff
    have heqn := scaDealloc_eq s ptr layout hls h2 hfind
    simp only [hpd] at heqn
    rw [hwb, if_neg hnem, if_neg hnf] at heqn
    exact heqn
  · intro i hoffeq hnotlt
    have hpd := pageDealloc_rangeErr p ptr ⟨s.size, layout.align⟩
      (by rw [hoffeq]; exact Nat.mul_mod_left _ _)
      (by
        rw [show ptr - p.startAddress = i * s.size from hoffeq,
          Nat.mul_div_cancel _ inv.sizePos]
        rw [← inv.objEq]
        exact hnotlt)
    have heqn := scaDealloc_eq s ptr layout hls h2 hfind
    simp only [hpd] at heqn
    rw [hwb, if_neg hnem, if_neg hnf] at heqn
    exact heqn
  · intro i hoffeq hlt hb
    have hpd := pageDealloc_doubleFree p ptr ⟨s.size, layout.align⟩ i
      hoffeq inv.sizePos (inv.objEq ▸ hlt) hb
    have heqn := scaDealloc_eq s ptr layout hls h2 hfind
    simp only [hpd] at heqn
    rw [hwb, if_neg hnem, if_neg hnf] at heqn
    exact heqn

/-! ## Concrete reachable states for the sample runs -/

theorem sca16_alloc_eq :
    sca16.allocate ⟨16, 1⟩ = some (Except.ok 8192, sca16a) := rfl

theorem sca16a_allPages : sca16a.allPages = [page16a] := rfl

theorem sca16_reachable : SCReachable sca16 :=
  SCReachable.refill _ _ _
    (SCReachable.new 16 (by decide) (by decide))
    (by decide) (by decide)
    (by
      intro q hq
      simp [SCAllocator.new, SCAllocator.allPages] at hq)

theorem sca16a_reachable : SCReachable sca16a :=
  SCReachable.alloc sca16 ⟨16, 1⟩ (Except.ok 8192) sca16a sca16_reachable
    (by decide) (one_dvd _) sca16_alloc_eq

/-- C1 amended: after any legal operation sequence from a new allocator,
page addresses are globally distinct (each owned page is in exactly one of
the three lists); pages on `empty_slabs` have every in-range bit clear;
pages on `full_slabs` have every in-range bit set; pages on `slabs` have at
least one in-range bit set, and also at least one clear whenever a page
holds at least two objects. (For one-object classes a full page can sit on
`slabs`, so the clear direction of the census fails there.) -/
theorem c1_page_census (s : SCAllocator) (h : SCReachable s) :
    (s.allPages.map MappedPages8k.startAddress).Nodup
    ∧ (∀ p ∈ s.empty_slabs, ∀ i < s.obj_per_page, p.bitfield i = false)
    ∧ (∀ p ∈ s.full_slabs, ∀ i < s.obj_per_page, p.bitfield i = true)
    ∧ (∀ p ∈ s.slabs, ∃ i, i < s.obj_per_page ∧ p.bitfield i = true)
    ∧ (2 ≤ s.obj_per_page →
        ∀ p ∈ s.slabs, ∃ i, i < s.obj_per_page ∧ p.bitfield i = false) := by
  have inv := inv_reachable h
  exact ⟨inv.nodupAddr, inv.emptyClear,
    fun p hp i hi =>
      inv.fullSet p hp i (lt_of_lt_of_le hi (obj_le_maxBits inv)),
    inv.slabsUsed, inv.slabsFree⟩

theorem c1_page_census_witness :
    (sca16a.allPages.map MappedPages8k.startAddress).Nodup
    ∧ (∀ p ∈ sca16a.empty_slabs, ∀ i < sca16a.obj_per_page,
        p.bitfield i = false)
    ∧ (∀ p ∈ sca16a.full_slabs, ∀ i < sca16a.obj_per_page,
        p.bitfield i = true)
    ∧ (∀ p ∈ sca16a.slabs, ∃ i, i < sca16a.obj_per_page
        ∧ p.bitfield i = true)
    ∧ (2 ≤ sca16a.obj_per_page →
        ∀ p ∈ sca16a.slabs, ∃ i, i < sca16a.obj_per_page
          ∧ p.bitfield i = false) :=
  c1_page_census sca16a sca16a_reachable

/-- C3: deallocating a live previously-allocated slot of a reachable
allocator, with a layout whose size is within the class, moves the owning
page to the empty list exactly when its bitfield becomes all clear;
otherwise moves it from the full to the partial list exactly when the page
was full just before; otherwise moves no page between lists, updating the
owning page in place. -/
theorem c3_dealloc_transitions (s : SCAllocator) (layout : Layout)
    (h : SCReachable s) (hls : layout.size ≤ s.size)
    (p : MappedPages8k) (i : Nat) (hp : p ∈ s.allPages)
    (hi : i < s.obj_per_page) (hb : p.bitfield i = true) :
    ∃ s', s.deallocate (p.startAddress + i * s.size) layout
        = some (Except.ok (), s')
      ∧ (((p.clearBit i).isEmpty s.obj_per_page
            ∧ ∃ pre suf, s.slabs = pre ++ p :: suf
              ∧ s'.slabs = pre ++ suf
              ∧ s'.empty_slabs = p.clearBit i :: s.empty_slabs
              ∧ s'.full_slabs = s.full_slabs)
        ∨ (¬ (p.clearBit i).isEmpty s.obj_per_page ∧ p.isFull
            ∧ ∃ pre suf, s.full_slabs = pre ++ p :: suf
              ∧ s'.full_slabs = pre ++ suf
              ∧ s'.slabs = p.clearBit i :: s.slabs
              ∧ s'.empty_slabs = s.empty_slabs)
        ∨ (¬ (p.clearBit i).isEmpty s.obj_per_page ∧ ¬ p.isFull
            ∧ ∃ pre suf, s.slabs = pre ++ p :: suf
              ∧ s'.slabs = pre ++ p.clearBit i :: suf
              ∧ s'.empty_slabs = s.empty_slabs
              ∧ s'.full_slabs = s.full_slabs)) := by
  obtain ⟨s', h1, -, -, -, -, h6⟩ :=
    scaDeallocate_spec s layout (inv_reachable h) hls hp hi hb
  exact ⟨s', h1, h6⟩

theorem c3_dealloc_transitions_witness :
    ∃ s', sca16a.deallocate (page16a.startAddress + 0 * sca16a.size) ⟨16, 1⟩
        = some (Except.ok (), s')
      ∧ (((page16a.clearBit 0).isEmpty sca16a.obj_per_page
            ∧ ∃ pre suf, sca16a.slabs = pre ++ page16a :: suf
              ∧ s'.slabs = pre ++ suf
              ∧ s'.empty_slabs = page16a.clearBit 0 :: sca16a.empty_slabs
              ∧ s'.full_slabs = sca16a.full_slabs)
        ∨ (¬ (page16a.clearBit 0).isEmpty sca16a.obj_per_page
            ∧ page16a.isFull
            ∧ ∃ pre suf, sca16a.full_slabs = pre ++ page16a :: suf
              ∧ s'.full_slabs = pre ++ suf
              ∧ s'.slabs = page16a.clearBit 0 :: sca16a.slabs
              ∧ s'.empty_slabs = sca16a.empty_slabs)
        ∨ (¬ (page16a.clearBit 0).isEmpty sca16a.obj_per_page
            ∧ ¬ page16a.isFull
            ∧ ∃ pre suf, sca16a.slabs = pre ++ page16a :: suf
              ∧ s'.slabs = pre ++ page16a.clearBit 0 :: suf
              ∧ s'.empty_slabs = sca16a.empty_slabs
              ∧ s'.full_slabs = sca16a.full_slabs)) :=
  c3_dealloc_transitions sca16a ⟨16, 1⟩ sca16a_reachable (by decide)
    page16a 0
    (by rw [sca16a_allPages]; exact List.mem_cons_self _ _)
    (by decide) (by decide)

/-- C9 amended: the entry `assert!`s of `allocate` and `deallocate` are
active in release builds, but under the spec's caller preconditions
(reachable state, layout size within the class, valid alignment, live
previously-allocated pointer) they hold, and neither operation panics: both
return a result. -/
theorem c9_no_panic_on_valid_inputs (s : SCAllocator) (layout : Layout)
    (h : SCReachable s) (hls : layout.size ≤ s.size)
    (hal : 0 < layout.align) (hdvd : layout.align ∣ pageSize)
    (ptr : Nat) (hlive : LivePtr s ptr) :
    (s.allocate layout).isSome ∧ (s.deallocate ptr layout).isSome := by
  have inv := inv_reachable h
  constructor
  · obtain ⟨r, s', h1, -⟩ := scaAllocate_spec s layout inv hls hal hdvd
    rw [h1]
    rfl
  · obtain ⟨p, hp, i, hptr, hi, hb⟩ := hlive
    subst hptr
    obtain ⟨s', h1, -⟩ := scaDeallocate_spec s layout inv hls hp hi hb
    rw [h1]
    rfl

theorem c9_no_panic_on_valid_inputs_witness :
    (sca16a.allocate ⟨16, 1⟩).isSome
    ∧ (sca16a.deallocate 8192 ⟨16, 1⟩).isSome :=
  c9_no_panic_on_valid_inputs sca16a ⟨16, 1⟩ sca16a_reachable (by decide)
    (by decide) (one_dvd _) 8192
    ⟨page16a, by rw [sca16a_allPages]; exact List.mem_cons_self _ _,
      0, by decide, by decide, by decide⟩

theorem c5_invalid_target_errors_witness :
    ((8193 - page16a.startAddress) % sca16a.size ≠ 0 →
        sca16a.deallocate 8193 ⟨16, 1⟩ = some (Except.error offsetErr, sca16a))
    ∧ (∀ i, 8193 - page16a.startAddress = i * sca16a.size →
        ¬ i < sca16a.obj_per_page →
        sca16a.deallocate 8193 ⟨16, 1⟩ = some (Except.error rangeErr, sca16a))
    ∧ (∀ i, 8193 - page16a.startAddress = i * sca16a.size →
        i < sca16a.obj_per_page → page16a.bitfield i = false →
        sca16a.deallocate 8193 ⟨16, 1⟩
          = some (Except.error doubleFreeErr, sca16a)) :=
  c5_invalid_target_errors sca16a ⟨16, 1⟩ sca16a_reachable (by decide)
    page16a
    (by rw [show sca16a.slabs = [page16a] from rfl]; exact List.mem_cons_self _ _)
    (by decide) 8193 (by decide)

theorem c7_reuse_core_witness :
    ∃ s1 ptrs c1, run1 1 (SCAllocator.new 16) ⟨16, 1⟩ 1 = some (s1, ptrs, c1)
      ∧ ptrs.length = 1
      ∧ ∃ s2, deallocAll ptrs s1 ⟨16, 1⟩ = some s2
        ∧ (allocRun 1 s2 ⟨16, 1⟩).isSome :=
  c7_reuse_core 1 16 1 ⟨16, 1⟩ (by decide) (by decide) (by decide)
    (by decide) (one_dvd _) (by decide)
